import Mathlib

/-!
# A shallow embedding of `fs.c` (habeelali/c_filesystem)

The C program keeps its state in file-level statics (`MOUNT_FLAG`, `SUPERBLOCK`,
`BLOCK_BITMAP`, `INODE_BITMAP`, `INODE_TABLE`) and talks to a block device through
`disk_size`, `disk_read` and `disk_write`.  Here the statics and the device are the
fields of one record `FS`, and every API function is a pure function from `FS` to a
return code and a new `FS`.

Conventions.

* A `union block` is its 4096 bytes, kept as one natural number: the little-endian
  value of the byte array, so that byte `k` is `(b / 256^k) % 256`.  The typed views
  of the union (`superblock`, `bitmap`, `pointers`, `directory_entries`, `inodes`)
  are little-endian decoders over these bytes.
* `uint32_t` values are naturals, reduced modulo `2^32` where the C arithmetic wraps.
* A C string is the list of its bytes before the terminating NUL.
* `printf` output is dropped, except for the lines printed by `fs_list`.
* `DISK_OPEN_FLAG` is written by `fs_mount` and never read; it is not modelled.
* `malloc` is assumed to succeed; after `free` the table keeps its last contents
  (no function reads it before the next `fs_mount` overwrites it).
-/

namespace CFS

/-! ## Constants of `fs.h` -/

def BLOCK_SIZE : Nat := 4096
def MAX_NAME_LEN : Nat := 252
def INODE_DIRECT_POINTERS : Nat := 13
def DIRENTS_PER_BLOCK : Nat := 16
def MAX_POINTERS : Nat := 1024
def ROOT_DIR_INODE : Nat := 0
/-- The size of `struct inode`: 4 + 13*4 + 4 + 1 + 3 bytes. -/
def INODE_SIZE : Nat := 64
/-- The size of `struct directory_entry` (packed): 4 + 252 bytes. -/
def DIRENT_SIZE : Nat := 256
/-- The modulus of `uint32_t`. -/
def U32 : Nat := 4294967296
/-- The value of `(uint32_t)-1`. -/
def NONE32 : Nat := 4294967295
/-- The number of values of `size_t` (64 bits). -/
def SIZE_T : Nat := 18446744073709551616

/-! ## Blocks and their views -/

/-- A `union block`: the little-endian value of its bytes. -/
abbrev Block := Nat

/-- The block `{0}`. -/
def zero_block : Block := 0

/-- The byte at offset `k`. -/
def byte_at (b : Block) (k : Nat) : Nat := (b >>> (8 * k)) % 256

/-- The store of byte `v` at offset `k`. -/
def set_byte (b : Block) (k v : Nat) : Block :=
  b ^^^ ((byte_at b k ^^^ (v % 256)) <<< (8 * k))

/-- The copy `memcpy(b + off, src, n)`, where `src j` is the `j`-th source byte. -/
def write_bytes (b : Block) (off : Nat) (src : Nat → Nat) : Nat → Block
  | 0 => b
  | n + 1 => set_byte (write_bytes b off src n) (off + n) (src n)

/-- A little-endian `uint32_t` read at byte offset `off`. -/
def get32 (b : Block) (off : Nat) : Nat :=
  byte_at b off + 256 * byte_at b (off + 1) + 65536 * byte_at b (off + 2)
    + 16777216 * byte_at b (off + 3)

/-- A little-endian `uint32_t` store at byte offset `off`. -/
def set32 (b : Block) (off v : Nat) : Block :=
  set_byte (set_byte (set_byte (set_byte b off v) (off + 1) (v / 256)) (off + 2) (v / 65536))
    (off + 3) (v / 16777216)

/-- The view `pointers[j]` (also `bitmap[j]`). -/
def get_pointer (b : Block) (j : Nat) : Nat := get32 b (4 * j)

def set_pointer (b : Block) (j v : Nat) : Block := set32 b (4 * j) v

/-- The macro `BITMAP_SET(bitmap, index)`. -/
def BITMAP_SET (b : Block) (index : Nat) : Block :=
  set_pointer b (index / 32) (get_pointer b (index / 32) ||| (1 <<< (index % 32)))

/-- The macro `BITMAP_CLEAR(bitmap, index)`: the word and-ed with `~(1 << (index % 32))`. -/
def BITMAP_CLEAR (b : Block) (index : Nat) : Block :=
  set_pointer b (index / 32) (get_pointer b (index / 32) &&& (NONE32 ^^^ (1 <<< (index % 32))))

/-- The macro `BITMAP_TEST(bitmap, index)` read as a truth value. -/
def BITMAP_TEST (b : Block) (index : Nat) : Bool :=
  (get_pointer b (index / 32) &&& (1 <<< (index % 32))) != 0

/-- The bytes of a C string read from `f 0, f 1, ...`, at most `n` of them. -/
def cstr (f : Nat → Nat) : Nat → List Nat
  | 0 => []
  | n + 1 => if f 0 = 0 then [] else f 0 :: cstr (fun j => f (j + 1)) n

/-- The view `directory_entries[i].inode`. -/
def entry_inode (b : Block) (i : Nat) : Nat := get32 b (DIRENT_SIZE * i)

/-- The string `directory_entries[i].name` after `name[MAX_NAME_LEN - 1] = 0`. -/
def entry_name (b : Block) (i : Nat) : List Nat :=
  cstr (fun j => byte_at b (DIRENT_SIZE * i + 4 + j)) (MAX_NAME_LEN - 1)

/-- The string `directory_entries[i].name` read without forcing the last byte
(the name array is 252 bytes long). -/
def entry_name_raw (b : Block) (i : Nat) : List Nat :=
  cstr (fun j => byte_at b (DIRENT_SIZE * i + 4 + j)) MAX_NAME_LEN

/-- The two statements `strncpy(e.name, name, MAX_NAME_LEN); e.name[MAX_NAME_LEN-1] = 0`
on entry `i`, preceded by `e.inode = ino`. -/
def set_entry (b : Block) (i ino : Nat) (name : List Nat) : Block :=
  write_bytes (set32 b (DIRENT_SIZE * i) ino) (DIRENT_SIZE * i + 4)
    (fun j => if j < MAX_NAME_LEN - 1 then name.getD j 0 else 0) MAX_NAME_LEN

/-- The statement `memset(&entries[i], 0, sizeof(struct directory_entry))`. -/
def clear_entry (b : Block) (i : Nat) : Block :=
  write_bytes b (DIRENT_SIZE * i) (fun _ => 0) DIRENT_SIZE

/-- The string `"."`. -/
def DOT : List Nat := [46]
/-- The string `".."`. -/
def DOTDOT : List Nat := [46, 46]
/-- The character `/`. -/
def SLASH : Nat := 47

/-! ## Inodes -/

/-- A `struct inode`; the three padding bytes are not kept. -/
structure Inode where
  i_size : Nat
  i_direct_pointers : Nat → Nat
  i_indirect_pointer : Nat
  i_is_directory : Nat

/-- The inode `{0}`. -/
def zero_inode : Inode := ⟨0, fun _ => 0, 0, 0⟩

def Inode.set_direct (ino : Inode) (dp v : Nat) : Inode :=
  { ino with i_direct_pointers := fun k => if k = dp then v else ino.i_direct_pointers k }

/-- The view `inodes[j]` of a block. -/
def get_inode (b : Block) (j : Nat) : Inode :=
  { i_size := get32 b (INODE_SIZE * j)
    i_direct_pointers := fun dp => get32 b (INODE_SIZE * j + 4 + 4 * dp)
    i_indirect_pointer := get32 b (INODE_SIZE * j + 56)
    i_is_directory := byte_at b (INODE_SIZE * j + 60) }

/-- The assignment `inode_block.inodes[j] = ino` (padding written as zero). -/
def put_inode (b : Block) (j : Nat) (ino : Inode) : Block :=
  write_bytes b (INODE_SIZE * j)
    (fun r =>
      if r < 4 then ino.i_size / 256 ^ r
      else if r < 56 then ino.i_direct_pointers ((r - 4) / 4) / 256 ^ (r % 4)
      else if r < 60 then ino.i_indirect_pointer / 256 ^ (r - 56)
      else if r = 60 then ino.i_is_directory
      else 0)
    INODE_SIZE

/-! ## The block device -/

/-- Modelled from the spec: the block device of `disk.h` (not part of the sources):
`size()` blocks of 4096 bytes; `read` and `write` of a block number below `size()`
succeed, any other block number fails. -/
structure Disk where
  size : Nat
  blocks : Nat → Block

/-- The contents of device block `n` after `disk_write(n0, b)`. -/
def Disk.put (d : Disk) (n0 : Nat) (b : Block) : Disk :=
  { d with blocks := fun k => if k = n0 then b else d.blocks k }

def disk_read (d : Disk) (n : Nat) : Option Block :=
  if n < d.size then some (d.blocks n) else none

def disk_write (d : Disk) (n : Nat) (b : Block) : Option Disk :=
  if n < d.size then some (d.put n b) else none

/-! ## The program state -/

structure FS where
  MOUNT_FLAG : Bool
  SUPERBLOCK : Block
  BLOCK_BITMAP : Block
  INODE_BITMAP : Block
  INODE_TABLE : Nat → Inode
  disk : Disk

def FS.s_blocks_count (s : FS) : Nat := get32 s.SUPERBLOCK 0
def FS.s_inodes_count (s : FS) : Nat := get32 s.SUPERBLOCK 4
def FS.s_block_bitmap (s : FS) : Nat := get32 s.SUPERBLOCK 8
def FS.s_inode_bitmap (s : FS) : Nat := get32 s.SUPERBLOCK 12
def FS.s_inode_table_block_start (s : FS) : Nat := get32 s.SUPERBLOCK 16
def FS.s_data_blocks_start (s : FS) : Nat := get32 s.SUPERBLOCK 20

/-- The assignment `INODE_TABLE[i] = ino`. -/
def FS.set_inode (s : FS) (i : Nat) (ino : Inode) : FS :=
  { s with INODE_TABLE := fun k => if k = i then ino else s.INODE_TABLE k }

/-! ## Bitmap scans -/

/-- The scan `for (i = lo; ...; i++) if (!BITMAP_TEST(bitmap, i)) ...` over `n` indices
starting at `i`: the first index whose bit is clear. -/
def find_free (bm : Block) : Nat → Nat → Option Nat
  | _, 0 => none
  | i, n + 1 => if BITMAP_TEST bm i then find_free bm (i + 1) n else some i

/-- The first clear bit in `[lo, hi)`. -/
def first_clear (bm : Block) (lo hi : Nat) : Option Nat := find_free bm lo (hi - lo)

/-- The function `allocate_data_block`: the block number, or `(uint32_t)-1`. -/
def allocate_data_block (s : FS) : Nat × FS :=
  match first_clear s.BLOCK_BITMAP s.s_data_blocks_start s.s_blocks_count with
  | some i => (i, { s with BLOCK_BITMAP := BITMAP_SET s.BLOCK_BITMAP i })
  | none => (NONE32, s)

/-! ## `fs_format` -/

/-- The loop `for (i = 0; i < n; i++) BITMAP_SET(bitmap, i)`. -/
def set_bits (bm : Block) : Nat → Block
  | 0 => bm
  | n + 1 => BITMAP_SET (set_bits bm n) n

/-- The root directory block built by `fs_format`. -/
def root_dir_block : Block :=
  set_entry (set_entry zero_block 0 ROOT_DIR_INODE DOT) 1 ROOT_DIR_INODE DOTDOT

/-- The inode `root_inode` built by `fs_format`. -/
def root_inode (data_start : Nat) : Inode :=
  { i_size := BLOCK_SIZE
    i_direct_pointers := fun k => if k = 0 then data_start else 0
    i_indirect_pointer := 0
    i_is_directory := 1 }

/-- The inner loop of `fs_format` over `j`, for inode-table block `i`: slot `j` holds
inode number `64 * i + j` while that number is below `inodes_count`. -/
def format_inode_block (inodes_count data_start i : Nat) : Block :=
  (List.range 64).foldl
    (fun blk j =>
      if 64 * i + j ≥ inodes_count then blk
      else if 64 * i + j = ROOT_DIR_INODE then put_inode blk j (root_inode data_start)
      else put_inode blk j zero_inode)
    zero_block

/-- The outer loop of `fs_format` writing inode-table blocks `0 .. n-1`; `none` when a
`disk_write` fails. -/
def format_inode_table (inodes_count data_start table_start : Nat) : Nat → Disk → Option Disk
  | 0, d => some d
  | n + 1, d =>
    match format_inode_table inodes_count data_start table_start n d with
    | none => none
    | some d1 =>
      disk_write d1 ((table_start + n) % U32) (format_inode_block inodes_count data_start n)

def fs_format (s : FS) : Int × FS :=
  if s.MOUNT_FLAG then (-1, s)
  else
    let total_blocks := s.disk.size % U32
    if total_blocks < 8 then (-1, s)
    else
      let sb1 := set32 s.SUPERBLOCK 4 total_blocks
      let inodes_per_block := BLOCK_SIZE / INODE_SIZE
      let inode_blocks := ((total_blocks + inodes_per_block + (U32 - 1)) % U32) / inodes_per_block
      let sb2 := set32 (set32 (set32 (set32 (set32 sb1 0 total_blocks) 8 1) 12 2) 16 3) 20
        ((3 + inode_blocks) % U32)
      let s1 : FS := { s with SUPERBLOCK := sb2 }
      if s1.s_data_blocks_start ≥ total_blocks then (-1, s1)
      else
        let bb := set_bits zero_block s1.s_data_blocks_start
        let ib := BITMAP_SET zero_block ROOT_DIR_INODE
        let s2 : FS := { s1 with BLOCK_BITMAP := bb, INODE_BITMAP := ib }
        match disk_write s2.disk s1.s_data_blocks_start root_dir_block with
        | none => (-1, s2)
        | some d1 =>
          let s3 : FS := { s2 with disk := d1, BLOCK_BITMAP := BITMAP_SET bb s1.s_data_blocks_start }
          match format_inode_table s1.s_inodes_count s1.s_data_blocks_start
              s1.s_inode_table_block_start inode_blocks d1 with
          | none => (-1, s3)
          | some d2 =>
            match disk_write d2 0 s3.SUPERBLOCK with
            | none => (-1, { s3 with disk := d2 })
            | some d3 =>
              match disk_write d3 1 s3.BLOCK_BITMAP with
              | none => (-1, { s3 with disk := d3 })
              | some d4 =>
                match disk_write d4 2 s3.INODE_BITMAP with
                | none => (-1, { s3 with disk := d4 })
                | some d5 => (0, { s3 with disk := d5 })

/-! ## `fs_mount` and `fs_unmount` -/

/-- The loading loop of `fs_mount` over the first `n` inode-table blocks; `none` when a
`disk_read` fails. -/
def mount_load (d : Disk) (table_start total_inodes : Nat) :
    Nat → (Nat → Inode) → Option (Nat → Inode)
  | 0, t => some t
  | n + 1, t =>
    match mount_load d table_start total_inodes n t with
    | none => none
    | some t1 =>
      match disk_read d ((table_start + n) % U32) with
      | none => none
      | some blk =>
        some (fun idx => if idx / 64 = n ∧ idx < total_inodes then get_inode blk (idx % 64)
          else t1 idx)

def fs_mount (s : FS) : Int × FS :=
  if s.MOUNT_FLAG then (-1, s)
  else
    match disk_read s.disk 0 with
    | none => (-1, s)
    | some sb =>
      let s1 : FS := { s with SUPERBLOCK := sb }
      match disk_read s.disk 1 with
      | none => (-1, s1)
      | some bb =>
        let s2 : FS := { s1 with BLOCK_BITMAP := bb }
        match disk_read s.disk 2 with
        | none => (-1, s2)
        | some ib =>
          let s3 : FS := { s2 with INODE_BITMAP := ib }
          let inode_table_blocks :=
            (s3.s_data_blocks_start + U32 - s3.s_inode_table_block_start) % U32
          let total_inodes := ((BLOCK_SIZE / INODE_SIZE) * inode_table_blocks) % U32
          match mount_load s3.disk s3.s_inode_table_block_start total_inodes
              inode_table_blocks s3.INODE_TABLE with
          | none => (-1, s3)
          | some t => (0, { s3 with INODE_TABLE := t, MOUNT_FLAG := true })

/-- The inner loop of `fs_unmount`: the 64 inodes of table block `i`, copied into the
local `inode_block` (all of its bytes are assigned). -/
def unmount_inode_block (t : Nat → Inode) (i : Nat) : Block :=
  (List.range 64).foldl (fun blk j => put_inode blk j (t (64 * i + j))) zero_block

/-- The outer loop of `fs_unmount` over the first `n` blocks; a failing `disk_write`
is reported and the loop goes on. -/
def unmount_flush (t : Nat → Inode) (table_start : Nat) : Nat → Disk → Disk
  | 0, d => d
  | n + 1, d =>
    let d1 := unmount_flush t table_start n d
    match disk_write d1 ((table_start + n) % U32) (unmount_inode_block t n) with
    | none => d1
    | some d2 => d2

def fs_unmount (s : FS) : FS :=
  if !s.MOUNT_FLAG then s
  else
    let inode_table_blocks :=
      (s.s_data_blocks_start + U32 - s.s_inode_table_block_start) % U32
    { s with
      disk := unmount_flush s.INODE_TABLE s.s_inode_table_block_start inode_table_blocks s.disk
      MOUNT_FLAG := false }

/-! ## Paths -/

/-- One call of `strtok_r(rest, "/", &rest)` on the string `s`: the token and the new
`rest` (the string after the delimiter that ended the token), or `none` when `s`
holds no token. -/
def strtok_r (s : List Nat) : Option (List Nat × List Nat) :=
  match s.dropWhile (fun c => c == SLASH) with
  | [] => none
  | c :: cs =>
    some ((c :: cs).takeWhile (fun x => x != SLASH),
      ((c :: cs).dropWhile (fun x => x != SLASH)).drop 1)

/-- The successive results of `strtok_r` on `s`, at most `n` of them. -/
def tokens_aux : Nat → List Nat → List (List Nat × List Nat)
  | 0, _ => []
  | n + 1, s =>
    match strtok_r s with
    | none => []
    | some (t, r) => (t, r) :: tokens_aux n r

/-- All the pairs `(token, rest)` that the loop `while ((token = strtok_r(rest, "/", &rest)))`
sees on `path_copy`; a token takes at least one character, so `length` calls are enough. -/
def path_tokens (path_copy : List Nat) : List (List Nat × List Nat) :=
  tokens_aux path_copy.length path_copy

/-- The statements `strncpy(path_copy, path, 256); path_copy[255] = 0`. -/
def path_copy (path : List Nat) : List Nat := path.take 255

/-- The statements `strncpy(name, token, MAX_NAME_LEN); name[MAX_NAME_LEN - 1] = 0`. -/
def name_of (token : List Nat) : List Nat := token.take (MAX_NAME_LEN - 1)

/-! ## Directory lookup -/

inductive Lookup where
  | io_error
  | not_found
  | found (ino : Nat)

/-- The scan of one directory block for `name`, over `n` slots from slot `i`:
the entry must have `inode != 0` and `strcmp(entries[i].name, name) == 0`. -/
def find_entry (blk : Block) (name : List Nat) : Nat → Nat → Option Nat
  | _, 0 => none
  | i, n + 1 =>
    if entry_inode blk i ≠ 0 ∧ entry_name blk i = name then some (entry_inode blk i)
    else find_entry blk name (i + 1) n

/-- The scan of the direct blocks `dp, dp+1, ...` (`n` of them) of a directory inode. -/
def dir_lookup (d : Disk) (ino : Inode) (name : List Nat) : Nat → Nat → Lookup
  | _, 0 => Lookup.not_found
  | dp, n + 1 =>
    if ino.i_direct_pointers dp = 0 then dir_lookup d ino name (dp + 1) n
    else
      match disk_read d (ino.i_direct_pointers dp) with
      | none => Lookup.io_error
      | some blk =>
        match find_entry blk name 0 DIRENTS_PER_BLOCK with
        | some x => Lookup.found x
        | none => dir_lookup d ino name (dp + 1) n

/-! ## `fs_create` -/

/-- The scan of one directory block for a slot with `inode == 0`. -/
def find_slot (blk : Block) : Nat → Nat → Option Nat
  | _, 0 => none
  | i, n + 1 => if entry_inode blk i = 0 then some i else find_slot blk (i + 1) n

/-- The loop of `fs_create` that inserts the entry `(new_ino, name)` into the directory
`parent`, over the direct pointers `dp, dp+1, ...` (`n` of them).  The flag tells whether
`entry_added` was set; every `return -1` inside the loop gives `false`. -/
def add_entry (parent new_ino : Nat) (name : List Nat) : Nat → Nat → FS → Bool × FS
  | _, 0, s => (false, s)
  | dp, n + 1, s =>
    if (s.INODE_TABLE parent).i_direct_pointers dp = 0 then
      match first_clear s.BLOCK_BITMAP s.s_data_blocks_start s.s_blocks_count with
      | none => (false, s)
      | some nb =>
        let s1 : FS := { s with BLOCK_BITMAP := BITMAP_SET s.BLOCK_BITMAP nb }
        let pino := s1.INODE_TABLE parent
        let s2 := s1.set_inode parent
          { (pino.set_direct dp nb) with i_size := (pino.i_size + BLOCK_SIZE) % U32 }
        match disk_write s2.disk nb (set_entry zero_block 0 new_ino name) with
        | none => (false, s2)
        | some d => (true, { s2 with disk := d })
    else
      match disk_read s.disk ((s.INODE_TABLE parent).i_direct_pointers dp) with
      | none => (false, s)
      | some blk =>
        match find_slot blk 0 DIRENTS_PER_BLOCK with
        | some i =>
          match disk_write s.disk ((s.INODE_TABLE parent).i_direct_pointers dp)
              (set_entry blk i new_ino name) with
          | none => (false, s)
          | some d => (true, { s with disk := d })
        | none => add_entry parent new_ino name (dp + 1) n s

/-- The `if (new_inode->i_is_directory) ... else ...` part of `fs_create` for the new
inode `ni`: a directory gets one data block holding `.` and `..`; the flag is `false`
for `return -1`. -/
def init_new_inode (s1 : FS) (ni parent : Nat) (dirflag : Bool) : Bool × FS :=
  if dirflag then
    match first_clear s1.BLOCK_BITMAP s1.s_data_blocks_start s1.s_blocks_count with
    | none => (false, s1)
    | some db =>
      let s2 : FS := { s1 with BLOCK_BITMAP := BITMAP_SET s1.BLOCK_BITMAP db }
      match disk_write s2.disk db (set_entry (set_entry zero_block 0 ni DOT) 1 parent DOTDOT) with
      | none => (false, s2)
      | some d =>
        (true, ({ s2 with disk := d } : FS).set_inode ni
          { ((s2.INODE_TABLE ni).set_direct 0 db) with i_size := BLOCK_SIZE })
  else (true, s1.set_inode ni { (s1.INODE_TABLE ni) with i_size := 0 })

/-- The branch of `fs_create` that allocates and initialises a new inode and links it
into `parent`; the new inode number, or `none` for `return -1`. -/
def create_node (s : FS) (parent : Nat) (name : List Nat) (dirflag : Bool) : Option Nat × FS :=
  match first_clear s.INODE_BITMAP 0 s.s_inodes_count with
  | none => (none, s)
  | some ni =>
    let s1 := ({ s with INODE_BITMAP := BITMAP_SET s.INODE_BITMAP ni } : FS).set_inode ni
      { zero_inode with i_is_directory := if dirflag then 1 else 0 }
    match init_new_inode s1 ni parent dirflag with
    | (false, s3) => (none, s3)
    | (true, s3) =>
      match add_entry parent ni name 0 INODE_DIRECT_POINTERS s3 with
      | (true, s4) => (some ni, s4)
      | (false, s4) => (none, s4)

/-- The `while` loop of `fs_create` over the remaining tokens, with the current
`parent_inode_index`; `self` stands for the call `fs_create(intermediate_path, 1)`. -/
def fs_create_loop (self : List Nat → FS → Int × FS) (is_directory : Bool) :
    List (List Nat × List Nat) → Nat → FS → Int × FS
  | [], _, s => (-1, s)
  | (token, rest) :: more, parent, s =>
    let name := name_of token
    let is_last := rest.isEmpty
    if (s.INODE_TABLE parent).i_is_directory = 0 then (-1, s)
    else
      match dir_lookup s.disk (s.INODE_TABLE parent) name 0 INODE_DIRECT_POINTERS with
      | Lookup.io_error => (-1, s)
      | Lookup.not_found =>
        if is_last || is_directory then
          match create_node s parent name (if is_last then is_directory else true) with
          | (none, s1) => (-1, s1)
          | (some ni, s1) =>
            if is_last then (0, s1) else fs_create_loop self is_directory more ni s1
        else
          match self (SLASH :: name) s with
          | (r, s1) =>
            if r = -1 then (-1, s1) else fs_create_loop self is_directory more parent s1
      | Lookup.found idx =>
        if is_last then (-1, s) else fs_create_loop self is_directory more idx s

/-- The body of `fs_create`, the recursive call being `self`. -/
def fs_create_body (self : List Nat → FS → Int × FS) (path : List Nat) (is_directory : Bool)
    (s : FS) : Int × FS :=
  if !s.MOUNT_FLAG then (-1, s)
  else if path.head? ≠ some SLASH then (-1, s)
  else fs_create_loop self is_directory (path_tokens (path_copy path)) ROOT_DIR_INODE s

/-- The function `fs_create` unfolded `n` times. -/
def fs_create_fuel : Nat → List Nat → Bool → FS → Int × FS
  | 0 => fun _ _ s => (-1, s)
  | n + 1 => fs_create_body (fun p s => fs_create_fuel n p true s)

/-- The function `fs_create`.  The recursive call passes `is_directory = 1`, and a call
with `is_directory = 1` never reaches the recursive call, so two unfoldings are the
whole function (`fs_create_fuel_enough`). -/
def fs_create (path : List Nat) (is_directory : Bool) (s : FS) : Int × FS :=
  fs_create_fuel 2 path is_directory s

/-! ## `fs_remove` -/

/-- The path-walking loop of `fs_remove`, with the current `parent_inode_index` and
`target_inode_index`; `none` for `return -1`. -/
def remove_resolve (s : FS) : List (List Nat × List Nat) → Nat → Nat → Option (Nat × Nat)
  | [], parent, target => some (parent, target)
  | (token, rest) :: more, parent, _ =>
    if (s.INODE_TABLE parent).i_is_directory = 0 then none
    else
      match dir_lookup s.disk (s.INODE_TABLE parent) (name_of token) 0 INODE_DIRECT_POINTERS with
      | Lookup.io_error => none
      | Lookup.not_found => none
      | Lookup.found idx =>
        if rest.isEmpty then some (parent, idx) else remove_resolve s more idx idx

/-- The string written by `snprintf(child_path, 256, "%s/%s", path, name)`. -/
def child_path (path name : List Nat) : List Nat := (path ++ SLASH :: name).take 255

/-- The loop of `fs_remove` over the slots `i, i+1, ...` (`n` of them) of one block of
the directory being removed; `self` is the recursive call (`none`: it does not return).
The flag is `false` for `return -1`. -/
def remove_children (self : List Nat → FS → Option (Int × FS)) (path : List Nat) (blk : Block) :
    Nat → Nat → FS → Option (Bool × FS)
  | _, 0, s => some (true, s)
  | i, n + 1, s =>
    if entry_inode blk i ≠ 0 then
      if entry_name_raw blk i = DOT ∨ entry_name_raw blk i = DOTDOT then
        remove_children self path blk (i + 1) n s
      else
        match self (child_path path (entry_name_raw blk i)) s with
        | none => none
        | some (r, s1) =>
          if r < 0 then some (false, s1) else remove_children self path blk (i + 1) n s1
    else remove_children self path blk (i + 1) n s

/-- The loop of `fs_remove` over the direct pointers of the directory `target`. -/
def remove_dir_blocks (self : List Nat → FS → Option (Int × FS)) (path : List Nat)
    (target : Nat) : Nat → Nat → FS → Option (Bool × FS)
  | _, 0, s => some (true, s)
  | dp, n + 1, s =>
    if (s.INODE_TABLE target).i_direct_pointers dp = 0 then
      remove_dir_blocks self path target (dp + 1) n s
    else
      match disk_read s.disk ((s.INODE_TABLE target).i_direct_pointers dp) with
      | none => some (false, s)
      | some blk =>
        match remove_children self path blk 0 DIRENTS_PER_BLOCK s with
        | none => none
        | some (false, s1) => some (false, s1)
        | some (true, s1) =>
          let t := s1.INODE_TABLE target
          let bm := BITMAP_CLEAR s1.BLOCK_BITMAP (t.i_direct_pointers dp)
          let s2 := ({ s1 with BLOCK_BITMAP := bm } : FS).set_inode target (t.set_direct dp 0)
          remove_dir_blocks self path target (dp + 1) n s2

/-- The loop of `fs_remove` over the direct pointers of the regular file `target`. -/
def free_file_blocks (target : Nat) : Nat → Nat → FS → FS
  | _, 0, s => s
  | dp, n + 1, s =>
    let t := s.INODE_TABLE target
    if t.i_direct_pointers dp = 0 then free_file_blocks target (dp + 1) n s
    else
      let bm := BITMAP_CLEAR s.BLOCK_BITMAP (t.i_direct_pointers dp)
      free_file_blocks target (dp + 1) n
        (({ s with BLOCK_BITMAP := bm } : FS).set_inode target (t.set_direct dp 0))

/-- The scan of one parent block for a slot with `inode == target`. -/
def find_inode_slot (blk : Block) (target : Nat) : Nat → Nat → Option Nat
  | _, 0 => none
  | i, n + 1 => if entry_inode blk i = target then some i else find_inode_slot blk target (i + 1) n

/-- The last loop of `fs_remove`: clear the first slot of `parent` that holds `target`. -/
def unlink_entry (parent target : Nat) : Nat → Nat → FS → Int × FS
  | _, 0, s => (-1, s)
  | dp, n + 1, s =>
    let p := s.INODE_TABLE parent
    if p.i_direct_pointers dp = 0 then unlink_entry parent target (dp + 1) n s
    else
      match disk_read s.disk (p.i_direct_pointers dp) with
      | none => (-1, s)
      | some blk =>
        match find_inode_slot blk target 0 DIRENTS_PER_BLOCK with
        | some i =>
          match disk_write s.disk (p.i_direct_pointers dp) (clear_entry blk i) with
          | none => (-1, s)
          | some d =>
            (0, ({ s with disk := d } : FS).set_inode parent
              { p with i_size := (p.i_size + U32 - DIRENT_SIZE) % U32 })
        | none => unlink_entry parent target (dp + 1) n s

/-- The body of `fs_remove`, the recursive call being `self`. -/
def fs_remove_body (self : List Nat → FS → Option (Int × FS)) (path : List Nat) (s : FS) :
    Option (Int × FS) :=
  if !s.MOUNT_FLAG then some (-1, s)
  else if path.head? ≠ some SLASH then some (-1, s)
  else
    match remove_resolve s (path_tokens (path_copy path)) ROOT_DIR_INODE ROOT_DIR_INODE with
    | none => some (-1, s)
    | some (parent, target) =>
      let freed : Option (Bool × FS) :=
        if (s.INODE_TABLE target).i_is_directory ≠ 0 then
          remove_dir_blocks self path target 0 INODE_DIRECT_POINTERS s
        else some (true, free_file_blocks target 0 INODE_DIRECT_POINTERS s)
      match freed with
      | none => none
      | some (false, s1) => some (-1, s1)
      | some (true, s1) =>
        let bm := BITMAP_CLEAR s1.INODE_BITMAP target
        let s2 := ({ s1 with INODE_BITMAP := bm } : FS).set_inode target zero_inode
        some (unlink_entry parent target 0 INODE_DIRECT_POINTERS s2)

/-- The function `fs_remove` with at most `n` nested calls; `none` when a deeper call
would be needed.  A result reached with `n` calls is the result with any more
(`fs_remove_fuel_mono`). -/
def fs_remove_fuel : Nat → List Nat → FS → Option (Int × FS)
  | 0 => fun _ _ => none
  | n + 1 => fs_remove_body (fs_remove_fuel n)

/-! ## `calculate_directory_size` and `fs_list` -/

/-- The inner loop of `calculate_directory_size` over the slots of one block, adding to
`total_size` (an `int`, kept modulo `2^32`); `self` is the recursive call. -/
def calc_children (self : Nat → FS → Option (Nat × FS)) (blk : Block) :
    Nat → Nat → Nat → FS → Option (Nat × FS)
  | _, 0, total, s => some (total, s)
  | i, n + 1, total, s =>
    if entry_inode blk i ≠ 0 then
      if entry_name_raw blk i = DOT ∨ entry_name_raw blk i = DOTDOT then
        calc_children self blk (i + 1) n total s
      else
        match self (entry_inode blk i) s with
        | none => none
        | some (r, s1) => calc_children self blk (i + 1) n ((total + r) % U32) s1
    else calc_children self blk (i + 1) n total s

/-- The outer loop of `calculate_directory_size` over the direct pointers of
`inode_index`; the left result is the early `return -1`. -/
def calc_blocks (self : Nat → FS → Option (Nat × FS)) (inode_index : Nat) :
    Nat → Nat → Nat → FS → Option ((Unit ⊕ Nat) × FS)
  | _, 0, total, s => some (Sum.inr total, s)
  | dp, n + 1, total, s =>
    if (s.INODE_TABLE inode_index).i_direct_pointers dp = 0 then
      calc_blocks self inode_index (dp + 1) n total s
    else
      match disk_read s.disk ((s.INODE_TABLE inode_index).i_direct_pointers dp) with
      | none => some (Sum.inl (), s)
      | some blk =>
        match calc_children self blk 0 DIRENTS_PER_BLOCK total s with
        | none => none
        | some (total1, s1) => calc_blocks self inode_index (dp + 1) n total1 s1

/-- The body of `calculate_directory_size`; the returned `int` is kept modulo `2^32`
(`-1` is `NONE32`). -/
def calc_body (self : Nat → FS → Option (Nat × FS)) (inode_index : Nat) (s : FS) :
    Option (Nat × FS) :=
  if (s.INODE_TABLE inode_index).i_is_directory = 0 then
    some ((s.INODE_TABLE inode_index).i_size, s)
  else
    match calc_blocks self inode_index 0 INODE_DIRECT_POINTERS 0 s with
    | none => none
    | some (Sum.inl _, s1) => some (NONE32, s1)
    | some (Sum.inr total, s1) =>
      some ((total + BLOCK_SIZE) % U32,
        s1.set_inode inode_index
          { (s1.INODE_TABLE inode_index) with i_size := (total + BLOCK_SIZE) % U32 })

/-- The function `calculate_directory_size` with at most `n` nested calls; a result
reached with `n` calls is the result with any more (`calculate_directory_size_mono`). -/
def calculate_directory_size : Nat → Nat → FS → Option (Nat × FS)
  | 0 => fun _ _ => none
  | n + 1 => calc_body (calculate_directory_size n)

/-- The path-walking loop shared by `fs_list` and `fs_read`: the inode the path leads
to, `none` for `return -1`.  With no token at all the result is `start`. -/
def resolve (s : FS) : List (List Nat × List Nat) → Nat → Option Nat
  | [], cur => some cur
  | (token, _) :: more, cur =>
    if (s.INODE_TABLE cur).i_is_directory = 0 then none
    else
      match dir_lookup s.disk (s.INODE_TABLE cur) (name_of token) 0 INODE_DIRECT_POINTERS with
      | Lookup.io_error => none
      | Lookup.not_found => none
      | Lookup.found idx => resolve s more idx

/-- The lines printed for the slots of one block by `fs_list`: name and size. -/
def list_block (s : FS) (blk : Block) : Nat → Nat → List (List Nat × Nat)
  | _, 0 => []
  | i, n + 1 =>
    if entry_inode blk i ≠ 0 ∧ ¬ (entry_name blk i = DOT ∨ entry_name blk i = DOTDOT) then
      (entry_name blk i, (s.INODE_TABLE (entry_inode blk i)).i_size) :: list_block s blk (i + 1) n
    else list_block s blk (i + 1) n

/-- The printing loop of `fs_list` over the direct pointers of `dir`: return code and
the lines printed. -/
def list_blocks (s : FS) (dir : Nat) : Nat → Nat → Int × List (List Nat × Nat)
  | _, 0 => (0, [])
  | dp, n + 1 =>
    if (s.INODE_TABLE dir).i_direct_pointers dp = 0 then list_blocks s dir (dp + 1) n
    else
      match disk_read s.disk ((s.INODE_TABLE dir).i_direct_pointers dp) with
      | none => (-1, [])
      | some blk =>
        let r := list_blocks s dir (dp + 1) n
        (r.1, list_block s blk 0 DIRENTS_PER_BLOCK ++ r.2)

/-- The function `fs_list`; `fuel` bounds the nesting of `calculate_directory_size`
(`none`: the size computation does not return within it).  The result is the return
code, the lines `name size` printed, and the new state. -/
def fs_list (fuel : Nat) (path : List Nat) (s : FS) : Option (Int × List (List Nat × Nat) × FS) :=
  if !s.MOUNT_FLAG then some (-1, [], s)
  else if path.head? ≠ some SLASH then some (-1, [], s)
  else
    match resolve s (path_tokens (path_copy path)) ROOT_DIR_INODE with
    | none => some (-1, [], s)
    | some dir =>
      if (s.INODE_TABLE dir).i_is_directory = 0 then some (-1, [], s)
      else
        match calculate_directory_size fuel dir s with
        | none => none
        | some (_, s1) =>
          let r := list_blocks s1 dir 0 INODE_DIRECT_POINTERS
          some (r.1, r.2, s1)

/-! ## `fs_write` -/

/-- The text appended to `current_path` by the two `snprintf` calls of `fs_write`;
the buffer has 256 bytes. -/
def extend_path (current_path name : List Nat) : List Nat :=
  if current_path = [SLASH] then (current_path ++ name).take 255
  else (current_path ++ SLASH :: name).take 255

/-- The path-walking loop of `fs_write`, with `parent_inode_index`, `current_path` and
`file_inode` (`none` for `NULL`).  The result `none` is `return -1`; otherwise the final
`file_inode`. -/
def write_resolve : List (List Nat × List Nat) → Nat → List Nat → Option Nat → FS →
    Option (Option Nat) × FS
  | [], _, _, file, s => (some file, s)
  | (token, rest) :: more, parent, current_path, file, s =>
    let name := name_of token
    let cur := extend_path current_path name
    if (s.INODE_TABLE parent).i_is_directory = 0 then (none, s)
    else
      match dir_lookup s.disk (s.INODE_TABLE parent) name 0 INODE_DIRECT_POINTERS with
      | Lookup.io_error => (none, s)
      | Lookup.found idx =>
        if rest.isEmpty then
          if (s.INODE_TABLE idx).i_is_directory ≠ 0 then (none, s)
          else write_resolve more parent cur (some idx) s
        else write_resolve more idx cur file s
      | Lookup.not_found =>
        match fs_create cur (!rest.isEmpty) s with
        | (r, s1) =>
          if r = -1 then (none, s1)
          else
            match dir_lookup s1.disk (s1.INODE_TABLE parent) name 0 INODE_DIRECT_POINTERS with
            | Lookup.io_error => (none, s1)
            | Lookup.not_found => (none, s1)
            | Lookup.found idx =>
              if rest.isEmpty then write_resolve more parent cur (some idx) s1
              else write_resolve more idx cur file s1

/-- The part of the `while` loop of `fs_write` that makes sure the file inode `f` has an
indirect block; the flag is `false` for `return -1`. -/
def ensure_indirect (f : Nat) (s : FS) : Bool × FS :=
  if (s.INODE_TABLE f).i_indirect_pointer = 0 then
    match allocate_data_block s with
    | (ib, s1) =>
      if ib = NONE32 then (false, s1)
      else
        let s2 := s1.set_inode f { (s1.INODE_TABLE f) with i_indirect_pointer := ib }
        match disk_write s2.disk ib zero_block with
        | none => (false, s2)
        | some d => (true, { s2 with disk := d })
  else (true, s)

/-- The choice of `data_block_num` in the `while` loop of `fs_write` for the file inode
`f` and the logical block `block_index`, allocating on demand; `none` for `return -1`. -/
def write_block_num (f block_index : Nat) (s : FS) : Option Nat × FS :=
  if block_index < INODE_DIRECT_POINTERS then
    if (s.INODE_TABLE f).i_direct_pointers block_index = 0 then
      match allocate_data_block s with
      | (nb, s1) =>
        if nb = NONE32 then (none, s1)
        else (some nb, s1.set_inode f ((s1.INODE_TABLE f).set_direct block_index nb))
    else (some ((s.INODE_TABLE f).i_direct_pointers block_index), s)
  else
    match ensure_indirect f s with
    | (false, s1) => (none, s1)
    | (true, s1) =>
      match disk_read s1.disk (s1.INODE_TABLE f).i_indirect_pointer with
      | none => (none, s1)
      | some ind =>
        if block_index - INODE_DIRECT_POINTERS ≥ MAX_POINTERS then (none, s1)
        else if get_pointer ind (block_index - INODE_DIRECT_POINTERS) = 0 then
          match allocate_data_block s1 with
          | (nb, s2) =>
            if nb = NONE32 then (none, s2)
            else
              match disk_write s2.disk (s2.INODE_TABLE f).i_indirect_pointer
                  (set_pointer ind (block_index - INODE_DIRECT_POINTERS) nb) with
              | none => (none, s2)
              | some d => (some nb, { s2 with disk := d })
        else (some (get_pointer ind (block_index - INODE_DIRECT_POINTERS)), s1)

/-- The `while (remaining_bytes > 0)` loop of `fs_write` on the file inode `f`: `buf` is
the source buffer, `pos` the number of bytes already taken from it.  An iteration
writes at least one byte, so `fuel = remaining` iterations are enough
(`write_loop_fuel`).  The result is the return code, the final `offset` and the state. -/
def write_loop (f : Nat) (buf : Nat → Nat) : Nat → Nat → Nat → Nat → FS → Int × Nat × FS
  | 0, offset, _, _, s => (0, offset, s)
  | fuel + 1, offset, pos, remaining, s =>
    if remaining = 0 then (0, offset, s)
    else
      match write_block_num f (offset / BLOCK_SIZE) s with
      | (none, s1) => (-1, offset, s1)
      | (some dbn, s1) =>
        match disk_read s1.disk dbn with
        | none => (-1, offset, s1)
        | some blk =>
          let block_offset := offset % BLOCK_SIZE
          let n := min remaining (BLOCK_SIZE - block_offset)
          match disk_write s1.disk dbn
              (write_bytes blk block_offset (fun j => buf (pos + j)) n) with
          | none => (-1, offset, s1)
          | some d =>
            write_loop f buf fuel (offset + n) (pos + n) (remaining - n) { s1 with disk := d }

/-- The function `fs_write`; `buf j` is the `j`-th byte of the buffer. -/
def fs_write (path : List Nat) (buf : Nat → Nat) (count : Nat) (append : Bool) (s : FS) :
    Int × FS :=
  if !s.MOUNT_FLAG then (-1, s)
  else if path.head? ≠ some SLASH then (-1, s)
  else if count = 0 then (-1, s)
  else
    match write_resolve (path_tokens (path_copy path)) ROOT_DIR_INODE [SLASH] none s with
    | (none, s1) => (-1, s1)
    | (some none, s1) => (-1, s1)
    | (some (some f), s1) =>
      let offset := if append then (s1.INODE_TABLE f).i_size else 0
      match write_loop f buf count offset 0 count s1 with
      | (r, off, s2) =>
        if r ≠ 0 then (-1, s2)
        else if off > (s2.INODE_TABLE f).i_size then
          (0, s2.set_inode f { (s2.INODE_TABLE f) with i_size := off % U32 })
        else (0, s2)

/-! ## `fs_read` -/

/-- The choice of `data_block_num` in the `while` loop of `fs_read`; `none` for
`return -1`. -/
def read_block_num (s : FS) (f block_index : Nat) : Option Nat :=
  if block_index < INODE_DIRECT_POINTERS then
    if (s.INODE_TABLE f).i_direct_pointers block_index = 0 then none
    else some ((s.INODE_TABLE f).i_direct_pointers block_index)
  else if (s.INODE_TABLE f).i_indirect_pointer = 0 then none
  else
    match disk_read s.disk (s.INODE_TABLE f).i_indirect_pointer with
    | none => none
    | some ind =>
      if block_index - INODE_DIRECT_POINTERS ≥ MAX_POINTERS then none
      else if get_pointer ind (block_index - INODE_DIRECT_POINTERS) = 0 then none
      else some (get_pointer ind (block_index - INODE_DIRECT_POINTERS))

/-- The `while (remaining_bytes > 0)` loop of `fs_read`: `out` is the destination
buffer, `pos` the number of bytes already stored (`total_read`).  The result is the
return code (`-1` or `total_read`) and the buffer. -/
def read_loop (s : FS) (f : Nat) : Nat → Nat → Nat → Nat → (Nat → Nat) → Int × (Nat → Nat)
  | 0, _, pos, _, out => (pos, out)
  | fuel + 1, offset, pos, remaining, out =>
    if remaining = 0 then (pos, out)
    else
      match read_block_num s f (offset / BLOCK_SIZE) with
      | none => (-1, out)
      | some dbn =>
        match disk_read s.disk dbn with
        | none => (-1, out)
        | some blk =>
          let block_offset := offset % BLOCK_SIZE
          let n := min remaining (BLOCK_SIZE - block_offset)
          read_loop s f fuel (offset + n) (pos + n) (remaining - n)
            (fun k => if pos ≤ k ∧ k < pos + n then byte_at blk (block_offset + (k - pos))
              else out k)

/-- The function `fs_read`: the return code and the contents of `buf` afterwards
(`out` is the buffer before the call). -/
def fs_read (path : List Nat) (out : Nat → Nat) (count offset : Nat) (s : FS) :
    Int × (Nat → Nat) :=
  if !s.MOUNT_FLAG then (-1, out)
  else if path.head? ≠ some SLASH then (-1, out)
  else if count = 0 then (-1, out)
  else
    match path_tokens (path_copy path) with
    | [] => (-1, out)
    | tok :: toks =>
      match resolve s (tok :: toks) ROOT_DIR_INODE with
      | none => (-1, out)
      | some f =>
        if (s.INODE_TABLE f).i_is_directory ≠ 0 then (-1, out)
        else if offset ≥ (s.INODE_TABLE f).i_size then (0, out)
        else
          let count1 :=
            if (offset + count) % SIZE_T > (s.INODE_TABLE f).i_size then
              (s.INODE_TABLE f).i_size - offset
            else count
          read_loop s f count1 offset 0 count1 out

/-! ## Predicates used in the statements -/

/-- A name as `fs_create` stores it: at most 251 bytes, none of them NUL, all below 256. -/
def valid_name (name : List Nat) : Prop :=
  name.length ≤ 251 ∧ ∀ c ∈ name, c ≠ 0 ∧ c < 256

/-- The largest file size: 13 direct blocks and 1024 blocks behind the indirect block. -/
def MAX_FILE_SIZE : Nat := 13 * 4096 + 1024 * 4096

/-- The block number stored for logical block `i` of the file inode `f`: a direct
pointer, or slot `i - 13` of the indirect block (0 when there is no indirect block). -/
def file_ptr (s : FS) (f i : Nat) : Nat :=
  if i < 13 then (s.INODE_TABLE f).i_direct_pointers i
  else if (s.INODE_TABLE f).i_indirect_pointer = 0 then 0
  else get_pointer (s.disk.blocks (s.INODE_TABLE f).i_indirect_pointer) (i - 13)

/-- The byte at offset `k` of the file inode `f`, through its block pointers. -/
def file_byte (s : FS) (f k : Nat) : Nat :=
  byte_at (s.disk.blocks (file_ptr s f (k / 4096))) (k % 4096)

/-- The number of clear bits among the `n` bits from `lo` on. -/
def free_count (bm : Block) : Nat → Nat → Nat
  | _, 0 => 0
  | lo, n + 1 => (if BITMAP_TEST bm lo then 0 else 1) + free_count bm (lo + 1) n

/-- The number of free data blocks: clear bits in `[data_blocks_start, blocks_count)`. -/
def free_blocks (s : FS) : Nat :=
  free_count s.BLOCK_BITMAP s.s_data_blocks_start (s.s_blocks_count - s.s_data_blocks_start)

/-- The block pointers of the file inode `f` are sound: every block it refers to is a
data block of the device, is marked in the block bitmap, and is referred to once. -/
structure FileOK (s : FS) (f : Nat) : Prop where
  ds_pos : 0 < s.s_data_blocks_start
  bc_le : s.s_blocks_count ≤ s.disk.size
  ind : (s.INODE_TABLE f).i_indirect_pointer ≠ 0 →
    s.s_data_blocks_start ≤ (s.INODE_TABLE f).i_indirect_pointer ∧
    (s.INODE_TABLE f).i_indirect_pointer < s.s_blocks_count ∧
    BITMAP_TEST s.BLOCK_BITMAP (s.INODE_TABLE f).i_indirect_pointer = true
  ptr : ∀ i, i < 1037 → file_ptr s f i ≠ 0 →
    s.s_data_blocks_start ≤ file_ptr s f i ∧ file_ptr s f i < s.s_blocks_count ∧
    BITMAP_TEST s.BLOCK_BITMAP (file_ptr s f i) = true ∧
    file_ptr s f i ≠ (s.INODE_TABLE f).i_indirect_pointer
  inj : ∀ i j, i < 1037 → j < 1037 → i ≠ j → file_ptr s f i ≠ 0 →
    file_ptr s f i ≠ file_ptr s f j

/-- The number of logical blocks touched by a transfer of `remaining` bytes at `offset`. -/
def blocks_touched (offset remaining : Nat) : Nat :=
  if remaining = 0 then 0 else (offset + remaining - 1) / 4096 - offset / 4096 + 1

/-- The block `b` is a block of the file inode `f`: one of its data blocks or its
indirect block. -/
def owns (s : FS) (f b : Nat) : Prop :=
  b ≠ 0 ∧ ((∃ i, i < 1037 ∧ file_ptr s f i = b) ∨ (s.INODE_TABLE f).i_indirect_pointer = b)

/-- The state `t` comes from `s` by work on the file inode `f` only: the other inodes,
the superblock, the inode bitmap and the size and kind of `f` are the same, blocks of `f`
stay where they are, a new block of `f` was free in `s`, no bit of the block bitmap is
cleared, and a block that is neither free in `s` nor a block of `f` keeps its contents. -/
structure Grows (s t : FS) (f : Nat) : Prop where
  mount : t.MOUNT_FLAG = s.MOUNT_FLAG
  sb : t.SUPERBLOCK = s.SUPERBLOCK
  ibm : t.INODE_BITMAP = s.INODE_BITMAP
  dsize : t.disk.size = s.disk.size
  others : ∀ j, j ≠ f → t.INODE_TABLE j = s.INODE_TABLE j
  size : (t.INODE_TABLE f).i_size = (s.INODE_TABLE f).i_size
  isdir : (t.INODE_TABLE f).i_is_directory = (s.INODE_TABLE f).i_is_directory
  ptrs : ∀ i, i < 1037 → file_ptr s f i ≠ 0 → file_ptr t f i = file_ptr s f i
  indp : (s.INODE_TABLE f).i_indirect_pointer ≠ 0 →
    (t.INODE_TABLE f).i_indirect_pointer = (s.INODE_TABLE f).i_indirect_pointer
  bits : ∀ j, BITMAP_TEST s.BLOCK_BITMAP j = true → BITMAP_TEST t.BLOCK_BITMAP j = true
  fresh : ∀ b, owns t f b → ¬ owns s f b →
    s.s_data_blocks_start ≤ b ∧ b < s.s_blocks_count ∧ BITMAP_TEST s.BLOCK_BITMAP b = false
  frame : ∀ b, (BITMAP_TEST s.BLOCK_BITMAP b = true ∨ b < s.s_data_blocks_start ∨
      s.s_blocks_count ≤ b) → ¬ owns s f b → t.disk.blocks b = s.disk.blocks b

/-- The state right after `fs_format` and `fs_mount` on the device of `init`. -/
def fresh_fs (init : FS) : FS := (fs_mount (fs_format init).2).2

/-- What holds in the state right after `fs_format` and `fs_mount` on a device of `N`
blocks: the layout of the superblock, the bitmaps (header blocks and the root block;
inode 0), the root inode and the root directory block. -/
structure Fresh (s : FS) (N : Nat) : Prop where
  n8 : 8 ≤ N
  n32 : N ≤ 32768
  mounted : s.MOUNT_FLAG = true
  dsize : s.disk.size = N
  bc : s.s_blocks_count = N
  ic : s.s_inodes_count = N
  its : s.s_inode_table_block_start = 3
  ds : s.s_data_blocks_start = 3 + (N + 63) / 64
  bbits : ∀ j, BITMAP_TEST s.BLOCK_BITMAP j = decide (j ≤ 3 + (N + 63) / 64)
  ibits : ∀ j, BITMAP_TEST s.INODE_BITMAP j = decide (j = 0)
  rootblk : s.disk.blocks (3 + (N + 63) / 64) = root_dir_block
  root_size : (s.INODE_TABLE 0).i_size = 4096
  root_d0 : (s.INODE_TABLE 0).i_direct_pointers 0 = 3 + (N + 63) / 64
  root_dn : ∀ dp, 0 < dp → dp < 13 → (s.INODE_TABLE 0).i_direct_pointers dp = 0
  root_ind : (s.INODE_TABLE 0).i_indirect_pointer = 0
  root_dir : (s.INODE_TABLE 0).i_is_directory = 1

/-- The fresh state after one regular file `name` was created in the root directory:
inode 1 is the empty file and slot 0 of the root block holds its entry. -/
structure FreshFile (c : FS) (N : Nat) (name : List Nat) : Prop where
  n8 : 8 ≤ N
  n32 : N ≤ 32768
  mounted : c.MOUNT_FLAG = true
  dsize : c.disk.size = N
  bc : c.s_blocks_count = N
  ds : c.s_data_blocks_start = 3 + (N + 63) / 64
  bbits : ∀ j, BITMAP_TEST c.BLOCK_BITMAP j = decide (j ≤ 3 + (N + 63) / 64)
  rootblk : c.disk.blocks (3 + (N + 63) / 64) = set_entry root_dir_block 0 1 name
  root_d0 : (c.INODE_TABLE 0).i_direct_pointers 0 = 3 + (N + 63) / 64
  root_dn : ∀ dp, 0 < dp → dp < 13 → (c.INODE_TABLE 0).i_direct_pointers dp = 0
  root_dir : (c.INODE_TABLE 0).i_is_directory = 1
  f_size : (c.INODE_TABLE 1).i_size = 0
  f_ptrs : ∀ dp, (c.INODE_TABLE 1).i_direct_pointers dp = 0
  f_ind : (c.INODE_TABLE 1).i_indirect_pointer = 0
  f_dir : (c.INODE_TABLE 1).i_is_directory = 0

/-- The state `u` with the size of inode `f` set to `sz`. -/
def set_size (u : FS) (f sz : Nat) : FS :=
  u.set_inode f { (u.INODE_TABLE f) with i_size := sz }

/-- The entry `name` of the root directory leads to the regular file inode `f`, the block
pointers of `f` are sound, and no block of the root directory is free or a block of `f`. -/
structure RootFile (t : FS) (name : List Nat) (f : Nat) : Prop where
  mounted : t.MOUNT_FLAG = true
  root_dir : (t.INODE_TABLE 0).i_is_directory ≠ 0
  look : dir_lookup t.disk (t.INODE_TABLE 0) name 0 INODE_DIRECT_POINTERS = Lookup.found f
  fne : f ≠ 0
  f_dir : (t.INODE_TABLE f).i_is_directory = 0
  ok : FileOK t f
  prot : ∀ dp, dp < 13 → (t.INODE_TABLE 0).i_direct_pointers dp ≠ 0 →
    (BITMAP_TEST t.BLOCK_BITMAP ((t.INODE_TABLE 0).i_direct_pointers dp) = true ∨
      (t.INODE_TABLE 0).i_direct_pointers dp < t.s_data_blocks_start ∨
      t.s_blocks_count ≤ (t.INODE_TABLE 0).i_direct_pointers dp) ∧
    ¬ owns t f ((t.INODE_TABLE 0).i_direct_pointers dp)

/-- The bytes of an ASCII string. -/
def ascii (s : String) : List Nat := s.data.map Char.toNat

/-- The program before any call, on a device of `n` zeroed blocks: the statics are zero. -/
def zero_device (n : Nat) : FS :=
  ⟨false, zero_block, zero_block, zero_block, fun _ => zero_inode, ⟨n, fun _ => zero_block⟩⟩

/-- The example for the header blocks, first session: on a fresh device of 1024 blocks
the empty files `/x` and `/y` are created and `13*4096 + 1` bytes are written to `/f`. -/
def header_session1 : Int × FS :=
  fs_write (ascii "/f") (fun _ => 7) (13 * 4096 + 1) false
    (fs_create (ascii "/y") false (fs_create (ascii "/x") false
      (fresh_fs (zero_device 1024))).2).2

/-- The example for the header blocks, after `fs_unmount()` and `fs_mount()`. -/
def header_remount : Int × FS := fs_mount (fs_unmount header_session1.2)

/-- The example for the header blocks, second session: `13*4096` bytes are written to
`/x`. -/
def header_write_x : Int × FS :=
  fs_write (ascii "/x") (fun _ => 8) (13 * 4096) false header_remount.2

/-- The example for the header blocks, second session: the four bytes `1 0 0 0` are
written to `/y`. -/
def header_write_y : Int × FS :=
  fs_write (ascii "/y") (fun j => if j = 0 then 1 else 0) 4 false header_write_x.2

/-- The example for the header blocks, second session: one byte `0` is appended to
`/f`. -/
def header_append_f : Int × FS :=
  fs_write (ascii "/f") (fun _ => 0) 1 true header_write_y.2

/-- The `k`-th of the distinct two-letter names `aa, ab, ..., az, ba, ...`. -/
def nth_name (k : Nat) : List Nat := [97 + k / 26, 97 + k % 26]

/-- The calls `fs_create(dir ++ name k, 0)` for `k = 0, ..., n-1` in turn, each on the
state left by the one before; the flag tells whether all of them returned 0. -/
def create_many (dir : List Nat) : Nat → FS → Bool × FS
  | 0, s => (true, s)
  | n + 1, s =>
    match create_many dir n s with
    | (ok, s1) =>
      match fs_create (dir ++ nth_name n) false s1 with
      | (r, s2) => (ok && decide (r = 0), s2)

/-- The number of blocks of a directory that starts with one block and gets a new one
whenever the blocks it has are full, after `k` entries were added. -/
def blocks_for (k : Nat) : Nat := if k = 0 then 1 else (k + 15) / 16

/-- The root directory on a device of `N` blocks after the regular files `nth_name 0`, ...,
`nth_name (k-1)` were created in it in turn, as inodes `1, ..., k`, in the fresh
filesystem: its blocks are the first data blocks, and the entries fill them from slot 0
of the first block. -/
structure RootDir (s : FS) (N k : Nat) : Prop where
  dsize : s.disk.size = N
  bc : s.s_blocks_count = N
  ds : s.s_data_blocks_start = 3 + (N + 63) / 64
  bbits : ∀ j, BITMAP_TEST s.BLOCK_BITMAP j = decide (j < 3 + (N + 63) / 64 + blocks_for k)
  ptrs : ∀ dp, dp < 13 → (s.INODE_TABLE 0).i_direct_pointers dp =
    if dp < blocks_for k then 3 + (N + 63) / 64 + dp else 0
  inodes : ∀ b i, b < blocks_for k → i < 16 →
    entry_inode (s.disk.blocks (3 + (N + 63) / 64 + b)) i =
      if 16 * b + i < k then 16 * b + i + 1 else 0
  names : ∀ b i, b < blocks_for k → i < 16 → 16 * b + i < k →
    entry_name (s.disk.blocks (3 + (N + 63) / 64 + b)) i = nth_name (16 * b + i)

/-- The mounted state in which the root directory holds the `k` files of `RootDir` and
the inodes `0, ..., k` are the ones in use. -/
structure RootChildren (s : FS) (N k : Nat) : Prop where
  mounted : s.MOUNT_FLAG = true
  ic : s.s_inodes_count = N
  ibits : ∀ j, BITMAP_TEST s.INODE_BITMAP j = decide (j ≤ k)
  root_dir : (s.INODE_TABLE 0).i_is_directory = 1
  dir : RootDir s N k

/-- The example for the directory cycle, first session: on a fresh device of 1024 blocks
the directory `/a` is created. -/
def cycle_session1 : Int × FS := fs_create (ascii "/a") true (fresh_fs (zero_device 1024))

/-- The example for the directory cycle, after `fs_unmount()` and `fs_mount()`. -/
def cycle_remount : Int × FS := fs_mount (fs_unmount cycle_session1.2)

/-- The example for the directory cycle, second session: the directory `/a/b` is
created. -/
def cycle_create : Int × FS := fs_create (ascii "/a/b") true cycle_remount.2

/-- The block pointers of the whole inode table are sound: those of every inode are, and
no block belongs to two inodes. -/
structure Sound (s : FS) : Prop where
  ok : ∀ f, FileOK s f
  sep : ∀ f g b, f ≠ g → owns s f b → ¬ owns s g b

/-- No regular file has a hole below its size: the size is at most the largest file
size, and every logical block below `ceil(size / 4096)` has a non-zero pointer. -/
def NoHoles (s : FS) : Prop :=
  ∀ f, (s.INODE_TABLE f).i_is_directory = 0 →
    (s.INODE_TABLE f).i_size ≤ MAX_FILE_SIZE ∧
    ∀ i, i < ((s.INODE_TABLE f).i_size + 4095) / 4096 → file_ptr s f i ≠ 0

/-- The inode of every directory is marked in the inode bitmap. -/
def LiveBit (s : FS) : Prop :=
  ∀ g, (s.INODE_TABLE g).i_is_directory ≠ 0 → BITMAP_TEST s.INODE_BITMAP g = true

/-- What holds in every state of a mount session. -/
structure Inv (s : FS) : Prop where
  mounted : s.MOUNT_FLAG = true
  sound : Sound s
  noholes : NoHoles s
  live : LiveBit s

/-- The block references of the inode `a` are among those of `b`: each pointer of `a` is
the pointer of `b` or zero. -/
def SubRefs (a b : Inode) : Prop :=
  (∀ dp, dp < 13 → a.i_direct_pointers dp = b.i_direct_pointers dp ∨
    a.i_direct_pointers dp = 0) ∧
  (a.i_indirect_pointer = b.i_indirect_pointer ∨ a.i_indirect_pointer = 0)

/-- The inodes `a` and `b` have the same block references. -/
def SameRefs (a b : Inode) : Prop :=
  (∀ dp, dp < 13 → a.i_direct_pointers dp = b.i_direct_pointers dp) ∧
  a.i_indirect_pointer = b.i_indirect_pointer

/-- An inode that is empty: size 0, not a directory, no direct pointer. -/
def Blank (a : Inode) : Prop :=
  a.i_size = 0 ∧ a.i_is_directory = 0 ∧ ∀ dp, dp < 13 → a.i_direct_pointers dp = 0

/-- From `s` to `t` no inode changed its kind, except by becoming empty, and an empty
inode stayed empty. -/
structure Keep (s t : FS) : Prop where
  blank : ∀ g, Blank (s.INODE_TABLE g) → Blank (t.INODE_TABLE g)
  flag : ∀ g, Blank (t.INODE_TABLE g) ∨
    (t.INODE_TABLE g).i_is_directory = (s.INODE_TABLE g).i_is_directory

theorem U32_eq : U32 = 4294967296 := rfl

theorem testBit_mod_256 (v i : Nat) :
    (v % 256).testBit i = (decide (i < 8) && v.testBit i) := by
  have : (256 : Nat) = 2 ^ 8 := by norm_num
  rw [this, Nat.testBit_mod_two_pow]

theorem testBit_byte_at (b k i : Nat) :
    (byte_at b k).testBit i = (decide (i < 8) && b.testBit (8 * k + i)) := by
  unfold byte_at
  have : (256 : Nat) = 2 ^ 8 := by norm_num
  rw [this, Nat.testBit_mod_two_pow, Nat.testBit_shiftRight]

theorem byte_at_lt (b k : Nat) : byte_at b k < 256 := by
  unfold byte_at; exact Nat.mod_lt _ (by norm_num)

theorem byte_at_set_byte (b k v j : Nat) :
    byte_at (set_byte b k v) j = if j = k then v % 256 else byte_at b j := by
  apply Nat.eq_of_testBit_eq
  intro i
  rw [testBit_byte_at]
  unfold set_byte
  rw [Nat.testBit_xor, Nat.testBit_shiftLeft, Nat.testBit_xor, testBit_byte_at, testBit_mod_256]
  split_ifs with hjk
  · subst hjk
    rw [testBit_mod_256]
    by_cases hi : i < 8
    · have : 8 * j + i - 8 * j = i := by omega
      simp [hi, this]
    · simp [hi]
  · rw [testBit_byte_at]
    by_cases hi : i < 8
    · by_cases hge : 8 * j + i ≥ 8 * k
      · have : ¬ (8 * j + i - 8 * k < 8) := by omega
        simp [hi, hge, this]
      · simp [hi, hge]
    · simp [hi]

theorem byte_at_write_bytes (b off : Nat) (src : Nat → Nat) (n j : Nat) :
    byte_at (write_bytes b off src n) j =
      if off ≤ j ∧ j < off + n then src (j - off) % 256 else byte_at b j := by
  induction n with
  | zero =>
    have : ¬ (off ≤ j ∧ j < off) := by omega
    simp [write_bytes, this]
  | succ n ih =>
    rw [write_bytes, byte_at_set_byte, ih]
    by_cases h1 : j = off + n
    · subst h1; simp
    · by_cases h2 : off ≤ j ∧ j < off + n
      · have : off ≤ j ∧ j < off + (n + 1) := by omega
        simp [h1, h2, this]
      · have : ¬ (off ≤ j ∧ j < off + (n + 1)) := by omega
        simp [h1, h2, this]

theorem block_ext (b c : Block) (h : ∀ k, byte_at b k = byte_at c k) : b = c := by
  apply Nat.eq_of_testBit_eq
  intro i
  have h1 := testBit_byte_at b (i / 8) (i % 8)
  have h2 := testBit_byte_at c (i / 8) (i % 8)
  have h3 : 8 * (i / 8) + i % 8 = i := Nat.div_add_mod i 8
  have h4 : i % 8 < 8 := Nat.mod_lt _ (by norm_num)
  rw [h3] at h1 h2
  simp [h4] at h1 h2
  rw [← h1, ← h2, h]

theorem byte_at_zero (k : Nat) : byte_at 0 k = 0 := by
  simp [byte_at]

theorem byte_at_set32 (b off v j : Nat) :
    byte_at (set32 b off v) j =
      if j = off then v % 256 else if j = off + 1 then v / 256 % 256
      else if j = off + 2 then v / 65536 % 256 else if j = off + 3 then v / 16777216 % 256
      else byte_at b j := by
  unfold set32
  simp only [byte_at_set_byte]
  split_ifs <;> first | rfl | omega

theorem get32_lt (b off : Nat) : get32 b off < 4294967296 := by
  unfold get32
  have := byte_at_lt b off
  have := byte_at_lt b (off + 1)
  have := byte_at_lt b (off + 2)
  have := byte_at_lt b (off + 3)
  omega

theorem get32_set32_same (b off v : Nat) : get32 (set32 b off v) off = v % 4294967296 := by
  unfold get32
  simp only [byte_at_set32]
  simp
  omega

theorem get32_set32_other (b off v off2 : Nat) (h : off2 + 4 ≤ off ∨ off + 4 ≤ off2) :
    get32 (set32 b off v) off2 = get32 b off2 := by
  unfold get32
  simp only [byte_at_set32]
  have h0 : off2 ≠ off ∧ off2 ≠ off + 1 ∧ off2 ≠ off + 2 ∧ off2 ≠ off + 3 := by omega
  have h1 : off2 + 1 ≠ off ∧ off2 + 1 ≠ off + 1 ∧ off2 + 1 ≠ off + 2 ∧ off2 + 1 ≠ off + 3 := by omega
  have h2 : off2 + 2 ≠ off ∧ off2 + 2 ≠ off + 1 ∧ off2 + 2 ≠ off + 2 ∧ off2 + 2 ≠ off + 3 := by omega
  have h3 : off2 + 3 ≠ off ∧ off2 + 3 ≠ off + 1 ∧ off2 + 3 ≠ off + 2 ∧ off2 + 3 ≠ off + 3 := by omega
  simp [h0, h1, h2, h3]

theorem get32_zero (off : Nat) : get32 0 off = 0 := by
  simp [get32, byte_at_zero]

theorem get_pointer_lt (b j : Nat) : get_pointer b j < 4294967296 := get32_lt b (4 * j)

theorem get_pointer_set_pointer (b j v i : Nat) :
    get_pointer (set_pointer b j v) i = if i = j then v % 4294967296 else get_pointer b i := by
  unfold get_pointer set_pointer
  split_ifs with h
  · subst h; exact get32_set32_same b (4 * i) v
  · exact get32_set32_other b (4 * j) v (4 * i) (by omega)

theorem and_one_shiftLeft_ne_zero (x k : Nat) : ((x &&& (1 <<< k)) != 0) = x.testBit k := by
  rw [Nat.one_shiftLeft]
  have h : x &&& 2 ^ k = if x.testBit k then 2 ^ k else 0 := by
    apply Nat.eq_of_testBit_eq
    intro i
    rw [Nat.testBit_and, Nat.testBit_two_pow]
    by_cases hki : k = i
    · subst hki
      by_cases hx : x.testBit k <;> simp [hx, Nat.testBit_two_pow_self]
    · by_cases hx : x.testBit k <;> simp [hx, hki, Nat.testBit_two_pow_of_ne hki]
  rw [h]
  by_cases hx : x.testBit k
  · have : (2 : Nat) ^ k ≠ 0 := by positivity
    simp [hx, this]
  · simp [hx]

theorem BITMAP_TEST_eq (b j : Nat) :
    BITMAP_TEST b j = (get_pointer b (j / 32)).testBit (j % 32) := by
  unfold BITMAP_TEST
  exact and_one_shiftLeft_ne_zero _ _

theorem BITMAP_TEST_SET (b i j : Nat) :
    BITMAP_TEST (BITMAP_SET b i) j = (decide (j = i) || BITMAP_TEST b j) := by
  rw [BITMAP_TEST_eq, BITMAP_TEST_eq]
  unfold BITMAP_SET
  rw [get_pointer_set_pointer]
  have hk : i % 32 < 32 := Nat.mod_lt _ (by norm_num)
  have hlt : get_pointer b (i / 32) ||| 1 <<< (i % 32) < 4294967296 := by
    have h32 : (4294967296 : Nat) = 2 ^ 32 := by norm_num
    rw [h32]
    apply Nat.or_lt_two_pow
    · rw [← h32]; exact get_pointer_lt _ _
    · rw [Nat.one_shiftLeft]; exact Nat.pow_lt_pow_right (by norm_num) hk
  split_ifs with h
  · rw [Nat.mod_eq_of_lt hlt, Nat.testBit_or, Nat.one_shiftLeft, Nat.testBit_two_pow, h]
    by_cases hji : j = i
    · subst hji; simp
    · have : i % 32 ≠ j % 32 := by omega
      simp [hji, this]
  · have : j ≠ i := by intro hh; exact h (by rw [hh])
    simp [this]

theorem BITMAP_TEST_zero (j : Nat) : BITMAP_TEST 0 j = false := by
  rw [BITMAP_TEST_eq]
  simp [get_pointer, get32_zero]

/-! ## Bitmap scans -/

theorem find_free_some (bm : Block) (n i k : Nat) (h : find_free bm i n = some k) :
    i ≤ k ∧ k < i + n ∧ BITMAP_TEST bm k = false ∧
      ∀ j, i ≤ j → j < k → BITMAP_TEST bm j = true := by
  induction n generalizing i with
  | zero => simp [find_free] at h
  | succ n ih =>
    unfold find_free at h
    by_cases ht : BITMAP_TEST bm i = true
    · rw [if_pos ht] at h
      obtain ⟨h1, h2, h3, h4⟩ := ih (i + 1) h
      refine ⟨by omega, by omega, h3, ?_⟩
      intro j hj1 hj2
      by_cases hji : j = i
      · rw [hji]; exact ht
      · exact h4 j (by omega) hj2
    · rw [if_neg ht] at h
      injection h with h
      subst h
      refine ⟨le_refl _, by omega, by simpa using ht, ?_⟩
      intro j hj1 hj2
      omega

theorem find_free_first (bm : Block) (n i k : Nat) (h1 : i ≤ k) (h2 : k < i + n)
    (h3 : BITMAP_TEST bm k = false) (h4 : ∀ j, i ≤ j → j < k → BITMAP_TEST bm j = true) :
    find_free bm i n = some k := by
  induction n generalizing i with
  | zero => omega
  | succ n ih =>
    unfold find_free
    by_cases hik : i = k
    · subst hik
      simp [h3]
    · have ht : BITMAP_TEST bm i = true := h4 i (le_refl _) (by omega)
      rw [if_pos ht]
      exact ih (i + 1) (by omega) (by omega) (fun j hj1 hj2 => h4 j (by omega) hj2)

theorem find_free_none (bm : Block) (n i : Nat) (h : find_free bm i n = none) :
    ∀ j, i ≤ j → j < i + n → BITMAP_TEST bm j = true := by
  induction n generalizing i with
  | zero => intro j h1 h2; omega
  | succ n ih =>
    unfold find_free at h
    by_cases ht : BITMAP_TEST bm i = true
    · rw [if_pos ht] at h
      intro j h1 h2
      by_cases hji : j = i
      · rw [hji]; exact ht
      · exact ih (i + 1) h j (by omega) (by omega)
    · rw [if_neg ht] at h
      exact absurd h (by simp)

theorem first_clear_some (bm : Block) (lo hi k : Nat) (h : first_clear bm lo hi = some k) :
    lo ≤ k ∧ k < hi ∧ BITMAP_TEST bm k = false ∧
      ∀ j, lo ≤ j → j < k → BITMAP_TEST bm j = true := by
  obtain ⟨h1, h2, h3, h4⟩ := find_free_some bm (hi - lo) lo k h
  exact ⟨h1, by omega, h3, h4⟩

theorem first_clear_first (bm : Block) (lo hi k : Nat) (h1 : lo ≤ k) (h2 : k < hi)
    (h3 : BITMAP_TEST bm k = false) (h4 : ∀ j, lo ≤ j → j < k → BITMAP_TEST bm j = true) :
    first_clear bm lo hi = some k :=
  find_free_first bm (hi - lo) lo k h1 (by omega) h3 h4

theorem first_clear_none (bm : Block) (lo hi : Nat) (h : first_clear bm lo hi = none) :
    ∀ j, lo ≤ j → j < hi → BITMAP_TEST bm j = true := by
  intro j h1 h2
  exact find_free_none bm (hi - lo) lo h j h1 (by omega)

/-! ## Directory entries -/

theorem cstr_congr (f g : Nat → Nat) (n : Nat) (h : ∀ j, j < n → f j = g j) :
    cstr f n = cstr g n := by
  induction n generalizing f g with
  | zero => rfl
  | succ n ih =>
    unfold cstr
    rw [h 0 (by omega)]
    split_ifs
    · rfl
    · rw [ih (fun j => f (j + 1)) (fun j => g (j + 1)) (fun j hj => h (j + 1) (by omega))]

/-- Reading back a string stored with zero padding. -/
theorem cstr_of_list (l : List Nat) (f : Nat → Nat) (n : Nat) (hl : l.length ≤ n)
    (hnz : ∀ c ∈ l, c ≠ 0) (hf : ∀ j, j < n → f j = l.getD j 0) : cstr f n = l := by
  induction n generalizing f l with
  | zero =>
    have : l = [] := List.eq_nil_of_length_eq_zero (by omega)
    simp [cstr, this]
  | succ n ih =>
    unfold cstr
    cases l with
    | nil =>
      have := hf 0 (by omega)
      simp at this
      simp [this]
    | cons c cs =>
      have h0 := hf 0 (by omega)
      simp at h0
      have hc : c ≠ 0 := hnz c (by simp)
      rw [h0, if_neg hc]
      congr 1
      apply ih cs
      · simpa using hl
      · intro x hx; exact hnz x (by simp [hx])
      · intro j hj
        have := hf (j + 1) (by omega)
        simpa using this

theorem byte_at_set_entry (b i ino : Nat) (name : List Nat) (k : Nat) :
    byte_at (set_entry b i ino name) k =
      if 256 * i + 4 ≤ k ∧ k < 256 * i + 256 then
        (if k - (256 * i + 4) < 251 then name.getD (k - (256 * i + 4)) 0 else 0) % 256
      else byte_at (set32 b (256 * i) ino) k := by
  unfold set_entry
  rw [byte_at_write_bytes]
  simp only [DIRENT_SIZE, MAX_NAME_LEN]

theorem entry_inode_set_entry (b i ino : Nat) (name : List Nat) (j : Nat) :
    entry_inode (set_entry b i ino name) j =
      if j = i then ino % 4294967296 else entry_inode b j := by
  by_cases h : j = i
  · subst h
    have h0 : ¬ (256 * j + 4 ≤ 256 * j ∧ 256 * j < 256 * j + 256) := by omega
    have h1 : ¬ (256 * j + 4 ≤ 256 * j + 1 ∧ 256 * j + 1 < 256 * j + 256) := by omega
    have h2 : ¬ (256 * j + 4 ≤ 256 * j + 2 ∧ 256 * j + 2 < 256 * j + 256) := by omega
    have h3 : ¬ (256 * j + 4 ≤ 256 * j + 3 ∧ 256 * j + 3 < 256 * j + 256) := by omega
    have := get32_set32_same b (256 * j) ino
    unfold get32 at this
    unfold entry_inode get32
    simp only [byte_at_set_entry, DIRENT_SIZE, if_neg h0, if_neg h1, if_neg h2, if_neg h3,
      if_true]
    exact this
  · have h0 : ¬ (256 * i + 4 ≤ 256 * j ∧ 256 * j < 256 * i + 256) := by omega
    have h1 : ¬ (256 * i + 4 ≤ 256 * j + 1 ∧ 256 * j + 1 < 256 * i + 256) := by omega
    have h2 : ¬ (256 * i + 4 ≤ 256 * j + 2 ∧ 256 * j + 2 < 256 * i + 256) := by omega
    have h3 : ¬ (256 * i + 4 ≤ 256 * j + 3 ∧ 256 * j + 3 < 256 * i + 256) := by omega
    have := get32_set32_other b (256 * i) ino (256 * j) (by omega)
    unfold get32 at this
    unfold entry_inode get32
    simp only [byte_at_set_entry, DIRENT_SIZE, if_neg h0, if_neg h1, if_neg h2, if_neg h3,
      if_neg h]
    exact this


theorem entry_name_set_entry_same (b i ino : Nat) (name : List Nat) (hn : valid_name name) :
    entry_name (set_entry b i ino name) i = name := by
  unfold entry_name
  simp only [DIRENT_SIZE, MAX_NAME_LEN]
  apply cstr_of_list name _ 251 hn.1 (fun c hc => (hn.2 c hc).1)
  intro j hj
  rw [byte_at_set_entry]
  have h1 : 256 * i + 4 ≤ 256 * i + 4 + j ∧ 256 * i + 4 + j < 256 * i + 256 := by omega
  have h2 : 256 * i + 4 + j - (256 * i + 4) = j := by omega
  rw [if_pos h1, h2, if_pos hj]
  by_cases hjl : j < name.length
  · have hmem : name.getD j 0 ∈ name := by
      rw [List.getD_eq_getElem name 0 hjl]
      exact List.getElem_mem hjl
    exact Nat.mod_eq_of_lt (hn.2 _ hmem).2
  · rw [List.getD_eq_default name 0 (by omega)]

theorem entry_name_set_entry_other (b i ino : Nat) (name : List Nat) (j : Nat) (h : j ≠ i) :
    entry_name (set_entry b i ino name) j = entry_name b j := by
  unfold entry_name
  apply cstr_congr
  intro x hx
  simp only [DIRENT_SIZE, MAX_NAME_LEN] at hx ⊢
  rw [byte_at_set_entry, byte_at_set32]
  have h0 : ¬ (256 * i + 4 ≤ 256 * j + 4 + x ∧ 256 * j + 4 + x < 256 * i + 256) := by omega
  rw [if_neg h0]
  have : 256 * j + 4 + x ≠ 256 * i ∧ 256 * j + 4 + x ≠ 256 * i + 1 ∧
      256 * j + 4 + x ≠ 256 * i + 2 ∧ 256 * j + 4 + x ≠ 256 * i + 3 := by omega
  simp [this]

theorem entry_inode_zero (j : Nat) : entry_inode zero_block j = 0 := by
  simp [entry_inode, zero_block, get32_zero]

/-! ## Allocation -/

theorem free_count_pos_find (bm : Block) (n lo : Nat) (h : 0 < free_count bm lo n) :
    ∃ k, find_free bm lo n = some k := by
  induction n generalizing lo with
  | zero => simp [free_count] at h
  | succ n ih =>
    unfold find_free
    by_cases ht : BITMAP_TEST bm lo = true
    · rw [if_pos ht]
      apply ih
      simpa [free_count, ht] using h
    · rw [if_neg ht]; exact ⟨lo, rfl⟩

theorem free_count_set_out (bm : Block) (n lo k : Nat) (h : k < lo ∨ lo + n ≤ k) :
    free_count (BITMAP_SET bm k) lo n = free_count bm lo n := by
  induction n generalizing lo with
  | zero => rfl
  | succ n ih =>
    unfold free_count
    rw [BITMAP_TEST_SET, ih (lo + 1) (by omega)]
    have : lo ≠ k := by omega
    simp [this]

theorem free_count_set_in (bm : Block) (n lo k : Nat) (h1 : lo ≤ k) (h2 : k < lo + n)
    (h3 : BITMAP_TEST bm k = false) :
    free_count (BITMAP_SET bm k) lo n + 1 = free_count bm lo n := by
  induction n generalizing lo with
  | zero => omega
  | succ n ih =>
    unfold free_count
    rw [BITMAP_TEST_SET]
    by_cases hk : lo = k
    · subst hk
      rw [free_count_set_out bm n (lo + 1) lo (by omega)]
      simp [h3]
      omega
    · have := ih (lo + 1) (by omega) (by omega)
      simp [hk]
      omega

/-- What `allocate_data_block` does when a data block is free. -/
theorem allocate_data_block_ok (s : FS) (h : 0 < free_blocks s) :
    ∃ nb, allocate_data_block s = (nb, { s with BLOCK_BITMAP := BITMAP_SET s.BLOCK_BITMAP nb }) ∧
      s.s_data_blocks_start ≤ nb ∧ nb < s.s_blocks_count ∧
      BITMAP_TEST s.BLOCK_BITMAP nb = false ∧ nb ≠ NONE32 ∧
      free_blocks { s with BLOCK_BITMAP := BITMAP_SET s.BLOCK_BITMAP nb } + 1 = free_blocks s := by
  obtain ⟨k, hk⟩ := free_count_pos_find _ _ _ h
  have hk2 : first_clear s.BLOCK_BITMAP s.s_data_blocks_start s.s_blocks_count = some k := hk
  obtain ⟨h1, h2, h3, _⟩ := first_clear_some _ _ _ _ hk2
  refine ⟨k, ?_, h1, h2, h3, ?_, ?_⟩
  · unfold allocate_data_block
    rw [hk2]
  · have : s.s_blocks_count < 4294967296 := get32_lt _ _
    unfold NONE32
    omega
  · unfold free_blocks
    exact free_count_set_in _ _ _ _ h1 (by simp only [FS.s_data_blocks_start, FS.s_blocks_count] at *; omega) h3

/-! ## The block pointers of a file -/

theorem Grows.refl (s : FS) (f : Nat) : Grows s s f :=
  ⟨rfl, rfl, rfl, rfl, fun _ _ => rfl, rfl, rfl, fun _ _ _ => rfl, fun _ => rfl,
    fun _ h => h, fun _ h1 h2 => absurd h1 h2, fun _ _ _ => rfl⟩

theorem Grows.ds {s t : FS} {f : Nat} (h : Grows s t f) :
    t.s_data_blocks_start = s.s_data_blocks_start := by
  unfold FS.s_data_blocks_start; rw [h.sb]

theorem Grows.bc {s t : FS} {f : Nat} (h : Grows s t f) :
    t.s_blocks_count = s.s_blocks_count := by
  unfold FS.s_blocks_count; rw [h.sb]

theorem Grows.owns_mono {s t : FS} {f : Nat} (h : Grows s t f) (b : Nat) (hb : owns s f b) :
    owns t f b := by
  obtain ⟨hb0, hb1 | hb1⟩ := hb
  · obtain ⟨i, hi, hp⟩ := hb1
    exact ⟨hb0, Or.inl ⟨i, hi, by rw [h.ptrs i hi (by rw [hp]; exact hb0), hp]⟩⟩
  · exact ⟨hb0, Or.inr (by rw [h.indp (by rw [hb1]; exact hb0), hb1])⟩

theorem Grows.trans {s t u : FS} {f : Nat} (h1 : Grows s t f) (h2 : Grows t u f) :
    Grows s u f := by
  refine ⟨h2.mount.trans h1.mount, h2.sb.trans h1.sb, h2.ibm.trans h1.ibm,
    h2.dsize.trans h1.dsize, fun j hj => (h2.others j hj).trans (h1.others j hj),
    h2.size.trans h1.size, h2.isdir.trans h1.isdir, ?_, ?_, fun j hj => h2.bits j (h1.bits j hj),
    ?_, ?_⟩
  · intro i hi hne
    have e1 := h1.ptrs i hi hne
    rw [h2.ptrs i hi (by rw [e1]; exact hne), e1]
  · intro hne
    have e1 := h1.indp hne
    rw [h2.indp (by rw [e1]; exact hne), e1]
  · intro b hu hs
    by_cases ht : owns t f b
    · exact h1.fresh b ht hs
    · obtain ⟨a1, a2, a3⟩ := h2.fresh b hu ht
      rw [h1.ds] at a1
      rw [h1.bc] at a2
      refine ⟨a1, a2, ?_⟩
      by_contra hc
      have := h1.bits b (by simpa using hc)
      rw [this] at a3
      exact absurd a3 (by simp)
  · intro b hb hs
    have ht : ¬ owns t f b := by
      intro ht
      obtain ⟨a1, a2, a3⟩ := h1.fresh b ht hs
      rcases hb with hb | hb | hb
      · rw [hb] at a3; exact absurd a3 (by simp)
      · omega
      · omega
    rw [← h1.frame b hb hs]
    apply h2.frame b _ ht
    rw [h1.ds, h1.bc]
    rcases hb with hb | hb | hb
    · exact Or.inl (h1.bits b hb)
    · exact Or.inr (Or.inl hb)
    · exact Or.inr (Or.inr hb)

theorem FS.ds_congr {s t : FS} (h : t.SUPERBLOCK = s.SUPERBLOCK) :
    t.s_data_blocks_start = s.s_data_blocks_start := by
  unfold FS.s_data_blocks_start; rw [h]

theorem FS.bc_congr {s t : FS} (h : t.SUPERBLOCK = s.SUPERBLOCK) :
    t.s_blocks_count = s.s_blocks_count := by
  unfold FS.s_blocks_count; rw [h]

/-- Giving the free block `nb` to the empty position `i` of the file keeps the pointers
sound. -/
theorem add_ptr {s t : FS} {f i nb : Nat} (hok : FileOK s f)
    (h0 : file_ptr s f i = 0)
    (hr1 : s.s_data_blocks_start ≤ nb) (hr2 : nb < s.s_blocks_count)
    (hfree : BITMAP_TEST s.BLOCK_BITMAP nb = false)
    (hmount : t.MOUNT_FLAG = s.MOUNT_FLAG) (hsb : t.SUPERBLOCK = s.SUPERBLOCK)
    (hibm : t.INODE_BITMAP = s.INODE_BITMAP) (hdsize : t.disk.size = s.disk.size)
    (hothers : ∀ j, j ≠ f → t.INODE_TABLE j = s.INODE_TABLE j)
    (hsize : (t.INODE_TABLE f).i_size = (s.INODE_TABLE f).i_size)
    (hisdir : (t.INODE_TABLE f).i_is_directory = (s.INODE_TABLE f).i_is_directory)
    (hind : (t.INODE_TABLE f).i_indirect_pointer = (s.INODE_TABLE f).i_indirect_pointer)
    (hptr : ∀ j, j < 1037 → file_ptr t f j = if j = i then nb else file_ptr s f j)
    (hbits : ∀ j, BITMAP_TEST t.BLOCK_BITMAP j = (decide (j = nb) || BITMAP_TEST s.BLOCK_BITMAP j))
    (hdisk : ∀ b, ¬ (b = (s.INODE_TABLE f).i_indirect_pointer ∧
      (s.INODE_TABLE f).i_indirect_pointer ≠ 0) → t.disk.blocks b = s.disk.blocks b) :
    FileOK t f ∧ Grows s t f := by
  have hds := hok.ds_pos
  have hnb0 : nb ≠ 0 := by omega
  have hused : ∀ j, j < 1037 → file_ptr s f j ≠ nb := by
    intro j hj hc
    have := (hok.ptr j hj (by rw [hc]; exact hnb0)).2.2.1
    rw [hc, hfree] at this
    exact absurd this (by simp)
  have hindne : (s.INODE_TABLE f).i_indirect_pointer ≠ nb := by
    intro hc
    have := (hok.ind (by rw [hc]; exact hnb0)).2.2
    rw [hc, hfree] at this
    exact absurd this (by simp)
  constructor
  · refine ⟨by rw [FS.ds_congr hsb]; exact hds, by rw [FS.bc_congr hsb, hdsize]; exact hok.bc_le,
      ?_, ?_, ?_⟩
    · intro hne
      rw [hind] at hne ⊢
      obtain ⟨a1, a2, a3⟩ := hok.ind hne
      rw [FS.ds_congr hsb, FS.bc_congr hsb, hbits, a3]
      exact ⟨a1, a2, by simp⟩
    · intro j hj hne
      rw [hptr j hj] at hne ⊢
      rw [FS.ds_congr hsb, FS.bc_congr hsb, hbits, hind]
      by_cases hji : j = i
      · rw [if_pos hji]
        exact ⟨hr1, hr2, by simp, fun hc => hindne hc.symm⟩
      · rw [if_neg hji] at hne ⊢
        obtain ⟨a1, a2, a3, a4⟩ := hok.ptr j hj hne
        exact ⟨a1, a2, by simp [a3], a4⟩
    · intro j1 j2 hj1 hj2 hne hnz
      rw [hptr j1 hj1] at hnz ⊢
      rw [hptr j2 hj2]
      by_cases h1 : j1 = i
      · have h2 : j2 ≠ i := fun hc => hne (h1.trans hc.symm)
        rw [if_pos h1, if_neg h2]
        exact fun hc => hused j2 hj2 hc.symm
      · rw [if_neg h1] at hnz ⊢
        by_cases h2 : j2 = i
        · rw [if_pos h2]; exact hused j1 hj1
        · rw [if_neg h2]; exact hok.inj j1 j2 hj1 hj2 hne hnz
  · refine ⟨hmount, hsb, hibm, hdsize, hothers, hsize, hisdir, ?_, fun _ => hind, ?_, ?_, ?_⟩
    · intro j hj hne
      rw [hptr j hj]
      have : j ≠ i := fun hc => hne (by rw [hc]; exact h0)
      rw [if_neg this]
    · intro j hj
      rw [hbits, hj]; simp
    · intro b hb hnb
      obtain ⟨hb0, hb1 | hb1⟩ := hb
      · obtain ⟨j, hj, hp⟩ := hb1
        rw [hptr j hj] at hp
        by_cases hji : j = i
        · rw [if_pos hji] at hp
          rw [← hp]; exact ⟨hr1, hr2, hfree⟩
        · rw [if_neg hji] at hp
          exact absurd ⟨hb0, Or.inl ⟨j, hj, hp⟩⟩ hnb
      · rw [hind] at hb1
        exact absurd ⟨hb0, Or.inr hb1⟩ hnb
    · intro b _ hnb
      apply hdisk
      rintro ⟨hc1, hc2⟩
      exact hnb ⟨by rw [hc1]; exact hc2, Or.inr hc1.symm⟩

/-- Giving the free block `ib` to a file without indirect block keeps the pointers
sound. -/
theorem add_ind {s t : FS} {f ib : Nat} (hok : FileOK s f)
    (h0 : (s.INODE_TABLE f).i_indirect_pointer = 0)
    (hr1 : s.s_data_blocks_start ≤ ib) (hr2 : ib < s.s_blocks_count)
    (hfree : BITMAP_TEST s.BLOCK_BITMAP ib = false)
    (hmount : t.MOUNT_FLAG = s.MOUNT_FLAG) (hsb : t.SUPERBLOCK = s.SUPERBLOCK)
    (hibm : t.INODE_BITMAP = s.INODE_BITMAP) (hdsize : t.disk.size = s.disk.size)
    (hothers : ∀ j, j ≠ f → t.INODE_TABLE j = s.INODE_TABLE j)
    (hsize : (t.INODE_TABLE f).i_size = (s.INODE_TABLE f).i_size)
    (hisdir : (t.INODE_TABLE f).i_is_directory = (s.INODE_TABLE f).i_is_directory)
    (hind : (t.INODE_TABLE f).i_indirect_pointer = ib)
    (hptr : ∀ j, j < 1037 → file_ptr t f j = file_ptr s f j)
    (hbits : ∀ j, BITMAP_TEST t.BLOCK_BITMAP j = (decide (j = ib) || BITMAP_TEST s.BLOCK_BITMAP j))
    (hdisk : ∀ b, b ≠ ib → t.disk.blocks b = s.disk.blocks b) :
    FileOK t f ∧ Grows s t f := by
  have hds := hok.ds_pos
  have hib0 : ib ≠ 0 := by omega
  have hused : ∀ j, j < 1037 → file_ptr s f j ≠ ib := by
    intro j hj hc
    have := (hok.ptr j hj (by rw [hc]; exact hib0)).2.2.1
    rw [hc, hfree] at this
    exact absurd this (by simp)
  constructor
  · refine ⟨by rw [FS.ds_congr hsb]; exact hds, by rw [FS.bc_congr hsb, hdsize]; exact hok.bc_le,
      ?_, ?_, ?_⟩
    · intro _
      rw [hind, FS.ds_congr hsb, FS.bc_congr hsb, hbits]
      exact ⟨hr1, hr2, by simp⟩
    · intro j hj hne
      rw [hptr j hj] at hne ⊢
      rw [FS.ds_congr hsb, FS.bc_congr hsb, hbits, hind]
      obtain ⟨a1, a2, a3, _⟩ := hok.ptr j hj hne
      exact ⟨a1, a2, by simp [a3], hused j hj⟩
    · intro j1 j2 hj1 hj2 hne hnz
      rw [hptr j1 hj1] at hnz ⊢
      rw [hptr j2 hj2]
      exact hok.inj j1 j2 hj1 hj2 hne hnz
  · refine ⟨hmount, hsb, hibm, hdsize, hothers, hsize, hisdir, fun j hj _ => hptr j hj,
      fun h => absurd h0 h, ?_, ?_, ?_⟩
    · intro j hj
      rw [hbits, hj]; simp
    · intro b hb hnb
      obtain ⟨hb0, hb1 | hb1⟩ := hb
      · obtain ⟨j, hj, hp⟩ := hb1
        rw [hptr j hj] at hp
        exact absurd ⟨hb0, Or.inl ⟨j, hj, hp⟩⟩ hnb
      · rw [hind] at hb1
        rw [← hb1]; exact ⟨hr1, hr2, hfree⟩
    · intro b hb _
      apply hdisk
      intro hc
      rcases hb with hb | hb | hb
      · rw [hc, hfree] at hb; exact absurd hb (by simp)
      · omega
      · omega

theorem file_ptr_direct (s : FS) (f i : Nat) (hi : i < 13) :
    file_ptr s f i = (s.INODE_TABLE f).i_direct_pointers i := by
  unfold file_ptr; rw [if_pos hi]

theorem write_block_num_direct (s : FS) (f i : Nat) (hok : FileOK s f) (hi : i < 13)
    (hfree : (if file_ptr s f i = 0 then 1 else 0) ≤ free_blocks s) :
    ∃ b t, write_block_num f i s = (some b, t) ∧ FileOK t f ∧ Grows s t f ∧
      file_ptr t f i = b ∧ b ≠ 0 ∧
      t.disk = s.disk ∧
      free_blocks t + (if file_ptr s f i = 0 then 1 else 0) = free_blocks s ∧
      (t.INODE_TABLE f).i_indirect_pointer = (s.INODE_TABLE f).i_indirect_pointer := by
  have hi2 : i < INODE_DIRECT_POINTERS := hi
  unfold write_block_num
  rw [if_pos hi2]
  by_cases h0 : (s.INODE_TABLE f).i_direct_pointers i = 0
  · have h0p : file_ptr s f i = 0 := by rw [file_ptr_direct s f i hi]; exact h0
    rw [if_pos h0]
    rw [if_pos h0p] at hfree ⊢
    obtain ⟨nb, e, r1, r2, r3, r4, r5⟩ := allocate_data_block_ok s (by omega)
    rw [e]
    simp only [if_neg r4]
    refine ⟨nb, _, rfl, ?_⟩
    have key := add_ptr (t := ({ s with BLOCK_BITMAP := BITMAP_SET s.BLOCK_BITMAP nb } : FS).set_inode f
        ((s.INODE_TABLE f).set_direct i nb)) hok h0p r1 r2 r3 rfl rfl rfl rfl
      (by intro j hj; simp [FS.set_inode, hj])
      (by simp [FS.set_inode, Inode.set_direct])
      (by simp [FS.set_inode, Inode.set_direct])
      (by simp [FS.set_inode, Inode.set_direct])
      (by
        intro j _
        unfold file_ptr
        simp only [FS.set_inode, Inode.set_direct, if_true]
        by_cases hj13 : j < 13
        · simp only [if_pos hj13]
        · have : j ≠ i := by omega
          simp only [if_neg hj13, if_neg this])
      (by intro j; exact BITMAP_TEST_SET _ _ _)
      (by intro b _; rfl)
    refine ⟨key.1, key.2, ?_, by have := hok.ds_pos; omega, rfl, ?_, ?_⟩
    · unfold file_ptr
      simp [FS.set_inode, Inode.set_direct, hi]
    · exact r5
    · simp [FS.set_inode, Inode.set_direct]
  · have h0p : file_ptr s f i ≠ 0 := by rw [file_ptr_direct s f i hi]; exact h0
    rw [if_neg h0]
    rw [if_neg h0p]
    exact ⟨_, s, rfl, hok, Grows.refl s f, file_ptr_direct s f i hi, h0, rfl, rfl, rfl⟩

theorem get_pointer_zero (j : Nat) : get_pointer zero_block j = 0 := by
  simp [get_pointer, zero_block, get32_zero]

theorem ensure_indirect_ok (s : FS) (f : Nat) (hok : FileOK s f)
    (hfree : (if (s.INODE_TABLE f).i_indirect_pointer = 0 then 1 else 0) ≤ free_blocks s) :
    ∃ t, ensure_indirect f s = (true, t) ∧ FileOK t f ∧ Grows s t f ∧
      (t.INODE_TABLE f).i_indirect_pointer ≠ 0 ∧
      (∀ j, j < 1037 → file_ptr t f j = file_ptr s f j) ∧
      (∀ x, x ≠ (t.INODE_TABLE f).i_indirect_pointer → t.disk.blocks x = s.disk.blocks x) ∧
      free_blocks t + (if (s.INODE_TABLE f).i_indirect_pointer = 0 then 1 else 0) =
        free_blocks s := by
  unfold ensure_indirect
  by_cases h0 : (s.INODE_TABLE f).i_indirect_pointer = 0
  · rw [if_pos h0]
    rw [if_pos h0] at hfree ⊢
    obtain ⟨ib, e, r1, r2, r3, r4, r5⟩ := allocate_data_block_ok s (by omega)
    rw [e]
    simp only [if_neg r4]
    have hw : disk_write s.disk ib zero_block = some (s.disk.put ib zero_block) := by
      unfold disk_write
      rw [if_pos (lt_of_lt_of_le r2 hok.bc_le)]
    simp only [FS.set_inode, hw]
    have hib0 : ib ≠ 0 := by have := hok.ds_pos; omega
    refine ⟨_, rfl, ?_⟩
    rw [← and_assoc]
    refine ⟨add_ind hok h0 r1 r2 r3 rfl rfl rfl rfl ?_ ?_ ?_ ?_ ?_ ?_ ?_, ?_, ?_, ?_, r5⟩
    · intro j hj; simp [hj]
    · simp
    · simp
    · simp
    · intro j _
      unfold file_ptr
      simp only [if_true, h0, if_neg hib0, Disk.put, get_pointer_zero]
    · intro j; exact BITMAP_TEST_SET _ _ _
    · intro b hb; simp [Disk.put, hb]
    · simpa using hib0
    · intro j _
      unfold file_ptr
      simp only [if_true, h0, if_neg hib0, Disk.put, get_pointer_zero]
    · intro x hx
      simp only [if_true] at hx
      simp [Disk.put, hx]
  · rw [if_neg h0]
    rw [if_neg h0]
    exact ⟨s, rfl, hok, Grows.refl s f, h0, fun _ _ => rfl, fun _ _ => rfl, rfl⟩

theorem file_ptr_indirect (s : FS) (f i : Nat) (hi : 13 ≤ i)
    (h : (s.INODE_TABLE f).i_indirect_pointer ≠ 0) :
    file_ptr s f i =
      get_pointer (s.disk.blocks (s.INODE_TABLE f).i_indirect_pointer) (i - 13) := by
  unfold file_ptr
  rw [if_neg (by omega), if_neg h]

theorem write_block_num_indirect (s : FS) (f i : Nat) (hok : FileOK s f) (hi : 13 ≤ i)
    (hi2 : i < 1037)
    (hfree : (if file_ptr s f i = 0 then 1 else 0) +
      (if (s.INODE_TABLE f).i_indirect_pointer = 0 then 1 else 0) ≤ free_blocks s) :
    ∃ b t, write_block_num f i s = (some b, t) ∧ FileOK t f ∧ Grows s t f ∧
      file_ptr t f i = b ∧ b ≠ 0 ∧
      (∀ x, x ≠ (t.INODE_TABLE f).i_indirect_pointer → t.disk.blocks x = s.disk.blocks x) ∧
      free_blocks t + ((if file_ptr s f i = 0 then 1 else 0) +
        (if (s.INODE_TABLE f).i_indirect_pointer = 0 then 1 else 0)) = free_blocks s ∧
      (t.INODE_TABLE f).i_indirect_pointer ≠ 0 := by
  have hi3 : ¬ i < INODE_DIRECT_POINTERS := by unfold INODE_DIRECT_POINTERS; omega
  unfold write_block_num
  rw [if_neg hi3]
  obtain ⟨t, e1, tok, tg, tind, tptr, tdisk, tfree⟩ := ensure_indirect_ok s f hok (by omega)
  rw [e1]
  simp only []
  have hir := tok.ind tind
  have hrd : disk_read t.disk (t.INODE_TABLE f).i_indirect_pointer =
      some (t.disk.blocks (t.INODE_TABLE f).i_indirect_pointer) := by
    unfold disk_read
    rw [if_pos (lt_of_lt_of_le hir.2.1 tok.bc_le)]
  rw [hrd]
  simp only []
  have hi4 : ¬ (i - INODE_DIRECT_POINTERS ≥ MAX_POINTERS) := by
    unfold INODE_DIRECT_POINTERS MAX_POINTERS; omega
  rw [if_neg hi4]
  have hpt : file_ptr t f i =
      get_pointer (t.disk.blocks (t.INODE_TABLE f).i_indirect_pointer) (i - INODE_DIRECT_POINTERS) :=
    file_ptr_indirect t f i hi tind
  rw [← hpt]
  have hps : file_ptr t f i = file_ptr s f i := tptr i hi2
  by_cases h0 : file_ptr t f i = 0
  · rw [if_pos h0]
    have h0s : file_ptr s f i = 0 := by rw [← hps]; exact h0
    rw [if_pos h0s] at hfree ⊢
    obtain ⟨nb, e, r1, r2, r3, r4, r5⟩ := allocate_data_block_ok t (by omega)
    rw [e]
    simp only [if_neg r4]
    have hw : disk_write t.disk (t.INODE_TABLE f).i_indirect_pointer
        (set_pointer (t.disk.blocks (t.INODE_TABLE f).i_indirect_pointer)
          (i - INODE_DIRECT_POINTERS) nb) =
        some (t.disk.put (t.INODE_TABLE f).i_indirect_pointer
          (set_pointer (t.disk.blocks (t.INODE_TABLE f).i_indirect_pointer)
          (i - INODE_DIRECT_POINTERS) nb)) := by
      unfold disk_write
      rw [if_pos (lt_of_lt_of_le hir.2.1 tok.bc_le)]
    rw [hw]
    simp only []
    have hnb32 : nb % 4294967296 = nb := by
      apply Nat.mod_eq_of_lt
      have : t.s_blocks_count < 4294967296 := get32_lt _ _
      omega
    have hptr : ∀ j, j < 1037 →
        file_ptr ({ ({ t with BLOCK_BITMAP := BITMAP_SET t.BLOCK_BITMAP nb } : FS) with
          disk := t.disk.put (t.INODE_TABLE f).i_indirect_pointer
            (set_pointer (t.disk.blocks (t.INODE_TABLE f).i_indirect_pointer)
              (i - INODE_DIRECT_POINTERS) nb) } : FS) f j =
          if j = i then nb else file_ptr t f j := by
      intro j _
      unfold file_ptr
      by_cases hj13 : j < 13
      · have : j ≠ i := by omega
        simp only [if_pos hj13, if_neg this]
      · simp only [if_neg hj13, if_neg tind, Disk.put, if_true, get_pointer_set_pointer,
          INODE_DIRECT_POINTERS, hnb32]
        by_cases hji : j = i
        · subst hji; simp
        · have : j - 13 ≠ i - 13 := by omega
          simp [hji, this]
    refine ⟨nb, _, rfl, ?_⟩
    have key := add_ptr (t := ({ ({ t with BLOCK_BITMAP := BITMAP_SET t.BLOCK_BITMAP nb } : FS) with
          disk := t.disk.put (t.INODE_TABLE f).i_indirect_pointer
            (set_pointer (t.disk.blocks (t.INODE_TABLE f).i_indirect_pointer)
              (i - INODE_DIRECT_POINTERS) nb) } : FS)) tok h0 r1 r2 r3 rfl rfl rfl rfl
      (fun _ _ => rfl) rfl rfl rfl hptr (fun j => BITMAP_TEST_SET _ _ _)
      (by
        intro b hb
        have : b ≠ (t.INODE_TABLE f).i_indirect_pointer := fun hc => hb ⟨hc, tind⟩
        simp [Disk.put, this])
    refine ⟨key.1, Grows.trans tg key.2, ?_, by have := tok.ds_pos; omega, ?_, ?_, tind⟩
    · rw [hptr i hi2, if_pos rfl]
    · intro x hx
      rw [← tdisk x hx]
      simp only [Disk.put]
      rw [if_neg hx]
    · have : free_blocks ({ ({ t with BLOCK_BITMAP := BITMAP_SET t.BLOCK_BITMAP nb } : FS) with
          disk := t.disk.put (t.INODE_TABLE f).i_indirect_pointer
            (set_pointer (t.disk.blocks (t.INODE_TABLE f).i_indirect_pointer)
              (i - INODE_DIRECT_POINTERS) nb) } : FS) =
          free_blocks ({ t with BLOCK_BITMAP := BITMAP_SET t.BLOCK_BITMAP nb } : FS) := rfl
      rw [this]
      omega
  · rw [if_neg h0]
    have h0s : file_ptr s f i ≠ 0 := by rw [← hps]; exact h0
    rw [if_neg h0s] at hfree ⊢
    exact ⟨_, t, rfl, tok, tg, rfl, h0, tdisk, by omega, tind⟩

/-- One block of the `while` loop of `fs_write`: with sound pointers and enough free
blocks the block number is found or allocated, and the pointers stay sound. -/
theorem write_block_num_ok (s : FS) (f i : Nat) (hok : FileOK s f) (hi : i < 1037)
    (hfree : (if file_ptr s f i = 0 then 1 else 0) +
      (if 13 ≤ i ∧ (s.INODE_TABLE f).i_indirect_pointer = 0 then 1 else 0) ≤ free_blocks s) :
    ∃ b t, write_block_num f i s = (some b, t) ∧ FileOK t f ∧ Grows s t f ∧
      file_ptr t f i = b ∧ b ≠ 0 ∧
      (∀ x, x ≠ (t.INODE_TABLE f).i_indirect_pointer → t.disk.blocks x = s.disk.blocks x) ∧
      free_blocks t + ((if file_ptr s f i = 0 then 1 else 0) +
        (if 13 ≤ i ∧ (s.INODE_TABLE f).i_indirect_pointer = 0 then 1 else 0)) = free_blocks s ∧
      (13 ≤ i → (t.INODE_TABLE f).i_indirect_pointer ≠ 0) ∧
      (i < 13 → (t.INODE_TABLE f).i_indirect_pointer = (s.INODE_TABLE f).i_indirect_pointer) := by
  by_cases h13 : i < 13
  · have hn : ¬ (13 ≤ i ∧ (s.INODE_TABLE f).i_indirect_pointer = 0) := by omega
    rw [if_neg hn] at hfree ⊢
    obtain ⟨b, t, e, a1, a2, a3, a4, a5, a7, a8⟩ :=
      write_block_num_direct s f i hok h13 (by omega)
    exact ⟨b, t, e, a1, a2, a3, a4, fun x _ => by rw [a5], by omega,
      fun h => absurd h (by omega), fun _ => a8⟩
  · have hc : (13 ≤ i ∧ (s.INODE_TABLE f).i_indirect_pointer = 0) ↔
        (s.INODE_TABLE f).i_indirect_pointer = 0 := by
      constructor
      · exact fun h => h.2
      · exact fun h => ⟨by omega, h⟩
    simp only [hc] at hfree ⊢
    obtain ⟨b, t, e, a1, a2, a3, a4, a5, a6, a7⟩ :=
      write_block_num_indirect s f i hok (by omega) hi hfree
    exact ⟨b, t, e, a1, a2, a3, a4, a5, a6, fun _ => a7, fun h => absurd h h13⟩


/-- Overwriting a data block of the file leaves its pointers as they are. -/
theorem data_write_ok (t : FS) (f i b : Nat) (blk : Block) (hok : FileOK t f) (hi : i < 1037)
    (hb : file_ptr t f i = b) (hb0 : b ≠ 0) :
    (∀ j, file_ptr ({ t with disk := t.disk.put b blk } : FS) f j = file_ptr t f j) ∧
    FileOK ({ t with disk := t.disk.put b blk } : FS) f ∧
    Grows t ({ t with disk := t.disk.put b blk } : FS) f := by
  have hbi : b ≠ (t.INODE_TABLE f).i_indirect_pointer := by
    have := (hok.ptr i hi (by rw [hb]; exact hb0)).2.2.2
    rw [hb] at this; exact this
  have hp : ∀ j, file_ptr ({ t with disk := t.disk.put b blk } : FS) f j = file_ptr t f j := by
    intro j
    unfold file_ptr
    simp only [Disk.put]
    have : (t.INODE_TABLE f).i_indirect_pointer ≠ b := fun hc => hbi hc.symm
    simp only [if_neg this]
  refine ⟨hp, ?_, ?_⟩
  · refine ⟨hok.ds_pos, hok.bc_le, hok.ind, ?_, ?_⟩
    · intro j hj hne
      rw [hp j] at hne ⊢
      exact hok.ptr j hj hne
    · intro j1 j2 hj1 hj2 hne hnz
      rw [hp j1] at hnz ⊢
      rw [hp j2]
      exact hok.inj j1 j2 hj1 hj2 hne hnz
  · refine ⟨rfl, rfl, rfl, rfl, fun _ _ => rfl, rfl, rfl, fun j _ _ => hp j, fun _ => rfl,
      fun _ h => h, ?_, ?_⟩
    · intro x hx hnx
      exfalso
      apply hnx
      obtain ⟨hx0, hx1 | hx1⟩ := hx
      · obtain ⟨j, hj, hpj⟩ := hx1
        exact ⟨hx0, Or.inl ⟨j, hj, by rw [← hp j]; exact hpj⟩⟩
      · exact ⟨hx0, Or.inr hx1⟩
    · intro x _ hnx
      have : x ≠ b := by
        intro hc
        exact hnx ⟨by rw [hc]; exact hb0, Or.inl ⟨i, hi, by rw [hc]; exact hb⟩⟩
      simp [Disk.put, this]

theorem blocks_touched_step (offset remaining : Nat) (h : remaining ≠ 0) :
    blocks_touched (offset + min remaining (4096 - offset % 4096))
      (remaining - min remaining (4096 - offset % 4096)) + 1 ≤ blocks_touched offset remaining := by
  unfold blocks_touched
  rw [if_neg h]
  by_cases hr : remaining ≤ 4096 - offset % 4096
  · rw [Nat.min_eq_left hr]
    simp
  · rw [Nat.min_eq_right (by omega)]
    have h2 : remaining - (4096 - offset % 4096) ≠ 0 := by omega
    rw [if_neg h2]
    omega

/-- The `while` loop of `fs_write` on a file with sound block pointers: when the range
fits the largest file and enough data blocks are free (one per block touched, one more
when the indirect block is reached and missing), the loop ends with code 0 at
`offset + remaining`, the bytes of the range are those of `buf`, and the bytes outside
the range are kept. -/
theorem write_loop_ok (f : Nat) (buf : Nat → Nat) (fuel : Nat) :
    ∀ (offset pos remaining : Nat) (s : FS), FileOK s f → remaining ≤ fuel →
      offset + remaining ≤ MAX_FILE_SIZE →
      blocks_touched offset remaining +
        (if (s.INODE_TABLE f).i_indirect_pointer = 0 ∧ 13 * 4096 < offset + remaining
          then 1 else 0) ≤ free_blocks s →
      ∃ t, write_loop f buf fuel offset pos remaining s = (0, offset + remaining, t) ∧
        FileOK t f ∧ Grows s t f ∧
        (∀ k, offset ≤ k → k < offset + remaining →
          file_ptr t f (k / 4096) ≠ 0 ∧ file_byte t f k = buf (pos + (k - offset)) % 256) ∧
        (∀ k, k < MAX_FILE_SIZE → ¬ (offset ≤ k ∧ k < offset + remaining) →
          file_ptr s f (k / 4096) ≠ 0 → file_byte t f k = file_byte s f k) ∧
        free_blocks s ≤ free_blocks t + (blocks_touched offset remaining +
          (if (s.INODE_TABLE f).i_indirect_pointer = 0 ∧ 13 * 4096 < offset + remaining
            then 1 else 0)) := by
  induction fuel with
  | zero =>
    intro offset pos remaining s hok hfuel _ _
    have hr : remaining = 0 := by omega
    subst hr
    refine ⟨s, rfl, hok, Grows.refl s f, ?_, fun _ _ _ _ => rfl, by omega⟩
    intro k h1 h2; omega
  | succ fuel ih =>
    intro offset pos remaining s hok hfuel hmax hfree
    unfold write_loop
    by_cases hr : remaining = 0
    · subst hr
      rw [if_pos rfl]
      refine ⟨s, rfl, hok, Grows.refl s f, ?_, fun _ _ _ _ => rfl, by omega⟩
      intro k h1 h2; omega
    · rw [if_neg hr]
      have hM : MAX_FILE_SIZE = 1037 * 4096 := by norm_num [MAX_FILE_SIZE]
      have hi : offset / 4096 < 1037 := by omega
      have hbt : 1 ≤ blocks_touched offset remaining := by
        have := blocks_touched_step offset remaining hr
        omega
      have hbs : offset / BLOCK_SIZE = offset / 4096 := rfl
      have hms : offset % BLOCK_SIZE = offset % 4096 := rfl
      have hB : BLOCK_SIZE = 4096 := rfl
      obtain ⟨b, t1, e1, ok1, g1, hb, hb0, hdisk1, hfree1, hind1, hind1b⟩ :=
        write_block_num_ok s f (offset / 4096) hok hi (by
          by_cases hx : file_ptr s f (offset / 4096) = 0 <;>
            by_cases hy : 13 ≤ offset / 4096 ∧ (s.INODE_TABLE f).i_indirect_pointer = 0
          · have : (s.INODE_TABLE f).i_indirect_pointer = 0 ∧ 13 * 4096 < offset + remaining :=
              ⟨hy.2, by omega⟩
            rw [if_pos this] at hfree
            rw [if_pos hx, if_pos hy]; omega
          · rw [if_pos hx, if_neg hy]; omega
          · have : (s.INODE_TABLE f).i_indirect_pointer = 0 ∧ 13 * 4096 < offset + remaining :=
              ⟨hy.2, by omega⟩
            rw [if_pos this] at hfree
            rw [if_neg hx, if_pos hy]; omega
          · rw [if_neg hx, if_neg hy]; omega)
      rw [hbs, e1]
      simp only []
      have hbr := ok1.ptr (offset / 4096) hi (by rw [hb]; exact hb0)
      rw [hb] at hbr
      have hblt : b < t1.disk.size := lt_of_lt_of_le hbr.2.1 ok1.bc_le
      have hrd : disk_read t1.disk b = some (t1.disk.blocks b) := by
        unfold disk_read; rw [if_pos hblt]
      rw [hrd]
      simp only []
      rw [hms, hB]
      generalize hn : min remaining (4096 - offset % 4096) = n
      have hn1 : n ≤ remaining := by rw [← hn]; exact Nat.min_le_left _ _
      have hn2 : n ≤ 4096 - offset % 4096 := by rw [← hn]; exact Nat.min_le_right _ _
      have hn3 : 0 < n := by rw [← hn]; omega
      have hn4 : n = remaining ∨ n = 4096 - offset % 4096 := by
        rw [← hn]; rcases Nat.le_total remaining (4096 - offset % 4096) with h | h
        · left; exact Nat.min_eq_left h
        · right; exact Nat.min_eq_right h
      have hwr : ∀ blk, disk_write t1.disk b blk = some (t1.disk.put b blk) := by
        intro blk; unfold disk_write; rw [if_pos hblt]
      rw [hwr]
      simp only []
      obtain ⟨w, hw⟩ : ∃ w, w = write_bytes (t1.disk.blocks b) (offset % 4096)
        (fun j => buf (pos + j)) n := ⟨_, rfl⟩
      rw [← hw]
      obtain ⟨hp2, ok2, g2⟩ := data_write_ok t1 f (offset / 4096) b w ok1 hi hb hb0
      have hstep := blocks_touched_step offset remaining hr
      rw [hn] at hstep
      have hfree2 : free_blocks ({ t1 with disk := t1.disk.put b w } : FS) =
          free_blocks t1 := rfl
      have hind2 : (({ t1 with disk := t1.disk.put b w } :
          FS).INODE_TABLE f).i_indirect_pointer = (t1.INODE_TABLE f).i_indirect_pointer := rfl
      have hsum0 : offset + n + (remaining - n) = offset + remaining := by omega
      have hacc : (if file_ptr s f (offset / 4096) = 0 then 1 else 0) +
          (if 13 ≤ offset / 4096 ∧ (s.INODE_TABLE f).i_indirect_pointer = 0 then 1 else 0) +
          (if (t1.INODE_TABLE f).i_indirect_pointer = 0 ∧ 13 * 4096 < offset + remaining
            then 1 else 0) ≤
          1 + (if (s.INODE_TABLE f).i_indirect_pointer = 0 ∧ 13 * 4096 < offset + remaining
            then 1 else 0) := by
        have hA : (if file_ptr s f (offset / 4096) = 0 then 1 else 0) ≤ 1 := by
          split_ifs <;> omega
        by_cases h13 : 13 ≤ offset / 4096
        · have := hind1 h13
          have hne : ¬ ((t1.INODE_TABLE f).i_indirect_pointer = 0 ∧
              13 * 4096 < offset + remaining) := fun hc => this hc.1
          rw [if_neg hne]
          by_cases hz : (s.INODE_TABLE f).i_indirect_pointer = 0
          · have h1 : (s.INODE_TABLE f).i_indirect_pointer = 0 ∧
                13 * 4096 < offset + remaining := ⟨hz, by omega⟩
            have h2 : 13 ≤ offset / 4096 ∧ (s.INODE_TABLE f).i_indirect_pointer = 0 := ⟨h13, hz⟩
            rw [if_pos h1, if_pos h2]; omega
          · have h1 : ¬ ((s.INODE_TABLE f).i_indirect_pointer = 0 ∧
                13 * 4096 < offset + remaining) := fun hc => hz hc.1
            have h2 : ¬ (13 ≤ offset / 4096 ∧ (s.INODE_TABLE f).i_indirect_pointer = 0) :=
              fun hc => hz hc.2
            rw [if_neg h1, if_neg h2]; omega
        · have := hind1b (by omega)
          rw [this]
          have hne : ¬ (13 ≤ offset / 4096 ∧ (s.INODE_TABLE f).i_indirect_pointer = 0) :=
            fun hc => h13 hc.1
          rw [if_neg hne]
          omega
      obtain ⟨t, e, okt, gt, hc, hp, hfr⟩ := ih (offset + n) (pos + n) (remaining - n) _ ok2
        (by omega) (by omega) (by rw [hfree2, hind2, hsum0]; omega)
      rw [hfree2, hind2, hsum0] at hfr
      have hsum : offset + n + (remaining - n) = offset + remaining := by omega
      rw [hsum] at e hc hp
      refine ⟨t, e, okt, Grows.trans g1 (Grows.trans g2 gt), ?_, ?_, by omega⟩
      · intro k hk1 hk2
        by_cases hkn : k < offset + n
        · -- the byte lies in the block written by this iteration
          have hkd : k / 4096 = offset / 4096 := by omega
          have hkm : k % 4096 = offset % 4096 + (k - offset) := by omega
          have hp2k : file_ptr ({ t1 with disk := t1.disk.put b w } : FS)
              f (k / 4096) = b := by rw [hp2, hkd, hb]
          have hne2 : file_ptr ({ t1 with disk := t1.disk.put b w } : FS)
              f (k / 4096) ≠ 0 := by rw [hp2k]; exact hb0
          have hkeep := hp k (by omega) (by omega) hne2
          have hptk := gt.ptrs (k / 4096) (by omega) hne2
          refine ⟨by rw [hptk]; exact hne2, ?_⟩
          rw [hkeep]
          unfold file_byte
          rw [hp2k]
          simp only [Disk.put, if_true]
          rw [hw, byte_at_write_bytes, if_pos (by omega), hkm]
          congr 2
          omega
        · have := hc k (by omega) hk2
          refine ⟨this.1, ?_⟩
          rw [this.2]
          congr 2
          omega
      · intro k hkM hk hne
        have hne1 : file_ptr t1 f (k / 4096) ≠ 0 := by
          rw [g1.ptrs (k / 4096) (by omega) hne]; exact hne
        have hpe1 : file_ptr t1 f (k / 4096) = file_ptr s f (k / 4096) :=
          g1.ptrs (k / 4096) (by omega) hne
        have hne2 : file_ptr ({ t1 with disk := t1.disk.put b w } : FS)
            f (k / 4096) ≠ 0 := by rw [hp2]; exact hne1
        rw [hp k hkM (by omega) hne2]
        unfold file_byte
        rw [hp2, hpe1]
        simp only [Disk.put]
        have hpi := (ok1.ptr (k / 4096) (by omega) hne1).2.2.2
        rw [hpe1] at hpi
        by_cases hkd : k / 4096 = offset / 4096
        · have hpb : file_ptr s f (k / 4096) = b := by rw [← hpe1, hkd, hb]
          rw [hpb, if_pos rfl, hw, byte_at_write_bytes, if_neg (by omega),
            hdisk1 b (by rw [← hpb]; exact hpi)]
        · have hpb : file_ptr s f (k / 4096) ≠ b := by
            rw [← hpe1, ← hb]
            exact ok1.inj _ _ (by omega) hi hkd hne1
          rw [if_neg hpb, hdisk1 _ hpi]


theorem read_block_num_ok (s : FS) (f i : Nat) (hok : FileOK s f) (hi : i < 1037)
    (h : file_ptr s f i ≠ 0) : read_block_num s f i = some (file_ptr s f i) := by
  unfold read_block_num
  by_cases h13 : i < 13
  · have h13b : i < INODE_DIRECT_POINTERS := h13
    rw [file_ptr_direct s f i h13] at h ⊢
    rw [if_pos h13b, if_neg h]
  · have h13b : ¬ i < INODE_DIRECT_POINTERS := h13
    have hind : (s.INODE_TABLE f).i_indirect_pointer ≠ 0 := by
      intro hc
      apply h
      unfold file_ptr
      rw [if_neg h13, if_pos hc]
    rw [file_ptr_indirect s f i (by omega) hind] at h ⊢
    have hr := hok.ind hind
    have hrd : disk_read s.disk (s.INODE_TABLE f).i_indirect_pointer =
        some (s.disk.blocks (s.INODE_TABLE f).i_indirect_pointer) := by
      unfold disk_read
      rw [if_pos (lt_of_lt_of_le hr.2.1 hok.bc_le)]
    have hi4 : ¬ (i - INODE_DIRECT_POINTERS ≥ MAX_POINTERS) := by
      unfold INODE_DIRECT_POINTERS MAX_POINTERS; omega
    rw [if_neg h13b, if_neg hind, hrd]
    simp only []
    rw [if_neg hi4]
    have e : i - INODE_DIRECT_POINTERS = i - 13 := rfl
    rw [e, if_neg h]

/-- The `while` loop of `fs_read` on a file with sound block pointers whose blocks in
the range are all present: it returns the number of bytes asked for and stores the bytes
of the file. -/
theorem read_loop_ok (s : FS) (f : Nat) (hok : FileOK s f) (fuel : Nat) :
    ∀ (offset pos remaining : Nat) (out : Nat → Nat), remaining ≤ fuel →
      offset + remaining ≤ MAX_FILE_SIZE →
      (∀ k, offset ≤ k → k < offset + remaining → file_ptr s f (k / 4096) ≠ 0) →
      (read_loop s f fuel offset pos remaining out).1 = ((pos + remaining : Nat) : Int) ∧
      (∀ k, pos ≤ k → k < pos + remaining →
        (read_loop s f fuel offset pos remaining out).2 k = file_byte s f (offset + (k - pos))) ∧
      (∀ k, ¬ (pos ≤ k ∧ k < pos + remaining) →
        (read_loop s f fuel offset pos remaining out).2 k = out k) := by
  induction fuel with
  | zero =>
    intro offset pos remaining out hfuel _ _
    have hr : remaining = 0 := by omega
    subst hr
    refine ⟨rfl, ?_, fun _ _ => rfl⟩
    intro k h1 h2; omega
  | succ fuel ih =>
    intro offset pos remaining out hfuel hmax hall
    unfold read_loop
    by_cases hr : remaining = 0
    · subst hr
      rw [if_pos rfl]
      refine ⟨rfl, ?_, fun _ _ => rfl⟩
      intro k h1 h2; omega
    · rw [if_neg hr]
      have hM : MAX_FILE_SIZE = 1037 * 4096 := by norm_num [MAX_FILE_SIZE]
      have hi : offset / 4096 < 1037 := by omega
      have hbs : offset / BLOCK_SIZE = offset / 4096 := rfl
      have hms : offset % BLOCK_SIZE = offset % 4096 := rfl
      have hB : BLOCK_SIZE = 4096 := rfl
      have hne := hall offset (le_refl _) (by omega)
      rw [hbs, read_block_num_ok s f _ hok hi hne]
      simp only []
      have hbr := hok.ptr (offset / 4096) hi hne
      have hrd : disk_read s.disk (file_ptr s f (offset / 4096)) =
          some (s.disk.blocks (file_ptr s f (offset / 4096))) := by
        unfold disk_read; rw [if_pos (lt_of_lt_of_le hbr.2.1 hok.bc_le)]
      rw [hrd]
      simp only []
      rw [hms, hB]
      generalize hn : min remaining (4096 - offset % 4096) = n
      have hn1 : n ≤ remaining := by rw [← hn]; exact Nat.min_le_left _ _
      have hn2 : n ≤ 4096 - offset % 4096 := by rw [← hn]; exact Nat.min_le_right _ _
      have hn3 : 0 < n := by rw [← hn]; omega
      obtain ⟨i1, i2, i3⟩ := ih (offset + n) (pos + n) (remaining - n)
        (fun k => if pos ≤ k ∧ k < pos + n then
          byte_at (s.disk.blocks (file_ptr s f (offset / 4096))) (offset % 4096 + (k - pos))
          else out k) (by omega) (by omega)
        (fun k h1 h2 => hall k (by omega) (by omega))
      refine ⟨?_, ?_, ?_⟩
      · rw [i1]; congr 1; omega
      · intro k hk1 hk2
        by_cases hkn : k < pos + n
        · rw [i3 k (by omega)]
          simp only [if_pos (⟨hk1, hkn⟩ : pos ≤ k ∧ k < pos + n)]
          unfold file_byte
          have e1 : (offset + (k - pos)) / 4096 = offset / 4096 := by omega
          have e2 : (offset + (k - pos)) % 4096 = offset % 4096 + (k - pos) := by omega
          rw [e1, e2]
        · rw [i2 k (by omega) (by omega)]
          congr 1
          omega
      · intro k hk
        rw [i3 k (by omega)]
        have : ¬ (pos ≤ k ∧ k < pos + n) := by omega
        simp only [if_neg this]

/-! ## Inodes on disk -/

theorem byte_at_put_inode (b j : Nat) (ino : Inode) (k : Nat) :
    byte_at (put_inode b j ino) k =
      if 64 * j ≤ k ∧ k < 64 * j + 64 then
        (if k - 64 * j < 4 then ino.i_size / 256 ^ (k - 64 * j)
          else if k - 64 * j < 56 then
            ino.i_direct_pointers ((k - 64 * j - 4) / 4) / 256 ^ ((k - 64 * j) % 4)
          else if k - 64 * j < 60 then ino.i_indirect_pointer / 256 ^ (k - 64 * j - 56)
          else if k - 64 * j = 60 then ino.i_is_directory
          else 0) % 256
      else byte_at b k := by
  unfold put_inode
  rw [byte_at_write_bytes]
  simp only [INODE_SIZE]

theorem get32_of_bytes (b off v : Nat) (h0 : byte_at b off = v / 256 ^ 0 % 256)
    (h1 : byte_at b (off + 1) = v / 256 ^ 1 % 256) (h2 : byte_at b (off + 2) = v / 256 ^ 2 % 256)
    (h3 : byte_at b (off + 3) = v / 256 ^ 3 % 256) : get32 b off = v % 4294967296 := by
  unfold get32
  rw [h0, h1, h2, h3]
  norm_num
  omega

theorem get_inode_put_inode (b j : Nat) (ino : Inode) :
    (get_inode (put_inode b j ino) j).i_size = ino.i_size % 4294967296 ∧
    (∀ dp, dp < 13 → (get_inode (put_inode b j ino) j).i_direct_pointers dp =
      ino.i_direct_pointers dp % 4294967296) ∧
    (get_inode (put_inode b j ino) j).i_indirect_pointer =
      ino.i_indirect_pointer % 4294967296 ∧
    (get_inode (put_inode b j ino) j).i_is_directory = ino.i_is_directory % 256 := by
  refine ⟨?_, ?_, ?_, ?_⟩
  · show get32 _ (INODE_SIZE * j) = _
    apply get32_of_bytes <;> rw [byte_at_put_inode] <;> simp only [INODE_SIZE]
    · rw [if_pos (by omega), if_pos (by omega)]; congr 3; omega
    · rw [if_pos (by omega), if_pos (by omega)]; congr 3; omega
    · rw [if_pos (by omega), if_pos (by omega)]; congr 3; omega
    · rw [if_pos (by omega), if_pos (by omega)]; congr 3; omega
  · intro dp hdp
    show get32 _ (INODE_SIZE * j + 4 + 4 * dp) = _
    apply get32_of_bytes <;> rw [byte_at_put_inode] <;> simp only [INODE_SIZE]
    · rw [if_pos (by omega), if_neg (by omega), if_pos (by omega)]
      congr 3
      · omega
      · omega
    · rw [if_pos (by omega), if_neg (by omega), if_pos (by omega)]
      congr 3
      · omega
      · omega
    · rw [if_pos (by omega), if_neg (by omega), if_pos (by omega)]
      congr 3
      · omega
      · omega
    · rw [if_pos (by omega), if_neg (by omega), if_pos (by omega)]
      congr 3
      · omega
      · omega
  · show get32 _ (INODE_SIZE * j + 56) = _
    apply get32_of_bytes <;> rw [byte_at_put_inode] <;> simp only [INODE_SIZE]
    · rw [if_pos (by omega), if_neg (by omega), if_neg (by omega), if_pos (by omega)]
      congr 3; omega
    · rw [if_pos (by omega), if_neg (by omega), if_neg (by omega), if_pos (by omega)]
      congr 3; omega
    · rw [if_pos (by omega), if_neg (by omega), if_neg (by omega), if_pos (by omega)]
      congr 3; omega
    · rw [if_pos (by omega), if_neg (by omega), if_neg (by omega), if_pos (by omega)]
      congr 3; omega
  · show byte_at _ (INODE_SIZE * j + 60) = _
    rw [byte_at_put_inode]
    simp only [INODE_SIZE]
    rw [if_pos (by omega), if_neg (by omega), if_neg (by omega), if_neg (by omega),
      if_pos (by omega)]

/-- The fields of `inodes[j]` are read from the bytes `64 j .. 64 j + 63` of the block. -/
theorem get_inode_congr (b c j : Nat)
    (h : ∀ k, 64 * j ≤ k → k < 64 * j + 64 → byte_at b k = byte_at c k) :
    (get_inode b j).i_size = (get_inode c j).i_size ∧
    (∀ dp, dp < 13 → (get_inode b j).i_direct_pointers dp =
      (get_inode c j).i_direct_pointers dp) ∧
    (get_inode b j).i_indirect_pointer = (get_inode c j).i_indirect_pointer ∧
    (get_inode b j).i_is_directory = (get_inode c j).i_is_directory := by
  refine ⟨?_, ?_, ?_, ?_⟩
  · show get32 _ (INODE_SIZE * j) = get32 _ (INODE_SIZE * j)
    unfold get32
    simp only [INODE_SIZE]
    rw [h _ (by omega) (by omega), h _ (by omega) (by omega), h _ (by omega) (by omega),
      h _ (by omega) (by omega)]
  · intro dp hdp
    show get32 _ (INODE_SIZE * j + 4 + 4 * dp) = get32 _ (INODE_SIZE * j + 4 + 4 * dp)
    unfold get32
    simp only [INODE_SIZE]
    rw [h _ (by omega) (by omega), h _ (by omega) (by omega), h _ (by omega) (by omega),
      h _ (by omega) (by omega)]
  · show get32 _ (INODE_SIZE * j + 56) = get32 _ (INODE_SIZE * j + 56)
    unfold get32
    simp only [INODE_SIZE]
    rw [h _ (by omega) (by omega), h _ (by omega) (by omega), h _ (by omega) (by omega),
      h _ (by omega) (by omega)]
  · show byte_at _ (INODE_SIZE * j + 60) = byte_at _ (INODE_SIZE * j + 60)
    simp only [INODE_SIZE]
    rw [h _ (by omega) (by omega)]

/-! ## `fs_format` and `fs_mount` -/

theorem BITMAP_TEST_set_bits (bm : Block) (n j : Nat) :
    BITMAP_TEST (set_bits bm n) j = (decide (j < n) || BITMAP_TEST bm j) := by
  induction n with
  | zero => simp [set_bits]
  | succ n ih =>
    rw [set_bits, BITMAP_TEST_SET, ih]
    by_cases h1 : j = n
    · subst h1; simp
    · by_cases h2 : j < n
      · have : j < n + 1 := by omega
        simp [h1, h2, this]
      · have : ¬ j < n + 1 := by omega
        simp [h1, h2, this]

theorem format_inode_table_ok (ic ds : Nat) (n : Nat) (d : Disk) (h : 3 + n ≤ d.size)
    (h32 : d.size < 4294967296) :
    ∃ e, format_inode_table ic ds 3 n d = some e ∧ e.size = d.size ∧
      ∀ x, e.blocks x = if 3 ≤ x ∧ x < 3 + n then format_inode_block ic ds (x - 3)
        else d.blocks x := by
  induction n with
  | zero =>
    refine ⟨d, rfl, rfl, ?_⟩
    intro x
    have : ¬ (3 ≤ x ∧ x < 3 + 0) := by omega
    rw [if_neg this]
  | succ n ih =>
    obtain ⟨e, he, hs, hb⟩ := ih (by omega)
    unfold format_inode_table
    rw [he]
    simp only []
    have hm : (3 + n) % U32 = 3 + n := Nat.mod_eq_of_lt (by rw [U32_eq]; omega)
    rw [hm]
    unfold disk_write
    rw [if_pos (by omega)]
    refine ⟨_, rfl, hs, ?_⟩
    intro x
    simp only [Disk.put]
    by_cases hx : x = 3 + n
    · subst hx
      rw [if_pos rfl, if_pos (by omega)]
      congr 1; omega
    · rw [if_neg hx, hb x]
      by_cases hx2 : 3 ≤ x ∧ x < 3 + n
      · rw [if_pos hx2, if_pos (by omega)]
      · rw [if_neg hx2, if_neg (by omega)]

theorem mount_load_ok (d : Disk) (total n : Nat) (t : Nat → Inode) (h : 3 + n ≤ d.size)
    (h32 : d.size < 4294967296) :
    ∃ u, mount_load d 3 total n t = some u ∧
      ∀ idx, u idx = if idx / 64 < n ∧ idx < total then get_inode (d.blocks (3 + idx / 64)) (idx % 64)
        else t idx := by
  induction n with
  | zero =>
    refine ⟨t, rfl, ?_⟩
    intro idx
    have : ¬ (idx / 64 < 0 ∧ idx < total) := by omega
    rw [if_neg this]
  | succ n ih =>
    obtain ⟨u, hu, hb⟩ := ih (by omega)
    unfold mount_load
    rw [hu]
    simp only []
    have hm : (3 + n) % U32 = 3 + n := Nat.mod_eq_of_lt (by rw [U32_eq]; omega)
    rw [hm]
    unfold disk_read
    rw [if_pos (by omega)]
    refine ⟨_, rfl, ?_⟩
    intro idx
    by_cases h1 : idx / 64 = n ∧ idx < total
    · rw [if_pos h1, if_pos (by omega), h1.1]
    · rw [if_neg h1, hb idx]
      by_cases h2 : idx / 64 < n ∧ idx < total
      · rw [if_pos h2, if_pos (by omega)]
      · rw [if_neg h2, if_neg (by omega)]

theorem disk_write_ok (d : Disk) (n : Nat) (b : Block) (h : n < d.size) :
    disk_write d n b = some (d.put n b) := by
  unfold disk_write; rw [if_pos h]

theorem disk_read_ok (d : Disk) (n : Nat) (h : n < d.size) :
    disk_read d n = some (d.blocks n) := by
  unfold disk_read; rw [if_pos h]

theorem format_sb_fields (sb0 N ds : Nat) :
    let sb := set32 (set32 (set32 (set32 (set32 (set32 sb0 4 N) 0 N) 8 1) 12 2) 16 3) 20 ds
    get32 sb 0 = N % 4294967296 ∧ get32 sb 4 = N % 4294967296 ∧ get32 sb 8 = 1 ∧
      get32 sb 12 = 2 ∧ get32 sb 16 = 3 ∧ get32 sb 20 = ds % 4294967296 := by
  intro sb
  refine ⟨?_, ?_, ?_, ?_, ?_, ?_⟩
  · show get32 (set32 _ 20 ds) 0 = _
    rw [get32_set32_other _ _ _ _ (by omega), get32_set32_other _ _ _ _ (by omega),
      get32_set32_other _ _ _ _ (by omega), get32_set32_other _ _ _ _ (by omega),
      get32_set32_same]
  · show get32 (set32 _ 20 ds) 4 = _
    rw [get32_set32_other _ _ _ _ (by omega), get32_set32_other _ _ _ _ (by omega),
      get32_set32_other _ _ _ _ (by omega), get32_set32_other _ _ _ _ (by omega),
      get32_set32_other _ _ _ _ (by omega), get32_set32_same]
  · show get32 (set32 _ 20 ds) 8 = _
    rw [get32_set32_other _ _ _ _ (by omega), get32_set32_other _ _ _ _ (by omega),
      get32_set32_other _ _ _ _ (by omega), get32_set32_same]
  · show get32 (set32 _ 20 ds) 12 = _
    rw [get32_set32_other _ _ _ _ (by omega), get32_set32_other _ _ _ _ (by omega),
      get32_set32_same]
  · show get32 (set32 _ 20 ds) 16 = _
    rw [get32_set32_other _ _ _ _ (by omega), get32_set32_same]
  · show get32 (set32 _ 20 ds) 20 = _
    rw [get32_set32_same]

theorem fs_format_ok (init : FS) (hm : init.MOUNT_FLAG = false) (h8 : 8 ≤ init.disk.size)
    (h32 : init.disk.size ≤ 32768) :
    ∃ s, fs_format init = (0, s) ∧ s.MOUNT_FLAG = false ∧ s.disk.size = init.disk.size ∧
      s.s_blocks_count = init.disk.size ∧ s.s_inodes_count = init.disk.size ∧
      s.s_block_bitmap = 1 ∧ s.s_inode_bitmap = 2 ∧ s.s_inode_table_block_start = 3 ∧
      s.s_data_blocks_start = 3 + (init.disk.size + 63) / 64 ∧
      (∀ j, BITMAP_TEST s.BLOCK_BITMAP j = decide (j ≤ 3 + (init.disk.size + 63) / 64)) ∧
      (∀ j, BITMAP_TEST s.INODE_BITMAP j = decide (j = 0)) ∧
      s.disk.blocks 0 = s.SUPERBLOCK ∧ s.disk.blocks 1 = s.BLOCK_BITMAP ∧
      s.disk.blocks 2 = s.INODE_BITMAP ∧
      s.disk.blocks (3 + (init.disk.size + 63) / 64) = root_dir_block ∧
      (∀ x, 3 ≤ x → x < 3 + (init.disk.size + 63) / 64 → s.disk.blocks x =
        format_inode_block init.disk.size (3 + (init.disk.size + 63) / 64) (x - 3)) ∧
      (∀ x, 3 + (init.disk.size + 63) / 64 < x → s.disk.blocks x = init.disk.blocks x) ∧
      s.INODE_TABLE = init.INODE_TABLE := by
  obtain ⟨N, hN⟩ : ∃ N, N = init.disk.size := ⟨_, rfl⟩
  rw [← hN] at h8 h32 ⊢
  have hNm : N % U32 = N := Nat.mod_eq_of_lt (by rw [U32_eq]; omega)
  have hib : ((N + BLOCK_SIZE / INODE_SIZE + (U32 - 1)) % U32) / (BLOCK_SIZE / INODE_SIZE) =
      (N + 63) / 64 := by
    have : BLOCK_SIZE / INODE_SIZE = 64 := rfl
    rw [this, U32_eq]
    omega
  have hds : (3 + (N + 63) / 64) % U32 = 3 + (N + 63) / 64 :=
    Nat.mod_eq_of_lt (by rw [U32_eq]; omega)
  obtain ⟨f0, f4, f8, f12, f16, f20⟩ := format_sb_fields init.SUPERBLOCK N (3 + (N + 63) / 64)
  have hN32 : N % 4294967296 = N := by rw [← U32_eq]; exact hNm
  have hds32 : (3 + (N + 63) / 64) % 4294967296 = 3 + (N + 63) / 64 := by
    rw [← U32_eq]; exact hds
  rw [hN32] at f0 f4
  rw [hds32] at f20
  unfold fs_format
  simp only [hm, Bool.false_eq_true, if_false, ← hN, hNm, hib, hds]
  have h1 : ¬ N < 8 := by omega
  simp only [if_neg h1, FS.s_data_blocks_start, FS.s_inodes_count, FS.s_inode_table_block_start,
    f20, f4, f16]
  have h2 : ¬ (3 + (N + 63) / 64 ≥ N) := by omega
  simp only [if_neg h2]
  rw [disk_write_ok _ _ _ (by rw [← hN]; omega)]
  simp only []
  obtain ⟨e, he, hes, heb⟩ := format_inode_table_ok N (3 + (N + 63) / 64) ((N + 63) / 64)
    (init.disk.put (3 + (N + 63) / 64) root_dir_block)
    (by show 3 + (N + 63) / 64 ≤ init.disk.size; rw [← hN]; omega)
    (by show init.disk.size < 4294967296; rw [← hN]; omega)
  rw [he]
  simp only []
  have hes2 : e.size = N := by rw [hes, hN]; rfl
  rw [disk_write_ok _ _ _ (by rw [hes2]; omega)]
  simp only []
  rw [disk_write_ok _ _ _ (by show 1 < e.size; rw [hes2]; omega)]
  simp only []
  rw [disk_write_ok _ _ _ (by show 2 < e.size; rw [hes2]; omega)]
  simp only []
  have hroot : ROOT_DIR_INODE = 0 := rfl
  refine ⟨_, rfl, rfl, ?_, f0, f4, f8, f12, f16, f20, ?_, ?_, ?_, ?_, ?_, ?_, ?_, ?_, rfl⟩
  · exact hes2
  · intro j
    rw [BITMAP_TEST_SET, BITMAP_TEST_set_bits]
    unfold zero_block
    rw [BITMAP_TEST_zero]
    by_cases h1 : j = 3 + (N + 63) / 64
    · subst h1; simp
    · by_cases h2 : j < 3 + (N + 63) / 64
      · have : j ≤ 3 + (N + 63) / 64 := by omega
        simp [h1, h2, this]
      · have : ¬ j ≤ 3 + (N + 63) / 64 := by omega
        simp [h1, h2, this]
  · intro j
    rw [BITMAP_TEST_SET]
    unfold zero_block
    rw [BITMAP_TEST_zero, hroot]
    simp
  · simp [Disk.put]
  · simp [Disk.put]
  · simp [Disk.put]
  · have : 3 + (N + 63) / 64 ≠ 0 ∧ 3 + (N + 63) / 64 ≠ 1 ∧ 3 + (N + 63) / 64 ≠ 2 := by omega
    simp only [Disk.put, if_neg this.1, if_neg this.2.1, if_neg this.2.2]
    rw [heb, if_neg (by omega)]
    simp [Disk.put]
  · intro x hx1 hx2
    have : x ≠ 0 ∧ x ≠ 1 ∧ x ≠ 2 := by omega
    simp only [Disk.put, if_neg this.1, if_neg this.2.1, if_neg this.2.2]
    rw [heb, if_pos ⟨hx1, hx2⟩]
  · intro x hx
    have : x ≠ 0 ∧ x ≠ 1 ∧ x ≠ 2 := by omega
    simp only [Disk.put, if_neg this.1, if_neg this.2.1, if_neg this.2.2]
    rw [heb, if_neg (by omega)]
    have : x ≠ 3 + (N + 63) / 64 := by omega
    simp [Disk.put, this]

theorem format_inode_block_fold (ic ds : Nat) (h : 0 < ic) (k : Nat) (hk : k < 64) (n : Nat) :
    byte_at ((List.range (n + 1)).foldl
      (fun blk j =>
        if 64 * 0 + j ≥ ic then blk
        else if 64 * 0 + j = ROOT_DIR_INODE then put_inode blk j (root_inode ds)
        else put_inode blk j zero_inode) zero_block) k =
      byte_at (put_inode zero_block 0 (root_inode ds)) k := by
  induction n with
  | zero =>
    have h0 : ¬ (64 * 0 + 0 ≥ ic) := by omega
    have e : List.range (0 + 1) = [0] := rfl
    rw [e]
    simp only [List.foldl_cons, List.foldl_nil]
    have h00 : 64 * 0 + 0 = ROOT_DIR_INODE := rfl
    rw [if_neg h0, if_pos h00]
  | succ n ih =>
    rw [List.range_succ, List.foldl_append]
    simp only [List.foldl_cons, List.foldl_nil]
    by_cases h1 : 64 * 0 + (n + 1) ≥ ic
    · rw [if_pos h1]; exact ih
    · rw [if_neg h1]
      have h2 : ¬ (64 * 0 + (n + 1) = ROOT_DIR_INODE) := by unfold ROOT_DIR_INODE; omega
      rw [if_neg h2, byte_at_put_inode, if_neg (by omega)]
      exact ih

theorem format_inode_block_bytes (ic ds : Nat) (h : 0 < ic) (k : Nat) (hk : k < 64) :
    byte_at (format_inode_block ic ds 0) k =
      byte_at (put_inode zero_block 0 (root_inode ds)) k :=
  format_inode_block_fold ic ds h k hk 63
theorem root_inode_fields (ic ds : Nat) (h : 0 < ic) (hds : ds < 4294967296) :
    (get_inode (format_inode_block ic ds 0) 0).i_size = 4096 ∧
    (get_inode (format_inode_block ic ds 0) 0).i_direct_pointers 0 = ds ∧
    (∀ dp, 0 < dp → dp < 13 → (get_inode (format_inode_block ic ds 0) 0).i_direct_pointers dp = 0) ∧
    (get_inode (format_inode_block ic ds 0) 0).i_indirect_pointer = 0 ∧
    (get_inode (format_inode_block ic ds 0) 0).i_is_directory = 1 := by
  obtain ⟨c1, c2, c3, c4⟩ := get_inode_congr (format_inode_block ic ds 0)
    (put_inode zero_block 0 (root_inode ds)) 0
    (fun k _ hk => format_inode_block_bytes ic ds h k (by omega))
  obtain ⟨p1, p2, p3, p4⟩ := get_inode_put_inode zero_block 0 (root_inode ds)
  refine ⟨?_, ?_, ?_, ?_, ?_⟩
  · rw [c1, p1]; rfl
  · rw [c2 0 (by omega), p2 0 (by omega)]
    show ds % 4294967296 = ds
    exact Nat.mod_eq_of_lt hds
  · intro dp h1 h2
    rw [c2 dp h2, p2 dp h2]
    have : (root_inode ds).i_direct_pointers dp = 0 := by
      unfold root_inode
      simp only []
      rw [if_neg (by omega)]
    rw [this]
  · rw [c3, p3]; rfl
  · rw [c4, p4]; rfl

/-- After `fs_format` and `fs_mount` on a device of 8 to 32768 blocks both calls have
returned 0 and the state is the fresh one. -/
theorem fresh_ok (init : FS) (hm : init.MOUNT_FLAG = false) (h8 : 8 ≤ init.disk.size)
    (h32 : init.disk.size ≤ 32768) :
    (fs_format init).1 = 0 ∧ (fs_mount (fs_format init).2).1 = 0 ∧
      Fresh (fresh_fs init) init.disk.size := by
  obtain ⟨s, hs, a1, a2, a3, a4, a5, a6, a7, a8, a9, a10, a11, a12, a13, a14, a15, a16, a17⟩ :=
    fs_format_ok init hm h8 h32
  unfold fresh_fs
  rw [hs]
  refine ⟨rfl, ?_⟩
  show (fs_mount s).1 = 0 ∧ Fresh (fs_mount s).2 init.disk.size
  unfold fs_mount
  simp only [a1, Bool.false_eq_true, if_false]
  rw [disk_read_ok _ _ (by omega)]
  simp only []
  rw [disk_read_ok _ _ (by omega)]
  simp only []
  rw [disk_read_ok _ _ (by omega)]
  simp only [a11, a12, a13, FS.s_data_blocks_start, FS.s_inode_table_block_start]
  have e20 : get32 s.SUPERBLOCK 20 = 3 + (init.disk.size + 63) / 64 := a8
  have e16 : get32 s.SUPERBLOCK 16 = 3 := a7
  rw [e20, e16]
  have hn : (3 + (init.disk.size + 63) / 64 + U32 - 3) % U32 = (init.disk.size + 63) / 64 := by
    rw [U32_eq]; omega
  rw [hn]
  obtain ⟨u, hu, hub⟩ := mount_load_ok s.disk
    (BLOCK_SIZE / INODE_SIZE * ((init.disk.size + 63) / 64) % U32)
    ((init.disk.size + 63) / 64) s.INODE_TABLE (by omega) (by omega)
  rw [hu]
  simp only []
  have hu0 : u 0 = get_inode (format_inode_block init.disk.size
      (3 + (init.disk.size + 63) / 64) 0) 0 := by
    rw [hub 0]
    have : (0 / 64 < (init.disk.size + 63) / 64 ∧
        0 < BLOCK_SIZE / INODE_SIZE * ((init.disk.size + 63) / 64) % U32) := by
      have : BLOCK_SIZE / INODE_SIZE = 64 := rfl
      rw [this, U32_eq]
      omega
    rw [if_pos this]
    have := a15 3 (by omega) (by omega)
    simp only [Nat.zero_div, Nat.zero_mod, Nat.add_zero]
    rw [this]
  obtain ⟨r1, r2, r3, r4, r5⟩ := root_inode_fields init.disk.size
    (3 + (init.disk.size + 63) / 64) (by omega) (by omega)
  refine ⟨trivial, ⟨h8, h32, rfl, a2, a3, a4, a7, a8, a9, a10, a14, ?_, ?_, ?_, ?_, ?_⟩⟩
  · show (u 0).i_size = 4096
    rw [hu0]; exact r1
  · show (u 0).i_direct_pointers 0 = _
    rw [hu0]; exact r2
  · intro dp h1 h2
    show (u 0).i_direct_pointers dp = _
    rw [hu0]; exact r3 dp h1 h2
  · show (u 0).i_indirect_pointer = 0
    rw [hu0]; exact r4
  · show (u 0).i_is_directory = 1
    rw [hu0]; exact r5

/-! ## Directories with one block -/

theorem dir_lookup_all_zero (d : Disk) (ino : Inode) (name : List Nat) (n dp : Nat)
    (h : ∀ x, dp ≤ x → x < dp + n → ino.i_direct_pointers x = 0) :
    dir_lookup d ino name dp n = Lookup.not_found := by
  induction n generalizing dp with
  | zero => rfl
  | succ n ih =>
    unfold dir_lookup
    rw [if_pos (h dp (le_refl _) (by omega))]
    exact ih (dp + 1) (fun x h1 h2 => h x (by omega) (by omega))

/-- Looking a name up in a directory whose only block is `direct[0]`. -/
theorem dir_lookup_single (d : Disk) (ino : Inode) (name : List Nat)
    (h0 : ino.i_direct_pointers 0 ≠ 0) (hlt : ino.i_direct_pointers 0 < d.size)
    (hz : ∀ x, 0 < x → x < 13 → ino.i_direct_pointers x = 0) :
    dir_lookup d ino name 0 INODE_DIRECT_POINTERS =
      match find_entry (d.blocks (ino.i_direct_pointers 0)) name 0 DIRENTS_PER_BLOCK with
      | some x => Lookup.found x
      | none => Lookup.not_found := by
  show dir_lookup d ino name 0 (12 + 1) = _
  unfold dir_lookup
  rw [if_neg h0, disk_read_ok d _ hlt]
  simp only []
  cases find_entry (d.blocks (ino.i_direct_pointers 0)) name 0 DIRENTS_PER_BLOCK with
  | some x => rfl
  | none =>
    simp only []
    exact dir_lookup_all_zero d ino name 12 1 (fun x h1 h2 => hz x (by omega) (by omega))

theorem find_entry_none (blk : Block) (name : List Nat) (n i : Nat)
    (h : ∀ x, i ≤ x → x < i + n → ¬ (entry_inode blk x ≠ 0 ∧ entry_name blk x = name)) :
    find_entry blk name i n = none := by
  induction n generalizing i with
  | zero => rfl
  | succ n ih =>
    unfold find_entry
    rw [if_neg (h i (le_refl _) (by omega))]
    exact ih (i + 1) (fun x h1 h2 => h x (by omega) (by omega))

theorem find_entry_first (blk : Block) (name : List Nat) (n i k : Nat) (h1 : i ≤ k)
    (h2 : k < i + n) (hk : entry_inode blk k ≠ 0 ∧ entry_name blk k = name)
    (h : ∀ x, i ≤ x → x < k → ¬ (entry_inode blk x ≠ 0 ∧ entry_name blk x = name)) :
    find_entry blk name i n = some (entry_inode blk k) := by
  induction n generalizing i with
  | zero => omega
  | succ n ih =>
    unfold find_entry
    by_cases hik : i = k
    · subst hik; rw [if_pos hk]
    · rw [if_neg (h i (le_refl _) (by omega))]
      exact ih (i + 1) (by omega) (by omega) (fun x h1 h2 => h x (by omega) h2)

theorem find_slot_first (blk : Block) (n i k : Nat) (h1 : i ≤ k) (h2 : k < i + n)
    (hk : entry_inode blk k = 0) (h : ∀ x, i ≤ x → x < k → entry_inode blk x ≠ 0) :
    find_slot blk i n = some k := by
  induction n generalizing i with
  | zero => omega
  | succ n ih =>
    unfold find_slot
    by_cases hik : i = k
    · subst hik; rw [if_pos hk]
    · rw [if_neg (h i (le_refl _) (by omega))]
      exact ih (i + 1) (by omega) (by omega) (fun x h1 h2 => h x (by omega) h2)

theorem entry_inode_root_dir_block (j : Nat) : entry_inode root_dir_block j = 0 := by
  unfold root_dir_block
  rw [entry_inode_set_entry, entry_inode_set_entry, entry_inode_zero]
  unfold ROOT_DIR_INODE
  split_ifs <;> rfl

theorem valid_name_of (tok : List Nat) (hv : ∀ c ∈ tok, c ≠ 0 ∧ c < 256) :
    valid_name (name_of tok) := by
  unfold valid_name name_of
  refine ⟨?_, ?_⟩
  · rw [List.length_take]; exact Nat.min_le_left _ _
  · intro c hc
    exact hv c (List.mem_of_mem_take hc)

theorem free_count_all_clear (bm : Block) (n lo : Nat)
    (h : ∀ j, lo ≤ j → j < lo + n → BITMAP_TEST bm j = false) : free_count bm lo n = n := by
  induction n generalizing lo with
  | zero => rfl
  | succ n ih =>
    unfold free_count
    rw [h lo (le_refl _) (by omega), ih (lo + 1) (fun j h1 h2 => h j (by omega) (by omega))]
    simp
    omega

/-- The last path component of `fs_create`, when the name is not in the parent. -/
theorem fs_create_loop_last (self : List Nat → FS → Int × FS) (isdir : Bool) (tok : List Nat)
    (parent : Nat) (s : FS) (hdir : (s.INODE_TABLE parent).i_is_directory ≠ 0)
    (hlook : dir_lookup s.disk (s.INODE_TABLE parent) (name_of tok) 0 INODE_DIRECT_POINTERS =
      Lookup.not_found) :
    fs_create_loop self isdir [(tok, [])] parent s =
      match create_node s parent (name_of tok) isdir with
      | (none, s1) => (-1, s1)
      | (some _, s1) => (0, s1) := by
  unfold fs_create_loop
  simp only [if_neg hdir, hlook, List.isEmpty_nil, Bool.true_or, if_true]

/-- Inserting an entry when the first block `p` of the parent has a free slot. -/
theorem add_entry_first_block (parent ni : Nat) (name : List Nat) (s : FS) (k p : Nat)
    (hp : (s.INODE_TABLE parent).i_direct_pointers 0 = p) (h0 : p ≠ 0) (hlt : p < s.disk.size)
    (hslot : find_slot (s.disk.blocks p) 0 DIRENTS_PER_BLOCK = some k) :
    add_entry parent ni name 0 INODE_DIRECT_POINTERS s =
      (true, { s with disk := s.disk.put p (set_entry (s.disk.blocks p) k ni name) }) := by
  show add_entry parent ni name 0 (12 + 1) s = _
  unfold add_entry
  rw [hp, if_neg h0, disk_read_ok _ _ hlt]
  simp only []
  rw [hslot]
  simp only []
  rw [disk_write_ok _ _ _ hlt]

/-- Creating a file directly in the root directory of the fresh filesystem. -/
theorem create_in_fresh_root (s : FS) (N : Nat) (path tok : List Nat) (hf : Fresh s N)
    (hh : path.head? = some SLASH) (ht : path_tokens (path_copy path) = [(tok, [])]) :
    (fs_create path false s).1 = 0 ∧ FreshFile (fs_create path false s).2 N (name_of tok) := by
  have hds := hf.ds
  have hN8 := hf.n8
  have hN32 := hf.n32
  have hroot0 := hf.root_d0
  have hlook : dir_lookup s.disk (s.INODE_TABLE 0) (name_of tok) 0
      INODE_DIRECT_POINTERS = Lookup.not_found := by
    rw [dir_lookup_single s.disk _ _ (by rw [hroot0]; omega) (by rw [hroot0, hf.dsize]; omega)
      hf.root_dn, hroot0, hf.rootblk]
    rw [find_entry_none _ _ _ _ (fun x _ _ hc => hc.1 (entry_inode_root_dir_block x))]
  have hino : first_clear s.INODE_BITMAP 0 s.s_inodes_count = some 1 := by
    apply first_clear_first
    · omega
    · rw [hf.ic]; omega
    · rw [hf.ibits]; simp
    · intro j _ hj
      rw [hf.ibits]
      have : j = 0 := by omega
      simp [this]
  have hdir : (s.INODE_TABLE 0).i_is_directory ≠ 0 := by
    have := hf.root_dir
    omega
  have e : fs_create path false s =
      fs_create_loop (fun p s => fs_create_fuel 1 p true s) false [(tok, [])] 0 s := by
    show fs_create_body _ path false s = _
    unfold fs_create_body
    simp only [hf.mounted, Bool.not_true, Bool.false_eq_true, if_false, hh, ne_eq,
      not_true_eq_false, ht, ROOT_DIR_INODE]
  rw [e, fs_create_loop_last _ _ _ _ _ hdir hlook]
  unfold create_node
  rw [hino]
  simp only [init_new_inode, Bool.false_eq_true, if_false]
  have hne : ¬ ((0 : Nat) = 1) := by omega
  rw [add_entry_first_block 0 1 (name_of tok) _ 0 (3 + (N + 63) / 64)
    (by simp only [FS.set_inode, if_neg hne]; exact hroot0) (by omega)
    (by show _ < s.disk.size; rw [hf.dsize]; omega)
    (by
      show find_slot (s.disk.blocks _) 0 DIRENTS_PER_BLOCK = some 0
      rw [hf.rootblk]
      exact find_slot_first _ _ _ _ (le_refl _) (by unfold DIRENTS_PER_BLOCK; omega)
        (entry_inode_root_dir_block 0) (fun x h1 h2 => by omega))]
  refine ⟨rfl, ⟨hN8, hN32, hf.mounted, hf.dsize, hf.bc, hf.ds, hf.bbits, ?_, ?_, ?_, ?_, ?_, ?_,
    ?_, ?_⟩⟩
  all_goals simp only [FS.set_inode, Disk.put, if_neg hne, if_true]
  · rw [hf.rootblk]
  · exact hroot0
  · exact hf.root_dn
  · exact hf.root_dir
  · intro dp; simp [zero_inode]
  · simp [zero_inode]

/-! ## `fs_write` and `fs_read` on an existing file -/

theorem file_ptr_set_size (u : FS) (f sz i : Nat) :
    file_ptr (set_size u f sz) f i = file_ptr u f i := by
  unfold file_ptr set_size FS.set_inode
  simp

theorem file_byte_set_size (u : FS) (f sz k : Nat) :
    file_byte (set_size u f sz) f k = file_byte u f k := by
  unfold file_byte
  rw [file_ptr_set_size]
  rfl

theorem FileOK_set_size (u : FS) (f sz : Nat) (h : FileOK u f) : FileOK (set_size u f sz) f := by
  have e : ∀ i, file_ptr (set_size u f sz) f i = file_ptr u f i := file_ptr_set_size u f sz
  have ei : ((set_size u f sz).INODE_TABLE f).i_indirect_pointer =
      (u.INODE_TABLE f).i_indirect_pointer := by
    unfold set_size FS.set_inode; simp
  refine ⟨h.ds_pos, h.bc_le, ?_, ?_, ?_⟩
  · intro hne
    rw [ei] at hne ⊢
    exact h.ind hne
  · intro i hi hne
    rw [e i] at hne ⊢
    rw [ei]
    exact h.ptr i hi hne
  · intro i j hi hj hij hne
    rw [e i] at hne ⊢
    rw [e j]
    exact h.inj i j hi hj hij hne

/-- What `fs_write` does once its path walk has found the regular file `f` without
changing the state: with sound pointers, a range inside the largest file and enough free
blocks it returns 0; the state is one grown from `s` for `f`, with the size raised to the
end of the range when that is larger. -/
theorem fs_write_found (s : FS) (path : List Nat) (buf : Nat → Nat) (count : Nat)
    (append : Bool) (f : Nat) (hm : s.MOUNT_FLAG = true) (hh : path.head? = some SLASH)
    (hc : count ≠ 0)
    (hres : write_resolve (path_tokens (path_copy path)) ROOT_DIR_INODE [SLASH] none s =
      (some (some f), s))
    (hok : FileOK s f)
    (hmax : (if append then (s.INODE_TABLE f).i_size else 0) + count ≤ MAX_FILE_SIZE)
    (hfree : blocks_touched (if append then (s.INODE_TABLE f).i_size else 0) count +
      (if (s.INODE_TABLE f).i_indirect_pointer = 0 ∧
        13 * 4096 < (if append then (s.INODE_TABLE f).i_size else 0) + count then 1 else 0)
      ≤ free_blocks s) :
    ∃ u, FileOK u f ∧ Grows s u f ∧
      (∀ k, (if append then (s.INODE_TABLE f).i_size else 0) ≤ k →
        k < (if append then (s.INODE_TABLE f).i_size else 0) + count →
        file_ptr u f (k / 4096) ≠ 0 ∧
        file_byte u f k = buf (k - (if append then (s.INODE_TABLE f).i_size else 0)) % 256) ∧
      (∀ k, k < MAX_FILE_SIZE →
        ¬ ((if append then (s.INODE_TABLE f).i_size else 0) ≤ k ∧
          k < (if append then (s.INODE_TABLE f).i_size else 0) + count) →
        file_ptr s f (k / 4096) ≠ 0 → file_byte u f k = file_byte s f k) ∧
      free_blocks s ≤ free_blocks u +
        (blocks_touched (if append then (s.INODE_TABLE f).i_size else 0) count +
          (if (s.INODE_TABLE f).i_indirect_pointer = 0 ∧
            13 * 4096 < (if append then (s.INODE_TABLE f).i_size else 0) + count
            then 1 else 0)) ∧
      fs_write path buf count append s =
        (0, if (if append then (s.INODE_TABLE f).i_size else 0) + count > (s.INODE_TABLE f).i_size
          then set_size u f ((if append then (s.INODE_TABLE f).i_size else 0) + count)
          else u) := by
  generalize hoff : (if append then (s.INODE_TABLE f).i_size else 0) = off at *
  obtain ⟨u, e, oku, gu, hc1, hp1, hfr⟩ := write_loop_ok f buf count off 0 count s hok
    (le_refl _) hmax hfree
  refine ⟨u, oku, gu, ?_, hp1, hfr, ?_⟩
  · intro k h1 h2
    have := hc1 k h1 h2
    rw [Nat.zero_add] at this
    exact this
  · unfold fs_write
    simp only [hm, Bool.not_true, Bool.false_eq_true, if_false, hh, ne_eq, not_true_eq_false,
      if_neg hc, hres, hoff, e]
    have hM : MAX_FILE_SIZE = 4247552 := by norm_num [MAX_FILE_SIZE]
    have hmod : (off + count) % U32 = off + count :=
      Nat.mod_eq_of_lt (by rw [U32_eq]; omega)
    rw [gu.size, hmod]
    by_cases hgt : off + count > (s.INODE_TABLE f).i_size
    · rw [if_pos hgt, if_pos hgt]; rfl
    · rw [if_neg hgt, if_neg hgt]

/-- What `fs_read` does once its path walk has found the regular file `f` whose blocks
below the size are all present: it returns `min count (size - offset)` and stores that
many bytes of the file from `offset` on; the rest of the buffer is untouched. -/
theorem fs_read_found (s : FS) (path : List Nat) (out : Nat → Nat) (count offset f : Nat)
    (hm : s.MOUNT_FLAG = true) (hh : path.head? = some SLASH) (hc : count ≠ 0)
    (htok : path_tokens (path_copy path) ≠ [])
    (hres : resolve s (path_tokens (path_copy path)) ROOT_DIR_INODE = some f)
    (hnd : (s.INODE_TABLE f).i_is_directory = 0) (hok : FileOK s f)
    (hoff : offset < (s.INODE_TABLE f).i_size)
    (hsz : (s.INODE_TABLE f).i_size ≤ MAX_FILE_SIZE)
    (hall : ∀ k, k < (s.INODE_TABLE f).i_size → file_ptr s f (k / 4096) ≠ 0)
    (h64 : offset + count < 18446744073709551616) :
    (fs_read path out count offset s).1 =
      ((min count ((s.INODE_TABLE f).i_size - offset) : Nat) : Int) ∧
    (∀ k, k < min count ((s.INODE_TABLE f).i_size - offset) →
      (fs_read path out count offset s).2 k = file_byte s f (offset + k)) ∧
    (∀ k, min count ((s.INODE_TABLE f).i_size - offset) ≤ k →
      (fs_read path out count offset s).2 k = out k) := by
  have e : fs_read path out count offset s =
      read_loop s f (min count ((s.INODE_TABLE f).i_size - offset)) offset 0
        (min count ((s.INODE_TABLE f).i_size - offset)) out := by
    unfold fs_read
    simp only [hm, Bool.not_true, Bool.false_eq_true, if_false, hh, ne_eq, not_true_eq_false,
      if_neg hc]
    cases hl : path_tokens (path_copy path) with
    | nil => exact absurd hl htok
    | cons tok toks =>
      simp only []
      rw [← hl, hres]
      simp only [hnd, not_true_eq_false, if_false]
      rw [if_neg (by omega)]
      have hmod : (offset + count) % SIZE_T = offset + count := Nat.mod_eq_of_lt h64
      rw [hmod]
      by_cases hgt : offset + count > (s.INODE_TABLE f).i_size
      · rw [if_pos hgt, Nat.min_eq_right (by omega)]
      · rw [if_neg hgt, Nat.min_eq_left (by omega)]
  rw [e]
  have hmle : min count ((s.INODE_TABLE f).i_size - offset) ≤ (s.INODE_TABLE f).i_size - offset :=
    Nat.min_le_right _ _
  generalize min count ((s.INODE_TABLE f).i_size - offset) = m at *
  obtain ⟨r1, r2, r3⟩ := read_loop_ok s f hok m offset 0 m out (le_refl _) (by omega)
    (fun k h1 h2 => hall k (by omega))
  refine ⟨?_, ?_, ?_⟩
  · rw [r1, Nat.zero_add]
  · intro k hk
    rw [r2 k (by omega) (by omega)]
    rfl
  · intro k hk
    exact r3 k (by omega)

/-! ## The fresh filesystem with one file -/

theorem FreshFile.file_ptr_zero {c : FS} {N : Nat} {name : List Nat} (h : FreshFile c N name)
    (i : Nat) : file_ptr c 1 i = 0 := by
  unfold file_ptr
  rw [h.f_ptrs, h.f_ind]
  simp

theorem FreshFile.fileOK {c : FS} {N : Nat} {name : List Nat} (h : FreshFile c N name) :
    FileOK c 1 := by
  refine ⟨by rw [h.ds]; omega, by rw [h.bc, h.dsize], fun hne => absurd h.f_ind hne, ?_, ?_⟩
  · intro i _ hne; exact absurd (h.file_ptr_zero i) hne
  · intro i j _ _ _ hne; exact absurd (h.file_ptr_zero i) hne

theorem FreshFile.free {c : FS} {N : Nat} {name : List Nat} (h : FreshFile c N name) :
    free_blocks c = N - (3 + (N + 63) / 64) - 1 := by
  have h8 := h.n8
  unfold free_blocks
  rw [h.ds, h.bc]
  have e : N - (3 + (N + 63) / 64) = (N - (3 + (N + 63) / 64) - 1) + 1 := by omega
  rw [e]
  unfold free_count
  rw [h.bbits]
  simp only [le_refl, decide_True, if_true, Nat.zero_add]
  rw [free_count_all_clear]
  · omega
  · intro j h1 h2
    rw [h.bbits]
    simp
    omega

theorem FreshFile.lookup {c : FS} {N : Nat} {name : List Nat} (h : FreshFile c N name)
    (hv : valid_name name) :
    dir_lookup c.disk (c.INODE_TABLE 0) name 0 INODE_DIRECT_POINTERS = Lookup.found 1 := by
  have h8 := h.n8
  rw [dir_lookup_single c.disk _ _ (by rw [h.root_d0]; omega) (by rw [h.root_d0, h.dsize]; omega)
    h.root_dn, h.root_d0, h.rootblk]
  have hk : entry_inode (set_entry root_dir_block 0 1 name) 0 ≠ 0 ∧
      entry_name (set_entry root_dir_block 0 1 name) 0 = name := by
    rw [entry_inode_set_entry, entry_name_set_entry_same _ _ _ _ hv]
    simp
  rw [find_entry_first _ _ _ 0 0 (le_refl _) (by unfold DIRENTS_PER_BLOCK; omega) hk
    (fun x h1 h2 => by omega)]
  simp only []
  rw [entry_inode_set_entry]
  simp

theorem dir_lookup_congr (d e : Disk) (ino jno : Inode) (name : List Nat) (hsz : e.size = d.size)
    (n dp : Nat)
    (hp : ∀ x, dp ≤ x → x < dp + n → jno.i_direct_pointers x = ino.i_direct_pointers x)
    (hb : ∀ x, dp ≤ x → x < dp + n → ino.i_direct_pointers x ≠ 0 →
      e.blocks (ino.i_direct_pointers x) = d.blocks (ino.i_direct_pointers x)) :
    dir_lookup e jno name dp n = dir_lookup d ino name dp n := by
  induction n generalizing dp with
  | zero => rfl
  | succ n ih =>
    unfold dir_lookup
    rw [hp dp (le_refl _) (by omega)]
    have ih2 := ih (dp + 1) (fun x h1 h2 => hp x (by omega) (by omega))
      (fun x h1 h2 => hb x (by omega) (by omega))
    by_cases h0 : ino.i_direct_pointers dp = 0
    · rw [if_pos h0, if_pos h0]; exact ih2
    · rw [if_neg h0, if_neg h0]
      unfold disk_read
      rw [hsz]
      by_cases hlt : ino.i_direct_pointers dp < d.size
      · rw [if_pos hlt, if_pos hlt]
        simp only []
        rw [hb dp (le_refl _) (by omega) h0, ih2]
      · rw [if_neg hlt, if_neg hlt]

/-- The last path component of `fs_write`, when it names an existing regular file. -/
theorem write_resolve_last_found (tok cur : List Nat) (parent idx : Nat) (s : FS)
    (hdir : (s.INODE_TABLE parent).i_is_directory ≠ 0)
    (hlook : dir_lookup s.disk (s.INODE_TABLE parent) (name_of tok) 0 INODE_DIRECT_POINTERS =
      Lookup.found idx)
    (hnd : (s.INODE_TABLE idx).i_is_directory = 0) :
    write_resolve [(tok, [])] parent cur none s = (some (some idx), s) := by
  unfold write_resolve
  simp only [if_neg hdir, hlook, List.isEmpty_nil, if_true, hnd, ne_eq, not_true_eq_false,
    if_false, write_resolve]

theorem resolve_single (tok rest : List Nat) (cur idx : Nat) (s : FS)
    (hdir : (s.INODE_TABLE cur).i_is_directory ≠ 0)
    (hlook : dir_lookup s.disk (s.INODE_TABLE cur) (name_of tok) 0 INODE_DIRECT_POINTERS =
      Lookup.found idx) :
    resolve s [(tok, rest)] cur = some idx := by
  unfold resolve
  simp only [if_neg hdir, hlook, resolve]

/-! ## A regular file in the root directory -/

theorem FreshFile.rootFile {c : FS} {N : Nat} {name : List Nat} (h : FreshFile c N name)
    (hv : valid_name name) : RootFile c name 1 := by
  refine ⟨h.mounted, by rw [h.root_dir]; omega, h.lookup hv, by omega, h.f_dir, h.fileOK, ?_⟩
  intro dp hdp hne
  have hno : ∀ b, ¬ owns c 1 b := by
    intro b hb
    obtain ⟨hb0, hb1 | hb1⟩ := hb
    · obtain ⟨i, _, hp⟩ := hb1
      rw [h.file_ptr_zero i] at hp
      exact hb0 hp.symm
    · rw [h.f_ind] at hb1
      exact hb0 hb1.symm
  refine ⟨?_, hno _⟩
  by_cases h0 : dp = 0
  · subst h0
    left
    rw [h.root_d0, h.bbits]
    simp
  · exact absurd (h.root_dn dp (by omega) hdp) hne

theorem RootFile.grows {t u : FS} {name : List Nat} {f : Nat} (h : RootFile t name f)
    (hg : Grows t u f) (hok : FileOK u f) : RootFile u name f := by
  have hroot : u.INODE_TABLE 0 = t.INODE_TABLE 0 := hg.others 0 (fun hc => h.fne hc.symm)
  have hnot : ∀ dp, dp < 13 → (t.INODE_TABLE 0).i_direct_pointers dp ≠ 0 →
      ¬ owns u f ((t.INODE_TABLE 0).i_direct_pointers dp) := by
    intro dp hdp hne hown
    obtain ⟨a1, a2⟩ := h.prot dp hdp hne
    obtain ⟨b1, b2, b3⟩ := hg.fresh _ hown a2
    rcases a1 with a1 | a1 | a1
    · rw [a1] at b3; exact absurd b3 (by simp)
    · omega
    · omega
  refine ⟨by rw [hg.mount]; exact h.mounted, by rw [hroot]; exact h.root_dir, ?_, h.fne,
    by rw [hg.isdir]; exact h.f_dir, hok, ?_⟩
  · rw [← h.look, hroot]
    apply dir_lookup_congr _ _ _ _ _ hg.dsize
    · intro x _ _; rfl
    · intro x _ hx hne
      obtain ⟨a1, a2⟩ := h.prot x (by unfold INODE_DIRECT_POINTERS at hx; omega) hne
      exact hg.frame _ a1 a2
  · intro dp hdp hne
    rw [hroot] at hne ⊢
    obtain ⟨a1, _⟩ := h.prot dp hdp hne
    refine ⟨?_, hnot dp hdp hne⟩
    rw [hg.ds, hg.bc]
    rcases a1 with a1 | a1 | a1
    · exact Or.inl (hg.bits _ a1)
    · exact Or.inr (Or.inl a1)
    · exact Or.inr (Or.inr a1)

theorem RootFile.set_size {u : FS} {name : List Nat} {f : Nat} (h : RootFile u name f)
    (sz : Nat) : RootFile (set_size u f sz) name f := by
  have hroot : (CFS.set_size u f sz).INODE_TABLE 0 = u.INODE_TABLE 0 := by
    unfold CFS.set_size FS.set_inode
    simp only []
    rw [if_neg (fun hc => h.fne hc.symm)]
  refine ⟨h.mounted, by rw [hroot]; exact h.root_dir, by rw [hroot]; exact h.look, h.fne, ?_,
    FileOK_set_size u f sz h.ok, ?_⟩
  · unfold CFS.set_size FS.set_inode
    simp only [if_true]
    exact h.f_dir
  · intro dp hdp hne
    rw [hroot] at hne ⊢
    obtain ⟨a1, a2⟩ := h.prot dp hdp hne
    refine ⟨a1, ?_⟩
    intro hown
    apply a2
    obtain ⟨hb0, hb1 | hb1⟩ := hown
    · obtain ⟨i, hi, hp⟩ := hb1
      rw [file_ptr_set_size] at hp
      exact ⟨hb0, Or.inl ⟨i, hi, hp⟩⟩
    · refine ⟨hb0, Or.inr ?_⟩
      rw [← hb1]
      unfold CFS.set_size FS.set_inode
      simp

theorem RootFile.write_resolve {t : FS} {tok : List Nat} {f : Nat}
    (h : RootFile t (name_of tok) f) (path : List Nat)
    (ht : path_tokens (path_copy path) = [(tok, [])]) :
    write_resolve (path_tokens (path_copy path)) ROOT_DIR_INODE [SLASH] none t =
      (some (some f), t) := by
  rw [ht]
  exact write_resolve_last_found tok [SLASH] 0 f t h.root_dir h.look h.f_dir

theorem RootFile.resolve {t : FS} {tok : List Nat} {f : Nat}
    (h : RootFile t (name_of tok) f) (path : List Nat)
    (ht : path_tokens (path_copy path) = [(tok, [])]) :
    resolve t (path_tokens (path_copy path)) ROOT_DIR_INODE = some f := by
  rw [ht]
  exact resolve_single tok [] 0 f t h.root_dir h.look

theorem blocks_touched_zero (n : Nat) (h : 0 < n) : blocks_touched 0 n = (n + 4095) / 4096 := by
  unfold blocks_touched
  rw [if_neg (by omega)]
  omega

theorem set_size_size (u : FS) (f sz : Nat) : ((set_size u f sz).INODE_TABLE f).i_size = sz := by
  unfold set_size FS.set_inode
  simp

theorem set_size_free (u : FS) (f sz : Nat) : free_blocks (set_size u f sz) = free_blocks u := rfl

theorem set_size_indirect (u : FS) (f sz : Nat) :
    ((set_size u f sz).INODE_TABLE f).i_indirect_pointer = (u.INODE_TABLE f).i_indirect_pointer := by
  unfold set_size FS.set_inode
  simp

/-- Writing `n` bytes at offset 0 to the empty file just created in the fresh root. -/
theorem fresh_file_write (c : FS) (N : Nat) (path tok : List Nat) (buf : Nat → Nat) (n : Nat)
    (hc : FreshFile c N (name_of tok)) (hv : ∀ x ∈ tok, x ≠ 0 ∧ x < 256)
    (hh : path.head? = some SLASH) (ht : path_tokens (path_copy path) = [(tok, [])])
    (hn0 : 0 < n) (hn : n ≤ MAX_FILE_SIZE)
    (hfree : (n + 4095) / 4096 + (if 13 * 4096 < n then 1 else 0) ≤
      N - (3 + (N + 63) / 64) - 1) :
    ∃ u, fs_write path buf n false c = (0, set_size u 1 n) ∧
      RootFile (set_size u 1 n) (name_of tok) 1 ∧
      (∀ k, k < n → file_ptr (set_size u 1 n) 1 (k / 4096) ≠ 0 ∧
        file_byte (set_size u 1 n) 1 k = buf k % 256) ∧
      N - (3 + (N + 63) / 64) - 1 ≤ free_blocks (set_size u 1 n) +
        ((n + 4095) / 4096 + (if 13 * 4096 < n then 1 else 0)) := by
  have hroot := hc.rootFile (valid_name_of tok hv)
  have hbt := blocks_touched_zero n hn0
  have hind : (if (c.INODE_TABLE 1).i_indirect_pointer = 0 ∧ 13 * 4096 < 0 + n then 1 else 0) =
      (if 13 * 4096 < n then 1 else 0) := by
    rw [hc.f_ind, Nat.zero_add]
    simp
  obtain ⟨u, oku, gu, h1, _, h3, h4⟩ := fs_write_found c path buf n false 1 hc.mounted hh
    (by omega) (hroot.write_resolve path ht) hroot.ok
    (by simp only [Bool.false_eq_true, if_false]; omega)
    (by simp only [Bool.false_eq_true, if_false]; rw [hbt, hind, hc.free]; exact hfree)
  simp only [Bool.false_eq_true, if_false] at h1 h3 h4
  rw [hc.f_size, if_pos (by omega), Nat.zero_add] at h4
  rw [hbt, hind, hc.free] at h3
  refine ⟨u, h4, (hroot.grows gu oku).set_size n, ?_, ?_⟩
  · intro k hk
    have := h1 k (by omega) (by omega)
    rw [file_ptr_set_size, file_byte_set_size]
    exact ⟨this.1, by rw [this.2]; rfl⟩
  · rw [set_size_free]; exact h3

/-- Reading a regular file of the root directory from offset 0, all of its blocks being
present. -/
theorem rootfile_read (t : FS) (path tok : List Nat) (out : Nat → Nat) (count f : Nat)
    (h : RootFile t (name_of tok) f) (hh : path.head? = some SLASH)
    (ht : path_tokens (path_copy path) = [(tok, [])]) (hc : 0 < count)
    (hsz0 : 0 < (t.INODE_TABLE f).i_size) (hsz : (t.INODE_TABLE f).i_size ≤ MAX_FILE_SIZE)
    (hall : ∀ k, k < (t.INODE_TABLE f).i_size → file_ptr t f (k / 4096) ≠ 0)
    (h64 : count < 18446744073709551616) :
    (fs_read path out count 0 t).1 = ((min count (t.INODE_TABLE f).i_size : Nat) : Int) ∧
    (∀ k, k < min count (t.INODE_TABLE f).i_size →
      (fs_read path out count 0 t).2 k = file_byte t f k) := by
  obtain ⟨r1, r2, _⟩ := fs_read_found t path out count 0 f h.mounted hh (by omega)
    (by rw [ht]; simp) (h.resolve path ht) h.f_dir h.ok hsz0 hsz hall (by omega)
  rw [Nat.sub_zero] at r1 r2
  refine ⟨r1, ?_⟩
  intro k hk
  rw [r2 k hk, Nat.zero_add]

/-! # The claims -/

/-- C1 (write/read round trip).  On a device of 8 to 32768 blocks, after `fs_format` and
`fs_mount`, let `path` be an absolute path with the single component `tok` (a new entry of
the root directory, the only directory there is), its bytes being non-NUL characters, and
let `buf` hold `n` bytes, `1 ≤ n ≤ 13*4096 + 1024*4096`, with one free data block for each
block of the file and one more for the indirect block when `n` exceeds 13 blocks.  Then
`fs_create(path, 0)` and `fs_write(path, buf, n, 0)` return 0, and
`fs_read(path, out, n, 0)` returns `n` and fills `out` with the bytes of `buf`. -/
theorem write_read_round_trip (init : FS) (path tok : List Nat) (buf out : Nat → Nat) (n : Nat)
    (hm : init.MOUNT_FLAG = false) (h8 : 8 ≤ init.disk.size) (h32 : init.disk.size ≤ 32768)
    (hh : path.head? = some SLASH) (ht : path_tokens (path_copy path) = [(tok, [])])
    (hv : ∀ c ∈ tok, c ≠ 0 ∧ c < 256)
    (hn0 : 0 < n) (hn : n ≤ 13 * 4096 + 1024 * 4096) (hbuf : ∀ i, i < n → buf i < 256)
    (hfree : (n + 4095) / 4096 + (if 13 * 4096 < n then 1 else 0) ≤
      init.disk.size - (3 + (init.disk.size + 63) / 64) - 1) :
    (fs_create path false (fresh_fs init)).1 = 0 ∧
    (fs_write path buf n false (fs_create path false (fresh_fs init)).2).1 = 0 ∧
    (fs_read path out n 0
      (fs_write path buf n false (fs_create path false (fresh_fs init)).2).2).1 = (n : Int) ∧
    ∀ i, i < n → (fs_read path out n 0
      (fs_write path buf n false (fs_create path false (fresh_fs init)).2).2).2 i = buf i := by
  obtain ⟨_, _, hfresh⟩ := fresh_ok init hm h8 h32
  obtain ⟨c1, c2⟩ := create_in_fresh_root _ _ path tok hfresh hh ht
  obtain ⟨u, w1, w2, w3, _⟩ := fresh_file_write _ _ path tok buf n c2 hv hh ht hn0
    (by unfold MAX_FILE_SIZE; exact hn) hfree
  rw [w1]
  have hsz := set_size_size u 1 n
  obtain ⟨r1, r2⟩ := rootfile_read (set_size u 1 n) path tok out n 1 w2 hh ht hn0
    (by rw [hsz]; exact hn0) (by rw [hsz]; unfold MAX_FILE_SIZE; exact hn)
    (fun k hk => (w3 k (by rw [hsz] at hk; exact hk)).1) (by omega)
  rw [hsz, Nat.min_self] at r1 r2
  refine ⟨c1, rfl, r1, ?_⟩
  intro i hi
  rw [r2 i hi, (w3 i hi).2]
  exact Nat.mod_eq_of_lt (hbuf i hi)

/-- C1, witness: the path `/f` and five bytes `7` on a device of 1024 zeroed blocks. -/
theorem write_read_round_trip_witness :
    (path_tokens (path_copy (ascii "/f")) = [(ascii "f", [])] ∧
      (5 + 4095) / 4096 + (if 13 * 4096 < 5 then 1 else 0) ≤ 1024 - (3 + (1024 + 63) / 64) - 1) ∧
    ((fs_create (ascii "/f") false (fresh_fs (zero_device 1024))).1 = 0 ∧
    (fs_write (ascii "/f") (fun _ => 7) 5 false
      (fs_create (ascii "/f") false (fresh_fs (zero_device 1024))).2).1 = 0 ∧
    (fs_read (ascii "/f") (fun _ => 0) 5 0
      (fs_write (ascii "/f") (fun _ => 7) 5 false
        (fs_create (ascii "/f") false (fresh_fs (zero_device 1024))).2).2).1 = (5 : Int) ∧
    (fs_read (ascii "/f") (fun _ => 0) 5 0
      (fs_write (ascii "/f") (fun _ => 7) 5 false
        (fs_create (ascii "/f") false (fresh_fs (zero_device 1024))).2).2).2 4 = 7) :=
  ⟨⟨by decide, by decide⟩,
    have h := write_read_round_trip (zero_device 1024) (ascii "/f") (ascii "f") (fun _ => 7)
      (fun _ => 0) 5 rfl (by decide) (by decide) (by decide) (by decide) (by decide)
      (by decide) (by decide) (fun _ _ => by simp) (by decide)
    ⟨h.1, h.2.1, h.2.2.1, h.2.2.2 4 (by decide)⟩⟩

/-- C2 (append concatenation).  On a device of 8 to 32768 blocks, after `fs_format`,
`fs_mount` and `fs_create(path, 0)` of a single-component path in the root directory, let
`A` hold `a ≥ 1` bytes and `B` hold `b ≥ 1` bytes with `a + b ≤ 13*4096 + 1024*4096`, and
let the device have free data blocks for the blocks of `a + b` bytes and two more.  Then
`fs_write(path, A, a, 0)` and `fs_write(path, B, b, 1)` return 0, and
`fs_read(path, out, a + b, 0)` returns `a + b` with `out` holding `A` followed by `B`. -/
theorem append_concatenation (init : FS) (path tok : List Nat) (A B out : Nat → Nat) (a b : Nat)
    (hm : init.MOUNT_FLAG = false) (h8 : 8 ≤ init.disk.size) (h32 : init.disk.size ≤ 32768)
    (hh : path.head? = some SLASH) (ht : path_tokens (path_copy path) = [(tok, [])])
    (hv : ∀ c ∈ tok, c ≠ 0 ∧ c < 256)
    (ha0 : 0 < a) (hb0 : 0 < b) (hab : a + b ≤ 13 * 4096 + 1024 * 4096)
    (hA : ∀ i, i < a → A i < 256) (hB : ∀ i, i < b → B i < 256)
    (hfree : (a + b + 4095) / 4096 + 2 ≤
      init.disk.size - (3 + (init.disk.size + 63) / 64) - 1) :
    (fs_write path A a false (fs_create path false (fresh_fs init)).2).1 = 0 ∧
    (fs_write path B b true
      (fs_write path A a false (fs_create path false (fresh_fs init)).2).2).1 = 0 ∧
    (fs_read path out (a + b) 0 (fs_write path B b true
      (fs_write path A a false (fs_create path false (fresh_fs init)).2).2).2).1
        = ((a + b : Nat) : Int) ∧
    ∀ i, i < a + b → (fs_read path out (a + b) 0 (fs_write path B b true
      (fs_write path A a false (fs_create path false (fresh_fs init)).2).2).2).2 i
        = if i < a then A i else B (i - a) := by
  obtain ⟨_, _, hfresh⟩ := fresh_ok init hm h8 h32
  obtain ⟨_, c2⟩ := create_in_fresh_root _ _ path tok hfresh hh ht
  have hM : MAX_FILE_SIZE = 13 * 4096 + 1024 * 4096 := rfl
  obtain ⟨u, w1, w2, w3, w4⟩ := fresh_file_write _ _ path tok A a c2 hv hh ht ha0
    (by rw [hM]; omega) (by split_ifs <;> omega)
  rw [w1]
  have hsz := set_size_size u 1 a
  -- the second write starts at the size `a`
  have hind2 : 13 * 4096 < a → ((set_size u 1 a).INODE_TABLE 1).i_indirect_pointer ≠ 0 := by
    intro hgt hz
    have hp := (w3 (a - 1) (by omega)).1
    apply hp
    unfold file_ptr
    rw [if_neg (by omega), if_pos hz]
  obtain ⟨v, okv, gv, x1, x2, _, x4⟩ := fs_write_found (set_size u 1 a) path B b true 1
    w2.mounted hh (by omega) (w2.write_resolve path ht) w2.ok
    (by simp only [if_true]; rw [hsz, hM]; exact hab)
    (by
      simp only [if_true]
      rw [hsz]
      have hbt : blocks_touched a b = (a + b - 1) / 4096 - a / 4096 + 1 := by
        unfold blocks_touched; rw [if_neg (by omega)]
      rw [hbt]
      by_cases hgt : 13 * 4096 < a
      · have hne : ¬ (((set_size u 1 a).INODE_TABLE 1).i_indirect_pointer = 0 ∧
            13 * 4096 < a + b) := fun hc => hind2 hgt hc.1
        rw [if_neg hne]
        rw [if_pos hgt] at w4
        omega
      · rw [if_neg hgt] at w4
        split_ifs <;> omega)
  simp only [if_true] at x1 x2 x4
  rw [hsz] at x1 x2 x4
  rw [if_pos (by omega)] at x4
  rw [x4]
  have hsz2 := set_size_size v 1 (a + b)
  have hroot3 := (w2.grows gv okv).set_size (a + b)
  have hbytes : ∀ k, k < a + b → file_ptr (set_size v 1 (a + b)) 1 (k / 4096) ≠ 0 ∧
      file_byte (set_size v 1 (a + b)) 1 k = if k < a then A k else B (k - a) := by
    intro k hk
    rw [file_ptr_set_size, file_byte_set_size]
    by_cases hka : k < a
    · have hp := (w3 k hka).1
      rw [if_pos hka]
      refine ⟨by rw [gv.ptrs _ (by omega) hp]; exact hp, ?_⟩
      rw [x2 k (by rw [hM]; omega) (by omega) hp, (w3 k hka).2]
      exact Nat.mod_eq_of_lt (hA k hka)
    · rw [if_neg hka]
      have := x1 k (by omega) hk
      refine ⟨this.1, ?_⟩
      rw [this.2]
      exact Nat.mod_eq_of_lt (hB _ (by omega))
  obtain ⟨r1, r2⟩ := rootfile_read (set_size v 1 (a + b)) path tok out (a + b) 1 hroot3 hh ht
    (by omega) (by rw [hsz2]; omega) (by rw [hsz2, hM]; exact hab)
    (fun k hk => (hbytes k (by rw [hsz2] at hk; exact hk)).1) (by omega)
  rw [hsz2, Nat.min_self] at r1 r2
  refine ⟨rfl, rfl, r1, ?_⟩
  intro i hi
  rw [r2 i hi, (hbytes i hi).2]

/-- C2, witness: `/f`, three bytes `1` then two bytes `2`, on 1024 zeroed blocks. -/
theorem append_concatenation_witness :
    (path_tokens (path_copy (ascii "/f")) = [(ascii "f", [])] ∧
      (3 + 2 + 4095) / 4096 + 2 ≤ 1024 - (3 + (1024 + 63) / 64) - 1) ∧
    ((fs_write (ascii "/f") (fun _ => 2) 2 true
      (fs_write (ascii "/f") (fun _ => 1) 3 false
        (fs_create (ascii "/f") false (fresh_fs (zero_device 1024))).2).2).1 = 0 ∧
    (fs_read (ascii "/f") (fun _ => 0) (3 + 2) 0 (fs_write (ascii "/f") (fun _ => 2) 2 true
      (fs_write (ascii "/f") (fun _ => 1) 3 false
        (fs_create (ascii "/f") false (fresh_fs (zero_device 1024))).2).2).2).2 3 = 2) :=
  ⟨⟨by decide, by decide⟩,
    have h := append_concatenation (zero_device 1024) (ascii "/f") (ascii "f") (fun _ => 1)
      (fun _ => 2) (fun _ => 0) 3 2 rfl (by decide) (by decide) (by decide) (by decide)
      (by decide) (by decide) (by decide) (by decide) (fun _ _ => by simp) (fun _ _ => by simp)
      (by decide)
    ⟨h.2.1, h.2.2.2 3 (by decide)⟩⟩

/-! ## Writes beyond the largest file -/

theorem allocate_data_block_table (s : FS) :
    (allocate_data_block s).2.INODE_TABLE = s.INODE_TABLE ∧
      (allocate_data_block s).2.disk.size = s.disk.size := by
  unfold allocate_data_block
  cases first_clear s.BLOCK_BITMAP s.s_data_blocks_start s.s_blocks_count <;> exact ⟨rfl, rfl⟩

theorem disk_write_size (d e : Disk) (n : Nat) (b : Block) (h : disk_write d n b = some e) :
    e.size = d.size := by
  unfold disk_write at h
  split_ifs at h
  injection h with h
  rw [← h]; rfl

theorem ensure_indirect_size (f : Nat) (s : FS) (i : Nat) :
    ((ensure_indirect f s).2.INODE_TABLE i).i_size = (s.INODE_TABLE i).i_size := by
  unfold ensure_indirect
  split_ifs with h0
  · have ha := (allocate_data_block_table s).1
    rcases hall : allocate_data_block s with ⟨ib, s1⟩
    rw [hall] at ha
    simp only [] at ha ⊢
    split_ifs
    · simp only []; rw [ha]
    · rcases hw : disk_write (s1.set_inode f
          { (s1.INODE_TABLE f) with i_indirect_pointer := ib }).disk ib zero_block with _ | d
      all_goals
        simp only [FS.set_inode]
        split_ifs with hi
        · rw [hi, ha]
        · rw [ha]
  · rfl

theorem write_block_num_size (f bi : Nat) (s : FS) (i : Nat) :
    ((write_block_num f bi s).2.INODE_TABLE i).i_size = (s.INODE_TABLE i).i_size := by
  unfold write_block_num
  by_cases h1 : bi < INODE_DIRECT_POINTERS
  · rw [if_pos h1]
    by_cases h2 : (s.INODE_TABLE f).i_direct_pointers bi = 0
    · rw [if_pos h2]
      have ha := (allocate_data_block_table s).1
      generalize allocate_data_block s = r at ha ⊢
      rcases r with ⟨nb, s1⟩
      simp only [] at ha ⊢
      by_cases h3 : nb = NONE32
      · rw [if_pos h3]; simp only []; rw [ha]
      · rw [if_neg h3]
        simp only [FS.set_inode, Inode.set_direct]
        by_cases hi : i = f
        · rw [if_pos hi, hi, ha]
        · rw [if_neg hi, ha]
    · rw [if_neg h2]
  · rw [if_neg h1]
    have he := ensure_indirect_size f s i
    generalize ensure_indirect f s = r at he ⊢
    rcases r with ⟨ok, s1⟩
    simp only [] at he
    cases ok with
    | false => exact he
    | true =>
      simp only []
      cases disk_read s1.disk (s1.INODE_TABLE f).i_indirect_pointer with
      | none => exact he
      | some ind =>
        simp only []
        by_cases h4 : bi - INODE_DIRECT_POINTERS ≥ MAX_POINTERS
        · rw [if_pos h4]; exact he
        · rw [if_neg h4]
          by_cases h5 : get_pointer ind (bi - INODE_DIRECT_POINTERS) = 0
          · rw [if_pos h5]
            have ha := (allocate_data_block_table s1).1
            generalize allocate_data_block s1 = r2 at ha ⊢
            rcases r2 with ⟨nb, s2⟩
            simp only [] at ha ⊢
            by_cases h3 : nb = NONE32
            · rw [if_pos h3]; simp only []; rw [ha]; exact he
            · rw [if_neg h3]
              cases disk_write s2.disk (s2.INODE_TABLE f).i_indirect_pointer
                  (set_pointer ind (bi - INODE_DIRECT_POINTERS) nb) with
              | none => simp only []; rw [ha]; exact he
              | some d => simp only []; rw [ha]; exact he
          · rw [if_neg h5]; exact he

theorem write_block_num_beyond (f bi : Nat) (s : FS) (h : 1037 ≤ bi) :
    (write_block_num f bi s).1 = none := by
  unfold write_block_num
  have h1 : ¬ bi < INODE_DIRECT_POINTERS := by unfold INODE_DIRECT_POINTERS; omega
  have h2 : bi - INODE_DIRECT_POINTERS ≥ MAX_POINTERS := by
    unfold INODE_DIRECT_POINTERS MAX_POINTERS; omega
  rw [if_neg h1]
  rcases ensure_indirect f s with ⟨ok, s1⟩
  cases ok with
  | false => rfl
  | true =>
    simp only []
    cases disk_read s1.disk (s1.INODE_TABLE f).i_indirect_pointer with
    | none => rfl
    | some ind =>
      simp only []
      rw [if_pos h2]

/-- The `while` loop of `fs_write` never changes an `i_size`. -/
theorem write_loop_size (f : Nat) (buf : Nat → Nat) (fuel : Nat) :
    ∀ (offset pos remaining : Nat) (s : FS) (i : Nat),
      ((write_loop f buf fuel offset pos remaining s).2.2.INODE_TABLE i).i_size =
        (s.INODE_TABLE i).i_size := by
  induction fuel with
  | zero => intro offset pos remaining s i; rfl
  | succ fuel ih =>
    intro offset pos remaining s i
    unfold write_loop
    by_cases hr : remaining = 0
    · rw [if_pos hr]
    · rw [if_neg hr]
      have hb := write_block_num_size f (offset / BLOCK_SIZE) s i
      generalize write_block_num f (offset / BLOCK_SIZE) s = r at hb ⊢
      rcases r with ⟨_ | dbn, s1⟩
      · exact hb
      · simp only [] at hb ⊢
        cases disk_read s1.disk dbn with
        | none => exact hb
        | some blk =>
          simp only []
          cases disk_write s1.disk dbn (write_bytes blk (offset % BLOCK_SIZE)
              (fun j => buf (pos + j)) (min remaining (BLOCK_SIZE - offset % BLOCK_SIZE))) with
          | none => exact hb
          | some d =>
            simp only []
            rw [ih]
            exact hb

/-- The `while` loop of `fs_write` fails when the range ends beyond the largest file. -/
theorem write_loop_beyond (f : Nat) (buf : Nat → Nat) (fuel : Nat) :
    ∀ (offset pos remaining : Nat) (s : FS), 0 < remaining → remaining ≤ fuel →
      MAX_FILE_SIZE < offset + remaining →
      (write_loop f buf fuel offset pos remaining s).1 = -1 := by
  induction fuel with
  | zero => intro offset pos remaining s h0 hf; omega
  | succ fuel ih =>
    intro offset pos remaining s h0 hf hmax
    have hM : MAX_FILE_SIZE = 1037 * 4096 := by norm_num [MAX_FILE_SIZE]
    have hB : BLOCK_SIZE = 4096 := rfl
    unfold write_loop
    rw [if_neg (by omega)]
    by_cases hb : 1037 ≤ offset / BLOCK_SIZE
    · have := write_block_num_beyond f (offset / BLOCK_SIZE) s hb
      generalize write_block_num f (offset / BLOCK_SIZE) s = r at this ⊢
      rcases r with ⟨_ | dbn, s1⟩
      · rfl
      · simp at this
    · rcases write_block_num f (offset / BLOCK_SIZE) s with ⟨_ | dbn, s1⟩
      · rfl
      · simp only []
        cases disk_read s1.disk dbn with
        | none => rfl
        | some blk =>
          simp only []
          cases disk_write s1.disk dbn (write_bytes blk (offset % BLOCK_SIZE)
              (fun j => buf (pos + j)) (min remaining (BLOCK_SIZE - offset % BLOCK_SIZE))) with
          | none => rfl
          | some d =>
            simp only []
            rw [hB] at hb ⊢
            have hn2 : min remaining (4096 - offset % 4096) ≤ 4096 - offset % 4096 :=
              Nat.min_le_right _ _
            have hn1 : min remaining (4096 - offset % 4096) ≤ remaining := Nat.min_le_left _ _
            have hn3 : 0 < min remaining (4096 - offset % 4096) := by
              rw [Nat.lt_min]; omega
            apply ih
            · omega
            · omega
            · omega

/-- A write whose range ends beyond the largest file fails, whatever the state, and the
sizes of all inodes are those left by the path walk. -/
theorem fs_write_beyond (s : FS) (path : List Nat) (buf : Nat → Nat) (count : Nat)
    (append : Bool)
    (hover : ∀ f, (write_resolve (path_tokens (path_copy path)) ROOT_DIR_INODE [SLASH] none s).1
        = some (some f) →
      MAX_FILE_SIZE < (if append then
        ((write_resolve (path_tokens (path_copy path)) ROOT_DIR_INODE [SLASH] none s).2.INODE_TABLE
          f).i_size else 0) + count) :
    (fs_write path buf count append s).1 = -1 ∧
    ∀ i, ((fs_write path buf count append s).2.INODE_TABLE i).i_size =
      (if s.MOUNT_FLAG = true ∧ path.head? = some SLASH ∧ count ≠ 0 then
        ((write_resolve (path_tokens (path_copy path)) ROOT_DIR_INODE [SLASH] none s).2.INODE_TABLE
          i).i_size
      else (s.INODE_TABLE i).i_size) := by
  unfold fs_write
  by_cases hm : s.MOUNT_FLAG = true
  · by_cases hh : path.head? = some SLASH
    · by_cases hc : count = 0
      · have hn : ¬ (s.MOUNT_FLAG = true ∧ path.head? = some SLASH ∧ count ≠ 0) :=
          fun h => h.2.2 hc
        simp only [if_neg hn]
        simp only [hm, Bool.not_true, Bool.false_eq_true, if_false, hh, ne_eq,
          not_true_eq_false, hc, if_true]
        exact ⟨trivial, fun _ => trivial⟩
      · have hy : s.MOUNT_FLAG = true ∧ path.head? = some SLASH ∧ count ≠ 0 := ⟨hm, hh, hc⟩
        simp only [if_pos hy]
        simp only [hm, Bool.not_true, Bool.false_eq_true, if_false, hh, ne_eq,
          not_true_eq_false, if_neg hc]
        generalize write_resolve (path_tokens (path_copy path)) ROOT_DIR_INODE [SLASH] none s =
          r at hover ⊢
        rcases r with ⟨_ | _ | f, s1⟩
        · exact ⟨rfl, fun _ => rfl⟩
        · exact ⟨rfl, fun _ => rfl⟩
        · simp only []
          have hov := hover f rfl
          simp only [] at hov
          have hfail := write_loop_beyond f buf count
            (if append then (s1.INODE_TABLE f).i_size else 0) 0 count s1 (by omega) (le_refl _) hov
          have hsize := write_loop_size f buf count
            (if append then (s1.INODE_TABLE f).i_size else 0) 0 count s1
          generalize write_loop f buf count (if append then (s1.INODE_TABLE f).i_size else 0)
            0 count s1 = w at hfail hsize ⊢
          rcases w with ⟨rc, off, s2⟩
          simp only [] at hfail hsize ⊢
          have hne : rc ≠ 0 := by rw [hfail]; decide
          rw [if_pos hne]
          exact ⟨rfl, hsize⟩
    · have hn : ¬ (s.MOUNT_FLAG = true ∧ path.head? = some SLASH ∧ count ≠ 0) :=
        fun h => hh h.2.1
      simp only [if_neg hn]
      simp only [hm, Bool.not_true, Bool.false_eq_true, if_false, hh, ne_eq, not_false_eq_true,
        if_true]
      exact ⟨trivial, fun _ => trivial⟩
  · have hn : ¬ (s.MOUNT_FLAG = true ∧ path.head? = some SLASH ∧ count ≠ 0) :=
      fun h => hm h.1
    simp only [if_neg hn]
    have hm2 : s.MOUNT_FLAG = false := by simpa using hm
    simp only [hm2, Bool.not_false, if_true]
    exact ⟨trivial, fun _ => trivial⟩

/-- C10 (largest file).  On a freshly formatted and mounted device of at most 32768
blocks with 1038 free data blocks (1037 for the data, one for the indirect block), and
for a single-component path created as a regular file in the root directory:
writing `13*4096 + 1024*4096` bytes at offset 0 returns 0 and sets the size to that
number; writing one byte more returns -1 and leaves the size of the file (inode 1) at 0.
In general, for any state `t`, any path and any buffer: when the range of the write, from
the start offset (the size for an append, 0 otherwise) over `count` bytes, ends beyond
`13*4096 + 1024*4096`, `fs_write` returns -1 and every `i_size` is the one left by the
path walk of `fs_write`. -/
theorem max_file_size_boundary (init : FS) (path tok : List Nat) (buf : Nat → Nat)
    (t : FS) (path2 : List Nat) (buf2 : Nat → Nat) (count : Nat) (append : Bool)
    (hm : init.MOUNT_FLAG = false) (h8 : 8 ≤ init.disk.size) (h32 : init.disk.size ≤ 32768)
    (hh : path.head? = some SLASH) (ht : path_tokens (path_copy path) = [(tok, [])])
    (hv : ∀ c ∈ tok, c ≠ 0 ∧ c < 256)
    (hfree : 1038 ≤ init.disk.size - (3 + (init.disk.size + 63) / 64) - 1)
    (hover : ∀ f,
      (write_resolve (path_tokens (path_copy path2)) ROOT_DIR_INODE [SLASH] none t).1
        = some (some f) →
      MAX_FILE_SIZE < (if append then
        ((write_resolve (path_tokens (path_copy path2)) ROOT_DIR_INODE [SLASH] none
          t).2.INODE_TABLE f).i_size else 0) + count) :
    ((fs_write path buf (13 * 4096 + 1024 * 4096) false
        (fs_create path false (fresh_fs init)).2).1 = 0 ∧
      (((fs_write path buf (13 * 4096 + 1024 * 4096) false
        (fs_create path false (fresh_fs init)).2).2).INODE_TABLE 1).i_size
          = 13 * 4096 + 1024 * 4096) ∧
    ((fs_write path buf (13 * 4096 + 1024 * 4096 + 1) false
        (fs_create path false (fresh_fs init)).2).1 = -1 ∧
      resolve (fs_create path false (fresh_fs init)).2 (path_tokens (path_copy path))
        ROOT_DIR_INODE = some 1 ∧
      (((fs_write path buf (13 * 4096 + 1024 * 4096 + 1) false
        (fs_create path false (fresh_fs init)).2).2).INODE_TABLE 1).i_size = 0) ∧
    ((fs_write path2 buf2 count append t).1 = -1 ∧
      ∀ i, ((fs_write path2 buf2 count append t).2.INODE_TABLE i).i_size =
        (if t.MOUNT_FLAG = true ∧ path2.head? = some SLASH ∧ count ≠ 0 then
          ((write_resolve (path_tokens (path_copy path2)) ROOT_DIR_INODE [SLASH] none
            t).2.INODE_TABLE i).i_size
        else (t.INODE_TABLE i).i_size)) := by
  obtain ⟨_, _, hfresh⟩ := fresh_ok init hm h8 h32
  obtain ⟨_, c2⟩ := create_in_fresh_root _ _ path tok hfresh hh ht
  have hroot := c2.rootFile (valid_name_of tok hv)
  have hM : MAX_FILE_SIZE = 13 * 4096 + 1024 * 4096 := rfl
  refine ⟨?_, ?_, fs_write_beyond t path2 buf2 count append hover⟩
  · obtain ⟨u, w1, _, _, _⟩ := fresh_file_write _ _ path tok buf (13 * 4096 + 1024 * 4096)
      c2 hv hh ht (by norm_num) (by rw [hM]) (by norm_num; omega)
    rw [w1]
    exact ⟨rfl, set_size_size u 1 _⟩
  · have hres := hroot.write_resolve path ht
    obtain ⟨b1, b2⟩ := fs_write_beyond (fs_create path false (fresh_fs init)).2 path buf
      (13 * 4096 + 1024 * 4096 + 1) false (by
        intro f _
        simp only [Bool.false_eq_true, if_false]
        rw [hM]; omega)
    refine ⟨b1, hroot.resolve path ht, ?_⟩
    rw [b2 1, if_pos ⟨c2.mounted, hh, by omega⟩, hres]
    exact c2.f_size

/-- C10, witness: `/f` on a device of 2048 zeroed blocks, and for the general part the
same state with a write of one byte more than the largest file. -/
theorem max_file_size_boundary_witness :
    (1038 ≤ 2048 - (3 + (2048 + 63) / 64) - 1) ∧
    ((fs_write (ascii "/f") (fun _ => 7) (13 * 4096 + 1024 * 4096) false
        (fs_create (ascii "/f") false (fresh_fs (zero_device 2048))).2).1 = 0 ∧
      (fs_write (ascii "/f") (fun _ => 7) (13 * 4096 + 1024 * 4096 + 1) false
        (fs_create (ascii "/f") false (fresh_fs (zero_device 2048))).2).1 = -1) :=
  ⟨by decide,
    have h := max_file_size_boundary (zero_device 2048) (ascii "/f") (ascii "f") (fun _ => 7)
      (fs_create (ascii "/f") false (fresh_fs (zero_device 2048))).2 (ascii "/f") (fun _ => 7)
      (13 * 4096 + 1024 * 4096 + 1) false rfl (by decide) (by decide) (by decide) (by decide)
      (by decide) (by decide)
      (fun _ _ => by simp only [Bool.false_eq_true, if_false]; decide)
    ⟨h.1.1, h.2.1.1⟩⟩

/-- C6 (code_bug), at the failing input: on a fresh device of 1024 blocks
`fs_create("/a/b", 0)` returns 0, but `/a/b` does not resolve afterwards: the missing
component `a` was created as a directory of the root (inode 1, left empty) and the file
`b` (inode 2) was created in the root as well, so that `/b` resolves to it. -/
theorem create_intermediate_lands_in_root :
    (fs_create (ascii "/a/b") false (fresh_fs (zero_device 1024))).1 = 0 ∧
    resolve (fs_create (ascii "/a/b") false (fresh_fs (zero_device 1024))).2
      (path_tokens (path_copy (ascii "/a/b"))) ROOT_DIR_INODE = none ∧
    resolve (fs_create (ascii "/a/b") false (fresh_fs (zero_device 1024))).2
      (path_tokens (path_copy (ascii "/a"))) ROOT_DIR_INODE = some 1 ∧
    ((fs_create (ascii "/a/b") false (fresh_fs (zero_device 1024))).2.INODE_TABLE 1).i_is_directory
      = 1 ∧
    resolve (fs_create (ascii "/a/b") false (fresh_fs (zero_device 1024))).2
      (path_tokens (path_copy (ascii "/b"))) ROOT_DIR_INODE = some 2 ∧
    ((fs_create (ascii "/a/b") false (fresh_fs (zero_device 1024))).2.INODE_TABLE 2).i_is_directory
      = 0 := by
  decide!

/-- C8 (code_bug), at the failing input: on a fresh device of 1024 blocks a file of
`13*4096 + 1` bytes takes the data blocks 20..32, the indirect block 33 and the data block
34; `fs_remove` of the file returns 0 and clears the bits of the direct blocks (32 is
shown) but the bits of the indirect block 33 and of the block 34 behind it stay set,
though both were clear before the file was written. -/
theorem remove_leaks_indirect_blocks :
    (fs_write (ascii "/f") (fun _ => 1) (13 * 4096 + 1) false (fresh_fs (zero_device 1024))).1 = 0 ∧
    BITMAP_TEST (fresh_fs (zero_device 1024)).BLOCK_BITMAP 33 = false ∧
    BITMAP_TEST (fresh_fs (zero_device 1024)).BLOCK_BITMAP 34 = false ∧
    ((fs_write (ascii "/f") (fun _ => 1) (13 * 4096 + 1) false
      (fresh_fs (zero_device 1024))).2.INODE_TABLE 1).i_indirect_pointer = 33 ∧
    get_pointer ((fs_write (ascii "/f") (fun _ => 1) (13 * 4096 + 1) false
      (fresh_fs (zero_device 1024))).2.disk.blocks 33) 0 = 34 ∧
    (fs_remove_fuel 1 (ascii "/f") (fs_write (ascii "/f") (fun _ => 1) (13 * 4096 + 1) false
      (fresh_fs (zero_device 1024))).2).map
        (fun r => (r.1, BITMAP_TEST r.2.BLOCK_BITMAP 32, BITMAP_TEST r.2.BLOCK_BITMAP 33,
          BITMAP_TEST r.2.BLOCK_BITMAP 34)) = some (0, false, true, true) := by
  decide!

/-- C7 (code_bug), at the failing input: on a fresh device of 1024 blocks, after
`fs_create("/d", 1)` and `fs_create("/d/..", 0)` (both return 0; the file named `..` is
inode 2, a child of `/d`), `fs_remove("/d")` returns 0 and frees inode 1, but it skips the
entry named `..`: the bit of inode 2 stays set. -/
theorem remove_skips_child_named_dotdot :
    (fs_create (ascii "/d") true (fresh_fs (zero_device 1024))).1 = 0 ∧
    (fs_create (ascii "/d/..") false
      (fs_create (ascii "/d") true (fresh_fs (zero_device 1024))).2).1 = 0 ∧
    resolve (fs_create (ascii "/d/..") false
      (fs_create (ascii "/d") true (fresh_fs (zero_device 1024))).2).2
        (path_tokens (path_copy (ascii "/d/.."))) ROOT_DIR_INODE = some 2 ∧
    (fs_remove_fuel 2 (ascii "/d") (fs_create (ascii "/d/..") false
      (fs_create (ascii "/d") true (fresh_fs (zero_device 1024))).2).2).map
        (fun r => (r.1, BITMAP_TEST r.2.INODE_BITMAP 1, BITMAP_TEST r.2.INODE_BITMAP 2))
      = some (0, false, true) := by
  decide!

/-! ## `fs_format` on any device -/

/-- On an unmounted device of at least 8 blocks (the count fitting 32 bits) `fs_format`
returns 0, and the data region it computes starts below the device size. -/
theorem fs_format_returns (s : FS) (hm : s.MOUNT_FLAG = false) (h8 : 8 ≤ s.disk.size)
    (h32 : s.disk.size < 4294967296) :
    (fs_format s).1 = 0 ∧ (fs_format s).2.s_data_blocks_start < s.disk.size := by
  obtain ⟨N, hN⟩ : ∃ N, N = s.disk.size := ⟨_, rfl⟩
  rw [← hN] at h8 h32 ⊢
  have hNm : N % U32 = N := Nat.mod_eq_of_lt (by rw [U32_eq]; exact h32)
  obtain ⟨ib, hib⟩ : ∃ ib, ib =
      ((N + BLOCK_SIZE / INODE_SIZE + (U32 - 1)) % U32) / (BLOCK_SIZE / INODE_SIZE) := ⟨_, rfl⟩
  have hibl : 3 + ib < N := by
    have : BLOCK_SIZE / INODE_SIZE = 64 := rfl
    rw [this, U32_eq] at hib
    omega
  have hds : (3 + ib) % U32 = 3 + ib := Nat.mod_eq_of_lt (by rw [U32_eq]; omega)
  obtain ⟨f0, f4, f8, f12, f16, f20⟩ := format_sb_fields s.SUPERBLOCK N (3 + ib)
  have hN32 : N % 4294967296 = N := by rw [← U32_eq]; exact hNm
  have hds32 : (3 + ib) % 4294967296 = 3 + ib := by rw [← U32_eq]; exact hds
  rw [hN32] at f0 f4
  rw [hds32] at f20
  unfold fs_format
  simp only [hm, Bool.false_eq_true, if_false, ← hN, hNm, ← hib, hds]
  have h1 : ¬ N < 8 := by omega
  simp only [if_neg h1, FS.s_data_blocks_start, FS.s_inodes_count, FS.s_inode_table_block_start,
    f20, f4, f16]
  have h2 : ¬ (3 + ib ≥ N) := by omega
  simp only [if_neg h2]
  rw [disk_write_ok _ _ _ (by rw [← hN]; omega)]
  simp only []
  obtain ⟨e, he, hes, heb⟩ := format_inode_table_ok N (3 + ib) ib
    (s.disk.put (3 + ib) root_dir_block)
    (by show 3 + ib ≤ s.disk.size; rw [← hN]; omega)
    (by show s.disk.size < 4294967296; rw [← hN]; omega)
  rw [he]
  simp only []
  have hes2 : e.size = N := by rw [hes, hN]; rfl
  rw [disk_write_ok _ _ _ (by rw [hes2]; omega)]
  simp only []
  rw [disk_write_ok _ _ _ (by show 1 < e.size; rw [hes2]; omega)]
  simp only []
  rw [disk_write_ok _ _ _ (by show 2 < e.size; rw [hes2]; omega)]
  simp only []
  exact ⟨trivial, by rw [f20]; exact hibl⟩

/-- C13 (format layout).  On an unmounted device of `N` blocks, `8 ≤ N ≤ 32768`,
`fs_format` returns 0 and the superblock it writes to block 0 (the in-memory `SUPERBLOCK`)
has `s_blocks_count = N`, `s_inodes_count = N`, `s_block_bitmap = 1`, `s_inode_bitmap = 2`,
`s_inode_table_block_start = 3` and `s_data_blocks_start = 3 + ceil(N*64/4096)`. -/
theorem format_layout (init : FS) (hm : init.MOUNT_FLAG = false) (h8 : 8 ≤ init.disk.size)
    (h32 : init.disk.size ≤ 32768) :
    (fs_format init).1 = 0 ∧
    (fs_format init).2.disk.blocks 0 = (fs_format init).2.SUPERBLOCK ∧
    (fs_format init).2.s_blocks_count = init.disk.size ∧
    (fs_format init).2.s_inodes_count = init.disk.size ∧
    (fs_format init).2.s_block_bitmap = 1 ∧
    (fs_format init).2.s_inode_bitmap = 2 ∧
    (fs_format init).2.s_inode_table_block_start = 3 ∧
    (fs_format init).2.s_data_blocks_start = 3 + (init.disk.size * 64 + 4095) / 4096 := by
  obtain ⟨s, hs, _, _, a3, a4, a5, a6, a7, a8, _, _, a11, _⟩ := fs_format_ok init hm h8 h32
  rw [hs]
  refine ⟨rfl, a11, a3, a4, a5, a6, a7, ?_⟩
  show s.s_data_blocks_start = _
  rw [a8]
  omega

/-- C15 (format success condition).  On a device of `N < 2^32` blocks (every write of a
block number below `N` succeeds): `fs_format` returns 0 exactly when the filesystem is
not mounted and `N ≥ 8`; when it is mounted or `N < 8` the call returns -1 and leaves the
whole state, every device block included, as it was; and for `N ≥ 8` the value of
`s_data_blocks_start` that the check `s_data_blocks_start >= total_blocks` looks at is
below `N`, so that check does not fire. -/
theorem format_success_condition (s : FS) (h32 : s.disk.size < 4294967296) :
    ((fs_format s).1 = 0 ↔ (s.MOUNT_FLAG = false ∧ 8 ≤ s.disk.size)) ∧
    ((s.MOUNT_FLAG = true ∨ s.disk.size < 8) → fs_format s = (-1, s)) ∧
    (s.MOUNT_FLAG = false → 8 ≤ s.disk.size →
      (fs_format s).2.s_data_blocks_start < s.disk.size) := by
  have hfail : (s.MOUNT_FLAG = true ∨ s.disk.size < 8) → fs_format s = (-1, s) := by
    intro h
    by_cases hm : s.MOUNT_FLAG = true
    · unfold fs_format
      rw [if_pos hm]
    · have hlt : s.disk.size % U32 < 8 := by
        rw [Nat.mod_eq_of_lt (by rw [U32_eq]; exact h32)]
        rcases h with h | h
        · exact absurd h hm
        · exact h
      unfold fs_format
      rw [if_neg hm]
      show (if s.disk.size % U32 < 8 then ((-1 : Int), s) else _) = _
      rw [if_pos hlt]
  refine ⟨⟨?_, ?_⟩, hfail, ?_⟩
  · intro h0
    by_cases hm : s.MOUNT_FLAG = true
    · rw [hfail (Or.inl hm)] at h0
      exact absurd h0 (by show ¬ ((-1 : Int) = 0); decide)
    · by_cases h8 : s.disk.size < 8
      · rw [hfail (Or.inr h8)] at h0
        exact absurd h0 (by show ¬ ((-1 : Int) = 0); decide)
      · exact ⟨by simpa using hm, by omega⟩
  · rintro ⟨hm, h8⟩
    exact (fs_format_returns s hm h8 h32).1
  · intro hm h8
    exact (fs_format_returns s hm h8 h32).2

/-- C13, witness: a device of 1024 zeroed blocks, where the data region starts at
block 19. -/
theorem format_layout_witness :
    (fs_format (zero_device 1024)).1 = 0 ∧
    (fs_format (zero_device 1024)).2.s_blocks_count = 1024 ∧
    (fs_format (zero_device 1024)).2.s_inodes_count = 1024 ∧
    (fs_format (zero_device 1024)).2.s_data_blocks_start = 19 :=
  have h := format_layout (zero_device 1024) rfl (by decide) (by decide)
  ⟨h.1, h.2.2.1, h.2.2.2.1, h.2.2.2.2.2.2.2⟩

/-- C15, witness: a device of 8 zeroed blocks is formatted, one of 7 blocks is not. -/
theorem format_success_condition_witness :
    (fs_format (zero_device 8)).1 = 0 ∧ fs_format (zero_device 7) = (-1, zero_device 7) :=
  have h8 := format_success_condition (zero_device 8) (by decide)
  have h7 := format_success_condition (zero_device 7) (by decide)
  ⟨h8.1.2 ⟨rfl, by decide⟩, h7.2.1 (Or.inr (by decide))⟩

/-! ## `fs_create` on a path that exists -/

/-- When every remaining component is found, the loop of `fs_create` ends in one of its
`return -1` without having changed anything. -/
theorem fs_create_loop_exists (self : List Nat → FS → Int × FS) (is_directory : Bool) (s : FS)
    (toks : List (List Nat × List Nat)) :
    ∀ (parent idx : Nat), resolve s toks parent = some idx →
      fs_create_loop self is_directory toks parent s = (-1, s) := by
  induction toks with
  | nil => intro parent idx _; rfl
  | cons t more ih =>
    intro parent idx h
    obtain ⟨token, rest⟩ := t
    unfold resolve at h
    unfold fs_create_loop
    by_cases hd : (s.INODE_TABLE parent).i_is_directory = 0
    · simp only [if_pos hd]
    · rw [if_neg hd] at h
      simp only [if_neg hd]
      generalize dir_lookup s.disk (s.INODE_TABLE parent) (name_of token) 0
        INODE_DIRECT_POINTERS = r at h ⊢
      rcases r with _ | _ | found
      · exact absurd h (by simp)
      · exact absurd h (by simp)
      · simp only [] at h ⊢
        by_cases hl : rest.isEmpty = true
        · rw [if_pos hl]
        · rw [if_neg hl]
          exact ih found idx h

/-- C16 (create on an existing path).  When every component of `path` is found by the
path walk (`resolve` leads from the root to some inode, a file or a directory),
`fs_create(path, is_directory)` returns -1 for both values of `is_directory` and the
state after the call is the state before it: inode table, both bitmaps and every device
block. -/
theorem create_existing_fails (s : FS) (path : List Nat) (is_directory : Bool) (idx : Nat)
    (h : resolve s (path_tokens (path_copy path)) ROOT_DIR_INODE = some idx) :
    fs_create path is_directory s = (-1, s) := by
  unfold fs_create fs_create_fuel fs_create_body
  by_cases hm : (!s.MOUNT_FLAG) = true
  · rw [if_pos hm]
  · rw [if_neg hm]
    by_cases hh : path.head? ≠ some SLASH
    · rw [if_pos hh]
    · rw [if_neg hh]
      exact fs_create_loop_exists _ is_directory s _ ROOT_DIR_INODE idx h

/-- C16, witness: after `fs_create("/f", 0)` on a device of 1024 zeroed blocks the path
`/f` resolves (to inode 1), and a second `fs_create("/f", _)` changes nothing. -/
theorem create_existing_fails_witness :
    resolve (fs_create (ascii "/f") false (fresh_fs (zero_device 1024))).2
      (path_tokens (path_copy (ascii "/f"))) ROOT_DIR_INODE = some 1 ∧
    fs_create (ascii "/f") true (fs_create (ascii "/f") false (fresh_fs (zero_device 1024))).2 =
      (-1, (fs_create (ascii "/f") false (fresh_fs (zero_device 1024))).2) ∧
    fs_create (ascii "/f") false (fs_create (ascii "/f") false (fresh_fs (zero_device 1024))).2 =
      (-1, (fs_create (ascii "/f") false (fresh_fs (zero_device 1024))).2) :=
  have h : resolve (fs_create (ascii "/f") false (fresh_fs (zero_device 1024))).2
      (path_tokens (path_copy (ascii "/f"))) ROOT_DIR_INODE = some 1 := by decide!
  ⟨h, create_existing_fails _ (ascii "/f") true 1 h, create_existing_fails _ (ascii "/f") false 1 h⟩

theorem free_count_pos_of_clear (bm : Block) (n lo k : Nat) (h1 : lo ≤ k) (h2 : k < lo + n)
    (h3 : BITMAP_TEST bm k = false) : 0 < free_count bm lo n := by
  induction n generalizing lo with
  | zero => omega
  | succ n ih =>
    unfold free_count
    by_cases hk : lo = k
    · subst hk
      rw [h3]
      simp
    · have := ih (lo + 1) (by omega) (by omega)
      omega

/-- With no free data block `allocate_data_block` returns `(uint32_t)-1`. -/
theorem allocate_data_block_none (s : FS) (h : free_blocks s = 0) :
    allocate_data_block s = (NONE32, s) := by
  unfold allocate_data_block
  cases hfc : first_clear s.BLOCK_BITMAP s.s_data_blocks_start s.s_blocks_count with
  | none => rfl
  | some k =>
    exfalso
    obtain ⟨h1, h2, h3, _⟩ := first_clear_some _ _ _ _ hfc
    have := free_count_pos_of_clear s.BLOCK_BITMAP (s.s_blocks_count - s.s_data_blocks_start)
      s.s_data_blocks_start k h1 (by omega) h3
    unfold free_blocks at h
    omega

/-- When fewer data blocks are free than `write_block_num` has to allocate (one for a
missing data block, one for a missing indirect block), it ends in `return -1`. -/
theorem write_block_num_fail (s : FS) (f i : Nat) (hok : FileOK s f) (hi : i < 1037)
    (hlt : free_blocks s < (if file_ptr s f i = 0 then 1 else 0) +
      (if 13 ≤ i ∧ (s.INODE_TABLE f).i_indirect_pointer = 0 then 1 else 0)) :
    (write_block_num f i s).1 = none := by
  by_cases h13 : i < 13
  · have hn : ¬ (13 ≤ i ∧ (s.INODE_TABLE f).i_indirect_pointer = 0) := by omega
    rw [if_neg hn] at hlt
    have h0p : file_ptr s f i = 0 := by
      by_contra hc
      rw [if_neg hc] at hlt
      omega
    rw [if_pos h0p] at hlt
    have h0 : (s.INODE_TABLE f).i_direct_pointers i = 0 := by
      rw [← file_ptr_direct s f i h13]; exact h0p
    have hi2 : i < INODE_DIRECT_POINTERS := h13
    unfold write_block_num
    rw [if_pos hi2, if_pos h0, allocate_data_block_none s (by omega)]
    simp
  · have hi3 : ¬ i < INODE_DIRECT_POINTERS := h13
    by_cases hA : (s.INODE_TABLE f).i_indirect_pointer = 0 ∧ free_blocks s = 0
    · unfold write_block_num
      rw [if_neg hi3]
      unfold ensure_indirect
      rw [if_pos hA.1, allocate_data_block_none s hA.2]
      simp
    · have hp0 : file_ptr s f i = 0 := by
        by_cases hz : (s.INODE_TABLE f).i_indirect_pointer = 0
        · unfold file_ptr
          rw [if_neg h13, if_pos hz]
        · by_contra hc
          have hn : ¬ (13 ≤ i ∧ (s.INODE_TABLE f).i_indirect_pointer = 0) := fun hx => hz hx.2
          rw [if_neg hc, if_neg hn] at hlt
          omega
      rw [if_pos hp0] at hlt
      obtain ⟨t, e1, tok, tg, tind, tptr, tdisk, tfree⟩ := ensure_indirect_ok s f hok (by
        by_cases hz : (s.INODE_TABLE f).i_indirect_pointer = 0
        · rw [if_pos hz]
          have : free_blocks s ≠ 0 := fun hc => hA ⟨hz, hc⟩
          omega
        · rw [if_neg hz]; omega)
      have hfree0 : free_blocks t = 0 := by
        by_cases hz : (s.INODE_TABLE f).i_indirect_pointer = 0
        · have hy : 13 ≤ i ∧ (s.INODE_TABLE f).i_indirect_pointer = 0 := ⟨by omega, hz⟩
          rw [if_pos hz] at tfree
          rw [if_pos hy] at hlt
          omega
        · have hy : ¬ (13 ≤ i ∧ (s.INODE_TABLE f).i_indirect_pointer = 0) := fun hx => hz hx.2
          rw [if_neg hz] at tfree
          rw [if_neg hy] at hlt
          omega
      unfold write_block_num
      rw [if_neg hi3, e1]
      simp only []
      have hir := tok.ind tind
      have hrd : disk_read t.disk (t.INODE_TABLE f).i_indirect_pointer =
          some (t.disk.blocks (t.INODE_TABLE f).i_indirect_pointer) := by
        unfold disk_read
        rw [if_pos (lt_of_lt_of_le hir.2.1 tok.bc_le)]
      rw [hrd]
      simp only []
      have hi4 : ¬ (i - INODE_DIRECT_POINTERS ≥ MAX_POINTERS) := by
        unfold INODE_DIRECT_POINTERS MAX_POINTERS; omega
      rw [if_neg hi4]
      have hpt : file_ptr t f i =
          get_pointer (t.disk.blocks (t.INODE_TABLE f).i_indirect_pointer)
            (i - INODE_DIRECT_POINTERS) :=
        file_ptr_indirect t f i (by omega) tind
      rw [← hpt, tptr i hi, if_pos hp0, allocate_data_block_none t hfree0]
      simp

/-- The `while` loop of `fs_write` on a file with sound block pointers, when it ends with
code 0: the final offset is `offset + remaining`, the pointers are still sound, the bytes
of the range are those of `buf`, and the bytes outside the range are kept. -/
theorem write_loop_succ (f : Nat) (buf : Nat → Nat) (fuel : Nat) :
    ∀ (offset pos remaining : Nat) (s u : FS) (off1 : Nat), FileOK s f → remaining ≤ fuel →
      offset + remaining ≤ MAX_FILE_SIZE →
      write_loop f buf fuel offset pos remaining s = (0, off1, u) →
      off1 = offset + remaining ∧ FileOK u f ∧ Grows s u f ∧
        (∀ k, offset ≤ k → k < offset + remaining →
          file_ptr u f (k / 4096) ≠ 0 ∧ file_byte u f k = buf (pos + (k - offset)) % 256) ∧
        (∀ k, k < MAX_FILE_SIZE → ¬ (offset ≤ k ∧ k < offset + remaining) →
          file_ptr s f (k / 4096) ≠ 0 → file_byte u f k = file_byte s f k) := by
  induction fuel with
  | zero =>
    intro offset pos remaining s u off1 hok hfuel _ h
    have hr : remaining = 0 := by omega
    subst hr
    unfold write_loop at h
    injection h with h1 h2
    injection h2 with h2 h3
    subst h2 h3
    refine ⟨rfl, hok, Grows.refl s f, ?_, fun _ _ _ _ => rfl⟩
    intro k h1 h2; omega
  | succ fuel ih =>
    intro offset pos remaining s u off1 hok hfuel hmax h
    unfold write_loop at h
    by_cases hr : remaining = 0
    · subst hr
      rw [if_pos rfl] at h
      injection h with h1 h2
      injection h2 with h2 h3
      subst h2 h3
      refine ⟨rfl, hok, Grows.refl s f, ?_, fun _ _ _ _ => rfl⟩
      intro k h1 h2; omega
    · rw [if_neg hr] at h
      have hM : MAX_FILE_SIZE = 1037 * 4096 := by norm_num [MAX_FILE_SIZE]
      have hi : offset / 4096 < 1037 := by omega
      have hbs : offset / BLOCK_SIZE = offset / 4096 := rfl
      have hms : offset % BLOCK_SIZE = offset % 4096 := rfl
      have hB : BLOCK_SIZE = 4096 := rfl
      rw [hbs] at h
      have hneed : (if file_ptr s f (offset / 4096) = 0 then 1 else 0) +
          (if 13 ≤ offset / 4096 ∧ (s.INODE_TABLE f).i_indirect_pointer = 0 then 1 else 0) ≤
          free_blocks s := by
        by_contra hc
        have hfail := write_block_num_fail s f (offset / 4096) hok hi (by omega)
        generalize write_block_num f (offset / 4096) s = r at h hfail
        obtain ⟨o, t1⟩ := r
        simp only [] at hfail
        subst hfail
        simp at h
      obtain ⟨b, t1, e1, ok1, g1, hb, hb0, hdisk1, _, _, _⟩ :=
        write_block_num_ok s f (offset / 4096) hok hi hneed
      rw [e1] at h
      simp only [] at h
      have hbr := ok1.ptr (offset / 4096) hi (by rw [hb]; exact hb0)
      rw [hb] at hbr
      have hblt : b < t1.disk.size := lt_of_lt_of_le hbr.2.1 ok1.bc_le
      have hrd : disk_read t1.disk b = some (t1.disk.blocks b) := by
        unfold disk_read; rw [if_pos hblt]
      rw [hrd] at h
      simp only [] at h
      rw [hms, hB] at h
      generalize hn : min remaining (4096 - offset % 4096) = n at h
      have hn1 : n ≤ remaining := by rw [← hn]; exact Nat.min_le_left _ _
      have hn2 : n ≤ 4096 - offset % 4096 := by rw [← hn]; exact Nat.min_le_right _ _
      have hn3 : 0 < n := by rw [← hn]; omega
      have hwr : ∀ blk, disk_write t1.disk b blk = some (t1.disk.put b blk) := by
        intro blk; unfold disk_write; rw [if_pos hblt]
      rw [hwr] at h
      simp only [] at h
      obtain ⟨w, hw⟩ : ∃ w, w = write_bytes (t1.disk.blocks b) (offset % 4096)
        (fun j => buf (pos + j)) n := ⟨_, rfl⟩
      rw [← hw] at h
      obtain ⟨hp2, ok2, g2⟩ := data_write_ok t1 f (offset / 4096) b w ok1 hi hb hb0
      obtain ⟨e, okt, gt, hc, hp⟩ := ih (offset + n) (pos + n) (remaining - n) _ u off1 ok2
        (by omega) (by omega) h
      have hsum : offset + n + (remaining - n) = offset + remaining := by omega
      rw [hsum] at e hc hp
      refine ⟨e, okt, Grows.trans g1 (Grows.trans g2 gt), ?_, ?_⟩
      · intro k hk1 hk2
        by_cases hkn : k < offset + n
        · have hkd : k / 4096 = offset / 4096 := by omega
          have hkm : k % 4096 = offset % 4096 + (k - offset) := by omega
          have hp2k : file_ptr ({ t1 with disk := t1.disk.put b w } : FS)
              f (k / 4096) = b := by rw [hp2, hkd, hb]
          have hne2 : file_ptr ({ t1 with disk := t1.disk.put b w } : FS)
              f (k / 4096) ≠ 0 := by rw [hp2k]; exact hb0
          have hkeep := hp k (by omega) (by omega) hne2
          have hptk := gt.ptrs (k / 4096) (by omega) hne2
          refine ⟨by rw [hptk]; exact hne2, ?_⟩
          rw [hkeep]
          unfold file_byte
          rw [hp2k]
          simp only [Disk.put, if_true]
          rw [hw, byte_at_write_bytes, if_pos (by omega), hkm]
          congr 2
          omega
        · have := hc k (by omega) hk2
          refine ⟨this.1, ?_⟩
          rw [this.2]
          congr 2
          omega
      · intro k hkM hk hne
        have hne1 : file_ptr t1 f (k / 4096) ≠ 0 := by
          rw [g1.ptrs (k / 4096) (by omega) hne]; exact hne
        have hpe1 : file_ptr t1 f (k / 4096) = file_ptr s f (k / 4096) :=
          g1.ptrs (k / 4096) (by omega) hne
        have hne2 : file_ptr ({ t1 with disk := t1.disk.put b w } : FS)
            f (k / 4096) ≠ 0 := by rw [hp2]; exact hne1
        rw [hp k hkM (by omega) hne2]
        unfold file_byte
        rw [hp2, hpe1]
        simp only [Disk.put]
        have hpi := (ok1.ptr (k / 4096) (by omega) hne1).2.2.2
        rw [hpe1] at hpi
        by_cases hkd : k / 4096 = offset / 4096
        · have hpb : file_ptr s f (k / 4096) = b := by rw [← hpe1, hkd, hb]
          rw [hpb, if_pos rfl, hw, byte_at_write_bytes, if_neg (by omega),
            hdisk1 b (by rw [← hpb]; exact hpi)]
        · have hpb : file_ptr s f (k / 4096) ≠ b := by
            rw [← hpe1, ← hb]
            exact ok1.inj _ _ (by omega) hi hkd hne1
          rw [if_neg hpb, hdisk1 _ hpi]

/-- C11 (overwrite does not truncate).  Let the path walk of `fs_write` find the regular
file inode `f` in the mounted state `s` without creating anything, let the block pointers
of `f` be sound, its size `sz` at most `13*4096 + 1024*4096` and its blocks below `sz` all
present (the content `D` is `file_byte s f k` for `k < sz`), and let `buf` hold `n ≥ 1`
bytes.  With `off = sz` for an append and `off = 0` otherwise, and `off + n` within the
largest file size: when `fs_write(path, buf, n, append)` returns 0, the size of the file is
`sz + n` after an append and `max(sz, n)` after an overwrite, the bytes `off .. off + n`
of the file are those of `buf`, every other byte below `sz` is the one of `D`, and the
pointers are sound with every block below the new size present. -/
theorem overwrite_does_not_truncate (s : FS) (path : List Nat) (buf : Nat → Nat) (n : Nat)
    (append : Bool) (f : Nat) (hm : s.MOUNT_FLAG = true) (hh : path.head? = some SLASH)
    (hn : 1 ≤ n)
    (hres : write_resolve (path_tokens (path_copy path)) ROOT_DIR_INODE [SLASH] none s =
      (some (some f), s))
    (hok : FileOK s f) (hsz : (s.INODE_TABLE f).i_size ≤ MAX_FILE_SIZE)
    (hall : ∀ k, k < (s.INODE_TABLE f).i_size → file_ptr s f (k / 4096) ≠ 0)
    (hbuf : ∀ i, i < n → buf i < 256)
    (hmax : (if append then (s.INODE_TABLE f).i_size else 0) + n ≤ MAX_FILE_SIZE)
    (hsucc : (fs_write path buf n append s).1 = 0) :
    (((fs_write path buf n append s).2.INODE_TABLE f).i_size =
      if append then (s.INODE_TABLE f).i_size + n else max (s.INODE_TABLE f).i_size n) ∧
    (∀ k, (if append then (s.INODE_TABLE f).i_size else 0) ≤ k →
      k < (if append then (s.INODE_TABLE f).i_size else 0) + n →
      file_byte (fs_write path buf n append s).2 f k =
        buf (k - (if append then (s.INODE_TABLE f).i_size else 0))) ∧
    (∀ k, k < (s.INODE_TABLE f).i_size →
      ¬ ((if append then (s.INODE_TABLE f).i_size else 0) ≤ k ∧
        k < (if append then (s.INODE_TABLE f).i_size else 0) + n) →
      file_byte (fs_write path buf n append s).2 f k = file_byte s f k) ∧
    FileOK (fs_write path buf n append s).2 f ∧
    (∀ k, k < ((fs_write path buf n append s).2.INODE_TABLE f).i_size →
      file_ptr (fs_write path buf n append s).2 f (k / 4096) ≠ 0) := by
  have hoffle : (if append then (s.INODE_TABLE f).i_size else 0) ≤ (s.INODE_TABLE f).i_size := by
    split_ifs <;> omega
  have hsize : (if append then (s.INODE_TABLE f).i_size + n else max (s.INODE_TABLE f).i_size n) =
      max (s.INODE_TABLE f).i_size ((if append then (s.INODE_TABLE f).i_size else 0) + n) := by
    cases append
    · simp
    · simp
  rw [hsize]
  generalize hoff : (if append then (s.INODE_TABLE f).i_size else 0) = off at *
  have hc : n ≠ 0 := by omega
  obtain ⟨r, off1, u, hwl⟩ : ∃ r off1 u, write_loop f buf n off 0 n s = (r, off1, u) :=
    ⟨_, _, _, rfl⟩
  have e : fs_write path buf n append s =
      if r ≠ 0 then (-1, u)
      else if off1 > (u.INODE_TABLE f).i_size then (0, set_size u f (off1 % U32))
      else (0, u) := by
    unfold fs_write
    simp only [hm, Bool.not_true, Bool.false_eq_true, if_false, hh, ne_eq, not_true_eq_false,
      if_neg hc, hres, hoff, hwl]
    rfl
  rw [e] at hsucc ⊢
  by_cases hr : r = 0
  swap
  · rw [if_pos hr] at hsucc
    exact absurd hsucc (by show ¬ ((-1 : Int) = 0); decide)
  subst hr
  have hnn : ¬ ((0 : Int) ≠ 0) := by simp
  rw [if_neg hnn]
  obtain ⟨e1, oku, gu, hc1, hp1⟩ := write_loop_succ f buf n off 0 n s u off1 hok (le_refl _)
    hmax hwl
  subst e1
  have hM : MAX_FILE_SIZE = 4247552 := by norm_num [MAX_FILE_SIZE]
  have hmod : (off + n) % U32 = off + n := Nat.mod_eq_of_lt (by rw [U32_eq]; omega)
  rw [hmod, gu.size]
  have hbytes : ∀ k, off ≤ k → k < off + n → file_byte u f k = buf (k - off) := by
    intro k h1 h2
    rw [(hc1 k h1 h2).2, Nat.zero_add]
    exact Nat.mod_eq_of_lt (hbuf _ (by omega))
  have hkeep : ∀ k, k < (s.INODE_TABLE f).i_size → ¬ (off ≤ k ∧ k < off + n) →
      file_byte u f k = file_byte s f k :=
    fun k h1 h2 => hp1 k (by omega) h2 (hall k h1)
  have hpres : ∀ k, k < max (s.INODE_TABLE f).i_size (off + n) → file_ptr u f (k / 4096) ≠ 0 := by
    intro k hk
    by_cases hin : off ≤ k ∧ k < off + n
    · exact (hc1 k hin.1 hin.2).1
    · have hk2 : k < (s.INODE_TABLE f).i_size := by
        rcases Nat.lt_or_ge k (s.INODE_TABLE f).i_size with h | h
        · exact h
        · have : k < off + n := by
            rcases le_max_iff.mp (le_refl (max (s.INODE_TABLE f).i_size (off + n))) with h3 | h3
            · omega
            · omega
          omega
      rw [gu.ptrs (k / 4096) (by omega) (hall k hk2)]
      exact hall k hk2
  by_cases hgt : off + n > (s.INODE_TABLE f).i_size
  · rw [if_pos hgt]
    have hmx : max (s.INODE_TABLE f).i_size (off + n) = off + n := Nat.max_eq_right (by omega)
    rw [hmx] at hpres ⊢
    refine ⟨set_size_size u f (off + n), ?_, ?_, FileOK_set_size u f _ oku, ?_⟩
    · intro k h1 h2
      show file_byte (set_size u f (off + n)) f k = _
      rw [file_byte_set_size]; exact hbytes k h1 h2
    · intro k h1 h2
      show file_byte (set_size u f (off + n)) f k = _
      rw [file_byte_set_size]; exact hkeep k h1 h2
    · intro k hk
      show file_ptr (set_size u f (off + n)) f (k / 4096) ≠ 0
      rw [file_ptr_set_size]
      have hk2 : k < off + n := by
        have : ((set_size u f (off + n)).INODE_TABLE f).i_size = off + n := set_size_size u f _
        have hk3 : k < ((set_size u f (off + n)).INODE_TABLE f).i_size := hk
        omega
      exact hpres k hk2
  · rw [if_neg hgt]
    have hmx : max (s.INODE_TABLE f).i_size (off + n) = (s.INODE_TABLE f).i_size :=
      Nat.max_eq_left (by omega)
    rw [hmx] at hpres ⊢
    refine ⟨gu.size, hbytes, hkeep, oku, ?_⟩
    intro k hk
    have hk2 : k < (u.INODE_TABLE f).i_size := hk
    rw [gu.size] at hk2
    exact hpres k hk2

/-- C11, witness: the file `/f` holding the five bytes `7` on a device of 1024 zeroed
blocks is overwritten with the two bytes `9`: the size stays 5, byte 0 is `9` and byte 4
is still `7`. -/
theorem overwrite_does_not_truncate_witness :
    ((fs_write (ascii "/f") (fun _ => 9) 2 false (fs_write (ascii "/f") (fun _ => 7) 5 false
      (fs_create (ascii "/f") false (fresh_fs (zero_device 1024))).2).2).2.INODE_TABLE 1).i_size
      = 5 ∧
    file_byte (fs_write (ascii "/f") (fun _ => 9) 2 false (fs_write (ascii "/f") (fun _ => 7) 5
      false (fs_create (ascii "/f") false (fresh_fs (zero_device 1024))).2).2).2 1 0 = 9 ∧
    file_byte (fs_write (ascii "/f") (fun _ => 9) 2 false (fs_write (ascii "/f") (fun _ => 7) 5
      false (fs_create (ascii "/f") false (fresh_fs (zero_device 1024))).2).2).2 1 4 = 7 := by
  have hs : (fs_write (ascii "/f") (fun _ => 9) 2 false (fs_write (ascii "/f") (fun _ => 7) 5
      false (fs_create (ascii "/f") false (fresh_fs (zero_device 1024))).2).2).1 = 0 := by
    decide!
  obtain ⟨_, _, hfresh⟩ := fresh_ok (zero_device 1024) rfl (by decide) (by decide)
  obtain ⟨_, c2⟩ := create_in_fresh_root _ _ (ascii "/f") (ascii "f") hfresh (by decide)
    (by decide)
  obtain ⟨u, w1, w2, w3, _⟩ := fresh_file_write _ _ (ascii "/f") (ascii "f") (fun _ => 7) 5 c2
    (by decide) (by decide) (by decide) (by decide) (by decide) (by decide)
  have hsz := set_size_size u 1 5
  rw [w1] at hs ⊢
  have ht : path_tokens (path_copy (ascii "/f")) = [(ascii "f", [])] := by decide
  have h := overwrite_does_not_truncate (set_size u 1 5) (ascii "/f") (fun _ => 9) 2 false 1
    w2.mounted (by decide) (by decide) (w2.write_resolve (ascii "/f") ht) w2.ok
    (by rw [hsz]; decide) (fun k hk => (w3 k (by rw [hsz] at hk; exact hk)).1)
    (fun _ _ => by simp)
    (by simp only [Bool.false_eq_true, if_false]; decide) hs
  simp only [Bool.false_eq_true, if_false, hsz] at h
  refine ⟨h.1, h.2.1 0 (by omega) (by omega), ?_⟩
  rw [h.2.2.1 4 (by omega) (by omega), (w3 4 (by omega)).2]

/-! ## The inode table and the root block written by `fs_format` -/

theorem byte_at_put_root_high (ds k : Nat) (hk : 64 ≤ k) :
    byte_at (put_inode zero_block 0 (root_inode ds)) k = 0 := by
  rw [byte_at_put_inode, if_neg (by omega)]
  exact byte_at_zero k

theorem byte_at_put_zero_inode (b j k : Nat) :
    byte_at (put_inode b j zero_inode) k =
      if 64 * j ≤ k ∧ k < 64 * j + 64 then 0 else byte_at b k := by
  rw [byte_at_put_inode]
  by_cases h : 64 * j ≤ k ∧ k < 64 * j + 64
  · rw [if_pos h, if_pos h]
    simp only [zero_inode]
    split_ifs <;> simp
  · rw [if_neg h, if_neg h]

/-- The bytes of inode-table block `i` after the first `n` rounds of the inner loop of
`fs_format`: the root inode in slot 0 of block 0, zero everywhere else. -/
theorem format_inode_fold_byte (ic ds i k n : Nat) :
    byte_at ((List.range n).foldl
      (fun blk j =>
        if 64 * i + j ≥ ic then blk
        else if 64 * i + j = ROOT_DIR_INODE then put_inode blk j (root_inode ds)
        else put_inode blk j zero_inode) zero_block) k =
      if i = 0 ∧ 0 < ic ∧ 0 < n then byte_at (put_inode zero_block 0 (root_inode ds)) k
      else 0 := by
  induction n with
  | zero =>
    have h : ¬ (i = 0 ∧ 0 < ic ∧ 0 < 0) := by omega
    rw [if_neg h]
    exact byte_at_zero k
  | succ n ih =>
    rw [List.range_succ, List.foldl_append]
    simp only [List.foldl_cons, List.foldl_nil]
    by_cases h1 : 64 * i + n ≥ ic
    · rw [if_pos h1, ih]
      by_cases hc : i = 0 ∧ 0 < ic ∧ 0 < n
      · have hc2 : i = 0 ∧ 0 < ic ∧ 0 < n + 1 := ⟨hc.1, hc.2.1, by omega⟩
        rw [if_pos hc, if_pos hc2]
      · have hc2 : ¬ (i = 0 ∧ 0 < ic ∧ 0 < n + 1) := by omega
        rw [if_neg hc, if_neg hc2]
    · rw [if_neg h1]
      by_cases h2 : 64 * i + n = ROOT_DIR_INODE
      · rw [if_pos h2]
        have h2b : 64 * i + n = 0 := h2
        have hn : n = 0 := by omega
        have hi : i = 0 := by omega
        subst hn
        have hc2 : i = 0 ∧ 0 < ic ∧ 0 < 0 + 1 := ⟨hi, by omega, by omega⟩
        rw [if_pos hc2]
        rfl
      · rw [if_neg h2, byte_at_put_zero_inode, ih]
        have h2b : ¬ (64 * i + n = 0) := h2
        by_cases hi : i = 0
        · have hc : i = 0 ∧ 0 < ic ∧ 0 < n := ⟨hi, by omega, by omega⟩
          have hc2 : i = 0 ∧ 0 < ic ∧ 0 < n + 1 := ⟨hi, by omega, by omega⟩
          rw [if_pos hc, if_pos hc2]
          by_cases hr : 64 * n ≤ k ∧ k < 64 * n + 64
          · rw [if_pos hr, byte_at_put_root_high ds k (by omega)]
          · rw [if_neg hr]
        · have hc : ¬ (i = 0 ∧ 0 < ic ∧ 0 < n) := fun h => hi h.1
          have hc2 : ¬ (i = 0 ∧ 0 < ic ∧ 0 < n + 1) := fun h => hi h.1
          rw [if_neg hc, if_neg hc2]
          split_ifs <;> rfl

theorem format_inode_block_byte (ic ds i k : Nat) :
    byte_at (format_inode_block ic ds i) k =
      if i = 0 ∧ 0 < ic then byte_at (put_inode zero_block 0 (root_inode ds)) k else 0 := by
  unfold format_inode_block
  rw [format_inode_fold_byte]
  by_cases h : i = 0 ∧ 0 < ic
  · have h2 : i = 0 ∧ 0 < ic ∧ 0 < 64 := ⟨h.1, h.2, by omega⟩
    rw [if_pos h, if_pos h2]
  · have h2 : ¬ (i = 0 ∧ 0 < ic ∧ 0 < 64) := fun hc => h ⟨hc.1, hc.2.1⟩
    rw [if_neg h, if_neg h2]

/-- Every inode record but the one of inode 0 is zero in the table of `fs_format`. -/
theorem format_inode_block_zero (ic ds j k : Nat) (hj : 0 < j) (hk : k < 64) :
    byte_at (format_inode_block ic ds (j / 64)) (64 * (j % 64) + k) = 0 := by
  rw [format_inode_block_byte]
  by_cases h : j / 64 = 0 ∧ 0 < ic
  · rw [if_pos h]
    exact byte_at_put_root_high ds _ (by omega)
  · rw [if_neg h]

theorem root_dir_block_high (k : Nat) (hk : 512 ≤ k) : byte_at root_dir_block k = 0 := by
  unfold root_dir_block
  rw [byte_at_set_entry, if_neg (by omega), byte_at_set32, if_neg (by omega), if_neg (by omega),
    if_neg (by omega), if_neg (by omega), byte_at_set_entry, if_neg (by omega), byte_at_set32,
    if_neg (by omega), if_neg (by omega), if_neg (by omega), if_neg (by omega)]
  exact byte_at_zero k

theorem root_dir_block_entries :
    entry_inode root_dir_block 0 = 0 ∧ entry_name root_dir_block 0 = DOT ∧
    entry_inode root_dir_block 1 = 0 ∧ entry_name root_dir_block 1 = DOTDOT := by
  decide!

/-- C14 (format post-state).  After `fs_format` on an unmounted device of `N` blocks,
`8 ≤ N ≤ 32768`, with `T = 3 + (N + 63) / 64` the start of the data region: the call
returned 0 and `s_data_blocks_start = T`; the block bitmap written to block 1 has exactly
the bits `0 .. T` set; the inode bitmap written to block 2 has exactly bit 0 set; the
record of inode 0 (slot 0 of block 3) is a directory of size 4096 with `direct[0] = T`,
the other direct pointers and the indirect pointer 0; every byte of every other inode
record of the table is zero; and block `T` is the root directory block: slot 0 holds `.`
and slot 1 holds `..`, both with inode 0, and every byte of the slots from 2 on is zero. -/
theorem format_post_state (init : FS) (hm : init.MOUNT_FLAG = false) (h8 : 8 ≤ init.disk.size)
    (h32 : init.disk.size ≤ 32768) :
    (fs_format init).1 = 0 ∧
    (fs_format init).2.s_data_blocks_start = 3 + (init.disk.size + 63) / 64 ∧
    (∀ j, BITMAP_TEST ((fs_format init).2.disk.blocks 1) j =
      decide (j ≤ 3 + (init.disk.size + 63) / 64)) ∧
    (∀ j, BITMAP_TEST ((fs_format init).2.disk.blocks 2) j = decide (j = 0)) ∧
    ((get_inode ((fs_format init).2.disk.blocks 3) 0).i_is_directory = 1 ∧
      (get_inode ((fs_format init).2.disk.blocks 3) 0).i_size = 4096 ∧
      (get_inode ((fs_format init).2.disk.blocks 3) 0).i_direct_pointers 0 =
        3 + (init.disk.size + 63) / 64 ∧
      (∀ dp, 0 < dp → dp < 13 →
        (get_inode ((fs_format init).2.disk.blocks 3) 0).i_direct_pointers dp = 0) ∧
      (get_inode ((fs_format init).2.disk.blocks 3) 0).i_indirect_pointer = 0) ∧
    (∀ j k, 0 < j → j < 64 * ((init.disk.size + 63) / 64) → k < 64 →
      byte_at ((fs_format init).2.disk.blocks (3 + j / 64)) (64 * (j % 64) + k) = 0) ∧
    (entry_inode ((fs_format init).2.disk.blocks (3 + (init.disk.size + 63) / 64)) 0 = 0 ∧
      entry_name ((fs_format init).2.disk.blocks (3 + (init.disk.size + 63) / 64)) 0 = DOT ∧
      entry_inode ((fs_format init).2.disk.blocks (3 + (init.disk.size + 63) / 64)) 1 = 0 ∧
      entry_name ((fs_format init).2.disk.blocks (3 + (init.disk.size + 63) / 64)) 1 = DOTDOT ∧
      ∀ k, 512 ≤ k →
        byte_at ((fs_format init).2.disk.blocks (3 + (init.disk.size + 63) / 64)) k = 0) := by
  obtain ⟨s, hs, _, _, _, _, _, _, _, a8, a9, a10, _, a12, a13, a14, a15, _⟩ :=
    fs_format_ok init hm h8 h32
  rw [hs]
  show (0 : Int) = 0 ∧ s.s_data_blocks_start = _ ∧
    (∀ j, BITMAP_TEST (s.disk.blocks 1) j = _) ∧ (∀ j, BITMAP_TEST (s.disk.blocks 2) j = _) ∧
    _ ∧ (∀ j k, 0 < j → j < 64 * ((init.disk.size + 63) / 64) → k < 64 →
      byte_at (s.disk.blocks (3 + j / 64)) (64 * (j % 64) + k) = 0) ∧ _
  have hb3 : s.disk.blocks 3 = format_inode_block init.disk.size
      (3 + (init.disk.size + 63) / 64) 0 := a15 3 (by omega) (by omega)
  obtain ⟨r1, r2, r3, r4, r5⟩ := root_inode_fields init.disk.size
    (3 + (init.disk.size + 63) / 64) (by omega) (by omega)
  obtain ⟨e1, e2, e3, e4⟩ := root_dir_block_entries
  refine ⟨rfl, a8, ?_, ?_, ?_, ?_, ?_⟩
  · intro j; rw [a12]; exact a9 j
  · intro j; rw [a13]; exact a10 j
  · show (get_inode (s.disk.blocks 3) 0).i_is_directory = 1 ∧ _
    rw [hb3]
    exact ⟨r5, r1, r2, r3, r4⟩
  · intro j k hj0 hj hk
    rw [a15 (3 + j / 64) (by omega) (by omega)]
    have : 3 + j / 64 - 3 = j / 64 := by omega
    rw [this]
    exact format_inode_block_zero _ _ j k hj0 hk
  · show entry_inode (s.disk.blocks (3 + (init.disk.size + 63) / 64)) 0 = 0 ∧ _
    rw [a14]
    exact ⟨e1, e2, e3, e4, root_dir_block_high⟩

/-- C14, witness: a device of 1024 zeroed blocks, where `T = 19`: bit 19 of the block
bitmap is set and bit 20 is clear, the record of inode 1 starts with a zero byte, and
slot 1 of block 19 is named `..`. -/
theorem format_post_state_witness :
    (fs_format (zero_device 1024)).1 = 0 ∧
    BITMAP_TEST ((fs_format (zero_device 1024)).2.disk.blocks 1) 19 = true ∧
    BITMAP_TEST ((fs_format (zero_device 1024)).2.disk.blocks 1) 20 = false ∧
    byte_at ((fs_format (zero_device 1024)).2.disk.blocks 3) 64 = 0 ∧
    entry_name ((fs_format (zero_device 1024)).2.disk.blocks 19) 1 = DOTDOT :=
  have h := format_post_state (zero_device 1024) rfl (by decide) (by decide)
  ⟨h.1, (h.2.2.1 19).trans (by decide), (h.2.2.1 20).trans (by decide),
    h.2.2.2.2.2.1 1 0 (by decide) (by decide) (by decide), h.2.2.2.2.2.2.2.2.2.1⟩

/-! ## The claims that fail on the code -/

/-- C17 (code_bug), at the failing input: on a fresh device of 1024 blocks the root
directory block is block 19 and its slot 0 is named `.`; after `fs_create("/a", 0)`
(which returns 0) slot 0 holds the entry of the new file, inode 1 named `a`: the entry `.`
of the root directory is gone. -/
theorem create_overwrites_root_dot :
    ((fresh_fs (zero_device 1024)).INODE_TABLE 0).i_direct_pointers 0 = 19 ∧
    entry_name ((fresh_fs (zero_device 1024)).disk.blocks 19) 0 = DOT ∧
    (fs_create (ascii "/a") false (fresh_fs (zero_device 1024))).1 = 0 ∧
    ((fs_create (ascii "/a") false (fresh_fs (zero_device 1024))).2.INODE_TABLE 0).i_direct_pointers 0
      = 19 ∧
    entry_inode ((fs_create (ascii "/a") false (fresh_fs (zero_device 1024))).2.disk.blocks 19) 0
      = 1 ∧
    entry_name ((fs_create (ascii "/a") false (fresh_fs (zero_device 1024))).2.disk.blocks 19) 0
      = ascii "a" := by
  decide!

/-- C18 (code_bug), at the failing input: on a fresh device of 1024 blocks
`fs_remove("/")` returns -1, and afterwards bit 0 of the inode bitmap is clear and inode 0
is no directory any more (its record is zero). -/
theorem remove_root_frees_inode_zero :
    BITMAP_TEST (fresh_fs (zero_device 1024)).INODE_BITMAP 0 = true ∧
    ((fresh_fs (zero_device 1024)).INODE_TABLE 0).i_is_directory = 1 ∧
    (fs_remove_fuel 1 [SLASH] (fresh_fs (zero_device 1024))).map
      (fun r => (r.1, BITMAP_TEST r.2.INODE_BITMAP 0, (r.2.INODE_TABLE 0).i_is_directory,
        (r.2.INODE_TABLE 0).i_size))
      = some (-1, false, 0, 0) := by
  decide!

/-- C19 (code_bug), at the failing input: on a fresh device of 1024 blocks, after
`fs_create("/a", 0)`, `fs_unmount()` and `fs_mount()` (both calls of `fs_mount` return 0)
the path `/a` still resolves to inode 1, but the in-memory inode bitmap is the one written
by `fs_format`: only bit 0 is set, the bit of inode 1 is clear (it was set before the
unmount), so two inodes are reachable and one bit is set. -/
theorem remount_forgets_inode_bits :
    BITMAP_TEST (fs_create (ascii "/a") false (fresh_fs (zero_device 1024))).2.INODE_BITMAP 1
      = true ∧
    (fs_mount (fs_unmount (fs_create (ascii "/a") false (fresh_fs (zero_device 1024))).2)).1
      = 0 ∧
    resolve (fs_mount (fs_unmount (fs_create (ascii "/a") false
      (fresh_fs (zero_device 1024))).2)).2 (path_tokens (path_copy (ascii "/a"))) ROOT_DIR_INODE
      = some 1 ∧
    (fs_mount (fs_unmount (fs_create (ascii "/a") false
      (fresh_fs (zero_device 1024))).2)).2.INODE_BITMAP = BITMAP_SET zero_block 0 ∧
    BITMAP_TEST (fs_mount (fs_unmount (fs_create (ascii "/a") false
      (fresh_fs (zero_device 1024))).2)).2.INODE_BITMAP 1 = false := by
  decide!

/-- C20 (code_bug), at the failing input: on a fresh device of 1024 blocks, after
`fs_write("/f", buf, 1, 0)` (returns 0; the file is inode 1 and its byte is in data block
20, whose bit is set), `fs_unmount()` and `fs_mount()` (returns 0) the inode of `/f` still
refers to block 20 through `direct[0]`, but the in-memory block bitmap is the one written
by `fs_format`: bit 20 is clear, so a block referred to by a non-zero direct pointer is
not counted among the set bits. -/
theorem remount_forgets_block_bits :
    (fs_write (ascii "/f") (fun _ => 7) 1 false (fresh_fs (zero_device 1024))).1 = 0 ∧
    BITMAP_TEST (fs_write (ascii "/f") (fun _ => 7) 1 false
      (fresh_fs (zero_device 1024))).2.BLOCK_BITMAP 20 = true ∧
    (fs_mount (fs_unmount (fs_write (ascii "/f") (fun _ => 7) 1 false
      (fresh_fs (zero_device 1024))).2)).1 = 0 ∧
    resolve (fs_mount (fs_unmount (fs_write (ascii "/f") (fun _ => 7) 1 false
      (fresh_fs (zero_device 1024))).2)).2 (path_tokens (path_copy (ascii "/f"))) ROOT_DIR_INODE
      = some 1 ∧
    ((fs_mount (fs_unmount (fs_write (ascii "/f") (fun _ => 7) 1 false
      (fresh_fs (zero_device 1024))).2)).2.INODE_TABLE 1).i_direct_pointers 0 = 20 ∧
    BITMAP_TEST (fs_mount (fs_unmount (fs_write (ascii "/f") (fun _ => 7) 1 false
      (fresh_fs (zero_device 1024))).2)).2.BLOCK_BITMAP 20 = false ∧
    (fs_mount (fs_unmount (fs_write (ascii "/f") (fun _ => 7) 1 false
      (fresh_fs (zero_device 1024))).2)).2.BLOCK_BITMAP = BITMAP_SET (set_bits zero_block 19) 19
    := by
  decide!

/-! ## Fuel -/

/-- A call of `fs_create` with `is_directory = 1` never reaches the recursive call. -/
theorem fs_create_loop_dir (self self2 : List Nat → FS → Int × FS)
    (toks : List (List Nat × List Nat)) :
    ∀ (parent : Nat) (s : FS),
      fs_create_loop self true toks parent s = fs_create_loop self2 true toks parent s := by
  induction toks with
  | nil => intro parent s; rfl
  | cons t more ih =>
    intro parent s
    obtain ⟨token, rest⟩ := t
    unfold fs_create_loop
    by_cases hd : (s.INODE_TABLE parent).i_is_directory = 0
    · simp only [if_pos hd]
    · simp only [if_neg hd]
      generalize dir_lookup s.disk (s.INODE_TABLE parent) (name_of token) 0
        INODE_DIRECT_POINTERS = r
      rcases r with _ | _ | found
      · rfl
      · simp only [Bool.or_true, if_true]
        generalize create_node s parent (name_of token) (if rest.isEmpty = true then true else true)
          = c
        obtain ⟨o, s1⟩ := c
        cases o with
        | none => rfl
        | some ni =>
          simp only []
          by_cases hl : rest.isEmpty = true
          · rw [if_pos hl, if_pos hl]
          · rw [if_neg hl, if_neg hl]
            exact ih ni s1
      · simp only []
        by_cases hl : rest.isEmpty = true
        · rw [if_pos hl, if_pos hl]
        · rw [if_neg hl, if_neg hl]
          exact ih found s

theorem fs_create_fuel_dir (n : Nat) (path : List Nat) (s : FS) :
    fs_create_fuel (n + 1) path true s = fs_create_fuel 1 path true s := by
  unfold fs_create_fuel fs_create_body
  by_cases hm : (!s.MOUNT_FLAG) = true
  · rw [if_pos hm, if_pos hm]
  · rw [if_neg hm, if_neg hm]
    by_cases hh : path.head? ≠ some SLASH
    · rw [if_pos hh, if_pos hh]
    · rw [if_neg hh, if_neg hh]
      exact fs_create_loop_dir _ _ _ _ _

/-- Two unfoldings of `fs_create` are the whole function: more fuel gives the same
result. -/
theorem fs_create_fuel_enough (n : Nat) (path : List Nat) (is_directory : Bool) (s : FS) :
    fs_create_fuel (n + 2) path is_directory s = fs_create path is_directory s := by
  unfold fs_create
  show fs_create_body (fun p s => fs_create_fuel (n + 1) p true s) path is_directory s =
    fs_create_body (fun p s => fs_create_fuel 1 p true s) path is_directory s
  have : (fun p s => fs_create_fuel (n + 1) p true s) = (fun p s => fs_create_fuel 1 p true s) := by
    funext p s
    exact fs_create_fuel_dir n p s
  rw [this]

/-- An iteration of the loop of `fs_write` takes at least one byte, so any fuel of at
least `remaining` gives the same result. -/
theorem write_loop_fuel (f : Nat) (buf : Nat → Nat) (fuel : Nat) :
    ∀ (fuel2 offset pos remaining : Nat) (s : FS), remaining ≤ fuel → remaining ≤ fuel2 →
      write_loop f buf fuel offset pos remaining s =
        write_loop f buf fuel2 offset pos remaining s := by
  induction fuel with
  | zero =>
    intro fuel2 offset pos remaining s h1 _
    have hr : remaining = 0 := by omega
    subst hr
    cases fuel2 with
    | zero => rfl
    | succ m => unfold write_loop; rw [if_pos rfl]
  | succ fuel ih =>
    intro fuel2 offset pos remaining s h1 h2
    by_cases hr : remaining = 0
    · subst hr
      cases fuel2 with
      | zero => unfold write_loop; rw [if_pos rfl]
      | succ m => unfold write_loop; rw [if_pos rfl, if_pos rfl]
    · cases fuel2 with
      | zero => omega
      | succ m =>
        unfold write_loop
        rw [if_neg hr, if_neg hr]
        generalize write_block_num f (offset / BLOCK_SIZE) s = r
        obtain ⟨o, s1⟩ := r
        cases o with
        | none => rfl
        | some dbn =>
          simp only []
          cases disk_read s1.disk dbn with
          | none => rfl
          | some blk =>
            simp only []
            have hB : BLOCK_SIZE = 4096 := rfl
            have hn : 0 < min remaining (BLOCK_SIZE - offset % BLOCK_SIZE) := by
              rw [hB]; omega
            cases disk_write s1.disk dbn (write_bytes blk (offset % BLOCK_SIZE)
                (fun j => buf (pos + j)) (min remaining (BLOCK_SIZE - offset % BLOCK_SIZE))) with
            | none => rfl
            | some d =>
              simp only []
              exact ih m _ _ _ _ (by omega) (by omega)

/-- An iteration of the loop of `fs_read` takes at least one byte, so any fuel of at
least `remaining` gives the same result. -/
theorem read_loop_fuel (s : FS) (f : Nat) (fuel : Nat) :
    ∀ (fuel2 offset pos remaining : Nat) (out : Nat → Nat), remaining ≤ fuel →
      remaining ≤ fuel2 →
      read_loop s f fuel offset pos remaining out =
        read_loop s f fuel2 offset pos remaining out := by
  induction fuel with
  | zero =>
    intro fuel2 offset pos remaining out h1 _
    have hr : remaining = 0 := by omega
    subst hr
    cases fuel2 with
    | zero => rfl
    | succ m => unfold read_loop; rw [if_pos rfl]
  | succ fuel ih =>
    intro fuel2 offset pos remaining out h1 h2
    by_cases hr : remaining = 0
    · subst hr
      cases fuel2 with
      | zero => unfold read_loop; rw [if_pos rfl]
      | succ m => unfold read_loop; rw [if_pos rfl, if_pos rfl]
    · cases fuel2 with
      | zero => omega
      | succ m =>
        unfold read_loop
        rw [if_neg hr, if_neg hr]
        cases read_block_num s f (offset / BLOCK_SIZE) with
        | none => rfl
        | some dbn =>
          simp only []
          cases disk_read s.disk dbn with
          | none => rfl
          | some blk =>
            simp only []
            have hB : BLOCK_SIZE = 4096 := rfl
            have hn : 0 < min remaining (BLOCK_SIZE - offset % BLOCK_SIZE) := by
              rw [hB]; omega
            exact ih m _ _ _ _ (by omega) (by omega)

/-- The loops of `fs_remove` give the same result when the recursive call is replaced by
one that returns wherever the first one does. -/
theorem remove_children_mono (self self2 : List Nat → FS → Option (Int × FS))
    (hmono : ∀ p s r, self p s = some r → self2 p s = some r) (path : List Nat) (blk : Block)
    (n : Nat) :
    ∀ (i : Nat) (s : FS) (x : Bool × FS), remove_children self path blk i n s = some x →
      remove_children self2 path blk i n s = some x := by
  induction n with
  | zero => intro i s x h; exact h
  | succ n ih =>
    intro i s x h
    unfold remove_children at h ⊢
    by_cases h0 : entry_inode blk i ≠ 0
    · rw [if_pos h0] at h ⊢
      by_cases hd : entry_name_raw blk i = DOT ∨ entry_name_raw blk i = DOTDOT
      · rw [if_pos hd] at h ⊢
        exact ih _ _ _ h
      · rw [if_neg hd] at h ⊢
        generalize hself : self (child_path path (entry_name_raw blk i)) s = q at h
        cases q with
        | none => exact absurd h (by simp)
        | some rs =>
          rw [hmono _ _ _ hself]
          obtain ⟨r, s1⟩ := rs
          simp only [] at h ⊢
          by_cases hr : r < 0
          · rw [if_pos hr] at h ⊢; exact h
          · rw [if_neg hr] at h ⊢; exact ih _ _ _ h
    · rw [if_neg h0] at h ⊢
      exact ih _ _ _ h

theorem remove_dir_blocks_mono (self self2 : List Nat → FS → Option (Int × FS))
    (hmono : ∀ p s r, self p s = some r → self2 p s = some r) (path : List Nat) (target : Nat)
    (n : Nat) :
    ∀ (dp : Nat) (s : FS) (x : Bool × FS),
      remove_dir_blocks self path target dp n s = some x →
      remove_dir_blocks self2 path target dp n s = some x := by
  induction n with
  | zero => intro dp s x h; exact h
  | succ n ih =>
    intro dp s x h
    unfold remove_dir_blocks at h ⊢
    by_cases h0 : (s.INODE_TABLE target).i_direct_pointers dp = 0
    · rw [if_pos h0] at h ⊢
      exact ih _ _ _ h
    · rw [if_neg h0] at h ⊢
      cases hrd : disk_read s.disk ((s.INODE_TABLE target).i_direct_pointers dp) with
      | none => rw [hrd] at h; exact h
      | some blk =>
        rw [hrd] at h
        simp only [] at h ⊢
        generalize hc : remove_children self path blk 0 DIRENTS_PER_BLOCK s = q at h
        cases q with
        | none => exact absurd h (by simp)
        | some bs =>
          rw [remove_children_mono self self2 hmono path blk _ _ _ _ hc]
          obtain ⟨b, s1⟩ := bs
          cases b with
          | false => exact h
          | true =>
            simp only [] at h ⊢
            exact ih _ _ _ h

/-- More fuel does not change a result of `fs_remove`. -/
theorem fs_remove_fuel_mono (n : Nat) :
    ∀ (path : List Nat) (s : FS) (r : Int × FS), fs_remove_fuel n path s = some r →
      fs_remove_fuel (n + 1) path s = some r := by
  induction n with
  | zero => intro path s r h; exact absurd h (by simp [fs_remove_fuel])
  | succ n ih =>
    intro path s r h
    show fs_remove_body (fs_remove_fuel (n + 1)) path s = some r
    have h2 : fs_remove_body (fs_remove_fuel n) path s = some r := h
    unfold fs_remove_body at h2 ⊢
    by_cases hm : (!s.MOUNT_FLAG) = true
    · rw [if_pos hm] at h2 ⊢; exact h2
    · rw [if_neg hm] at h2 ⊢
      by_cases hh : path.head? ≠ some SLASH
      · rw [if_pos hh] at h2 ⊢; exact h2
      · rw [if_neg hh] at h2 ⊢
        cases hres : remove_resolve s (path_tokens (path_copy path)) ROOT_DIR_INODE
            ROOT_DIR_INODE with
        | none => rw [hres] at h2; exact h2
        | some pt =>
          rw [hres] at h2
          obtain ⟨parent, target⟩ := pt
          simp only [] at h2 ⊢
          by_cases hd : (s.INODE_TABLE target).i_is_directory ≠ 0
          · rw [if_pos hd] at h2 ⊢
            generalize hc : remove_dir_blocks (fs_remove_fuel n) path target 0
              INODE_DIRECT_POINTERS s = q at h2
            cases q with
            | none => exact absurd h2 (by simp)
            | some bs =>
              rw [remove_dir_blocks_mono _ _ ih path target _ _ _ _ hc]
              exact h2
          · rw [if_neg hd] at h2 ⊢
            exact h2

theorem calc_children_mono (self self2 : Nat → FS → Option (Nat × FS))
    (hmono : ∀ i s r, self i s = some r → self2 i s = some r) (blk : Block) (n : Nat) :
    ∀ (i total : Nat) (s : FS) (x : Nat × FS), calc_children self blk i n total s = some x →
      calc_children self2 blk i n total s = some x := by
  induction n with
  | zero => intro i total s x h; exact h
  | succ n ih =>
    intro i total s x h
    unfold calc_children at h ⊢
    by_cases h0 : entry_inode blk i ≠ 0
    · rw [if_pos h0] at h ⊢
      by_cases hd : entry_name_raw blk i = DOT ∨ entry_name_raw blk i = DOTDOT
      · rw [if_pos hd] at h ⊢
        exact ih _ _ _ _ h
      · rw [if_neg hd] at h ⊢
        generalize hself : self (entry_inode blk i) s = q at h
        cases q with
        | none => exact absurd h (by simp)
        | some rs =>
          rw [hmono _ _ _ hself]
          obtain ⟨r, s1⟩ := rs
          simp only [] at h ⊢
          exact ih _ _ _ _ h
    · rw [if_neg h0] at h ⊢
      exact ih _ _ _ _ h

theorem calc_blocks_mono (self self2 : Nat → FS → Option (Nat × FS))
    (hmono : ∀ i s r, self i s = some r → self2 i s = some r) (inode_index : Nat) (n : Nat) :
    ∀ (dp total : Nat) (s : FS) (x : (Unit ⊕ Nat) × FS),
      calc_blocks self inode_index dp n total s = some x →
      calc_blocks self2 inode_index dp n total s = some x := by
  induction n with
  | zero => intro dp total s x h; exact h
  | succ n ih =>
    intro dp total s x h
    unfold calc_blocks at h ⊢
    by_cases h0 : (s.INODE_TABLE inode_index).i_direct_pointers dp = 0
    · rw [if_pos h0] at h ⊢
      exact ih _ _ _ _ h
    · rw [if_neg h0] at h ⊢
      cases hrd : disk_read s.disk ((s.INODE_TABLE inode_index).i_direct_pointers dp) with
      | none => rw [hrd] at h; exact h
      | some blk =>
        rw [hrd] at h
        simp only [] at h ⊢
        generalize hc : calc_children self blk 0 DIRENTS_PER_BLOCK total s = q at h
        cases q with
        | none => exact absurd h (by simp)
        | some ts =>
          rw [calc_children_mono self self2 hmono blk _ _ _ _ _ hc]
          obtain ⟨t1, s1⟩ := ts
          simp only [] at h ⊢
          exact ih _ _ _ _ h

/-- More fuel does not change a result of `calculate_directory_size`. -/
theorem calculate_directory_size_mono (n : Nat) :
    ∀ (inode_index : Nat) (s : FS) (r : Nat × FS),
      calculate_directory_size n inode_index s = some r →
      calculate_directory_size (n + 1) inode_index s = some r := by
  induction n with
  | zero => intro i s r h; exact absurd h (by simp [calculate_directory_size])
  | succ n ih =>
    intro i s r h
    show calc_body (calculate_directory_size (n + 1)) i s = some r
    have h2 : calc_body (calculate_directory_size n) i s = some r := h
    unfold calc_body at h2 ⊢
    by_cases hd : (s.INODE_TABLE i).i_is_directory = 0
    · rw [if_pos hd] at h2 ⊢; exact h2
    · rw [if_neg hd] at h2 ⊢
      generalize hc : calc_blocks (calculate_directory_size n) i 0 INODE_DIRECT_POINTERS 0 s = q
        at h2
      cases q with
      | none => exact absurd h2 (by simp)
      | some ts =>
        rw [calc_blocks_mono _ _ ih i _ _ _ _ _ hc]
        exact h2

/-- More fuel does not change a result of `fs_list`. -/
theorem fs_list_mono (n : Nat) (path : List Nat) (s : FS)
    (r : Int × List (List Nat × Nat) × FS) (h : fs_list n path s = some r) :
    fs_list (n + 1) path s = some r := by
  unfold fs_list at h ⊢
  by_cases hm : (!s.MOUNT_FLAG) = true
  · rw [if_pos hm] at h ⊢; exact h
  · rw [if_neg hm] at h ⊢
    by_cases hh : path.head? ≠ some SLASH
    · rw [if_pos hh] at h ⊢; exact h
    · rw [if_neg hh] at h ⊢
      cases hres : resolve s (path_tokens (path_copy path)) ROOT_DIR_INODE with
      | none => rw [hres] at h; exact h
      | some dir =>
        rw [hres] at h
        simp only [] at h ⊢
        by_cases hd : (s.INODE_TABLE dir).i_is_directory = 0
        · rw [if_pos hd] at h ⊢; exact h
        · rw [if_neg hd] at h ⊢
          generalize hc : calculate_directory_size n dir s = q at h
          cases q with
          | none => exact absurd h (by simp)
          | some ts =>
            rw [calculate_directory_size_mono n dir s ts hc]
            exact h

/-- C25 (relative paths).  For every state and every path string that does not begin
with `/` (the empty string included): `fs_create`, `fs_list`, `fs_remove`, `fs_read` and
`fs_write` return -1, with any further arguments, and the state after the call is the
state before it (`fs_list` prints nothing, `fs_read` leaves the buffer alone). -/
theorem relative_path_rejected (s : FS) (path : List Nat) (h : path.head? ≠ some SLASH) :
    (∀ is_directory, fs_create path is_directory s = (-1, s)) ∧
    (∀ fuel, fs_list fuel path s = some (-1, [], s)) ∧
    (∀ fuel, fs_remove_fuel (fuel + 1) path s = some (-1, s)) ∧
    (∀ out count offset, fs_read path out count offset s = (-1, out)) ∧
    (∀ buf count append, fs_write path buf count append s = (-1, s)) := by
  refine ⟨?_, ?_, ?_, ?_, ?_⟩
  · intro d
    unfold fs_create fs_create_fuel fs_create_body
    by_cases hm : (!s.MOUNT_FLAG) = true
    · rw [if_pos hm]
    · rw [if_neg hm, if_pos h]
  · intro fuel
    unfold fs_list
    by_cases hm : (!s.MOUNT_FLAG) = true
    · rw [if_pos hm]
    · rw [if_neg hm, if_pos h]
  · intro fuel
    unfold fs_remove_fuel fs_remove_body
    by_cases hm : (!s.MOUNT_FLAG) = true
    · rw [if_pos hm]
    · rw [if_neg hm, if_pos h]
  · intro out count offset
    unfold fs_read
    by_cases hm : (!s.MOUNT_FLAG) = true
    · rw [if_pos hm]
    · rw [if_neg hm, if_pos h]
  · intro buf count append
    unfold fs_write
    by_cases hm : (!s.MOUNT_FLAG) = true
    · rw [if_pos hm]
    · rw [if_neg hm, if_pos h]

/-- C25, witness: the path `a/b` on a fresh device of 1024 blocks. -/
theorem relative_path_rejected_witness :
    fs_create (ascii "a/b") false (fresh_fs (zero_device 1024)) =
      (-1, fresh_fs (zero_device 1024)) ∧
    fs_write (ascii "a/b") (fun _ => 7) 5 false (fresh_fs (zero_device 1024)) =
      (-1, fresh_fs (zero_device 1024)) ∧
    fs_remove_fuel 1 (ascii "a/b") (fresh_fs (zero_device 1024)) =
      some (-1, fresh_fs (zero_device 1024)) :=
  have h := relative_path_rejected (fresh_fs (zero_device 1024)) (ascii "a/b") (by decide)
  ⟨h.1 false, h.2.2.2.2 (fun _ => 7) 5 false, h.2.2.1 0⟩

/-- C28 (first-fit block allocation).  In every state, `allocate_data_block` does one of
two things.  Either some bit of the block bitmap in `[s_data_blocks_start, s_blocks_count)`
is clear: then it returns the smallest such index `k` (every lower index of the range has
its bit set), `k` is not the sentinel `(uint32_t)-1`, and the new state is the old one with
bit `k` set in the block bitmap, every other bit being as before.  Or every bit of the
range is set: then it returns `(uint32_t)-1` and the state, the bitmap included, is
unchanged. -/
theorem first_fit_allocation (s : FS) :
    (∃ k, s.s_data_blocks_start ≤ k ∧ k < s.s_blocks_count ∧
      BITMAP_TEST s.BLOCK_BITMAP k = false ∧
      (∀ j, s.s_data_blocks_start ≤ j → j < k → BITMAP_TEST s.BLOCK_BITMAP j = true) ∧
      k ≠ NONE32 ∧
      allocate_data_block s = (k, { s with BLOCK_BITMAP := BITMAP_SET s.BLOCK_BITMAP k }) ∧
      (∀ j, BITMAP_TEST (allocate_data_block s).2.BLOCK_BITMAP j =
        (decide (j = k) || BITMAP_TEST s.BLOCK_BITMAP j))) ∨
    ((∀ j, s.s_data_blocks_start ≤ j → j < s.s_blocks_count →
        BITMAP_TEST s.BLOCK_BITMAP j = true) ∧
      allocate_data_block s = (NONE32, s)) := by
  cases hfc : first_clear s.BLOCK_BITMAP s.s_data_blocks_start s.s_blocks_count with
  | none =>
    right
    refine ⟨first_clear_none _ _ _ hfc, ?_⟩
    unfold allocate_data_block
    rw [hfc]
  | some k =>
    left
    obtain ⟨h1, h2, h3, h4⟩ := first_clear_some _ _ _ _ hfc
    have he : allocate_data_block s =
        (k, { s with BLOCK_BITMAP := BITMAP_SET s.BLOCK_BITMAP k }) := by
      unfold allocate_data_block
      rw [hfc]
    refine ⟨k, h1, h2, h3, h4, ?_, he, ?_⟩
    · have : s.s_blocks_count < 4294967296 := get32_lt _ _
      unfold NONE32
      omega
    · intro j
      rw [he]
      exact BITMAP_TEST_SET _ _ _

/-! ## Paths through a regular file, and directories as targets of file I/O -/

theorem strtok_r_nil : strtok_r [] = none := rfl

theorem tokens_aux_nil (n : Nat) : tokens_aux n [] = [] := by
  cases n <;> rfl

/-- In the token list of a path, a token whose `rest` is empty is the last one. -/
theorem tokens_aux_rest (n : Nat) :
    ∀ (s : List Nat) (pre post : List (List Nat × List Nat)) (t r : List Nat),
      tokens_aux n s = pre ++ (t, r) :: post → post ≠ [] → r ≠ [] := by
  induction n with
  | zero =>
    intro s pre post t r h _
    cases pre <;> simp [tokens_aux] at h
  | succ n ih =>
    intro s pre post t r h hpost
    unfold tokens_aux at h
    cases hs : strtok_r s with
    | none =>
      rw [hs] at h
      cases pre <;> simp at h
    | some tr =>
      rw [hs] at h
      obtain ⟨t1, r1⟩ := tr
      simp only [] at h
      cases pre with
      | nil =>
        simp only [List.nil_append, List.cons.injEq, Prod.mk.injEq] at h
        obtain ⟨⟨_, hr⟩, hp⟩ := h
        intro hc
        apply hpost
        rw [← hp, hr, hc, tokens_aux_nil]
      | cons p pre1 =>
        simp only [List.cons_append, List.cons.injEq] at h
        exact ih r1 pre1 post t r h.2 hpost

theorem tokens_prefix_rest (toks pre post : List (List Nat × List Nat)) (n : Nat) (s : List Nat)
    (h : tokens_aux n s = toks) (hsplit : toks = pre ++ post) (hpost : post ≠ []) :
    ∀ x ∈ pre, x.2.isEmpty = false := by
  intro x hx
  obtain ⟨l1, l2, hl⟩ := List.append_of_mem hx
  obtain ⟨t, r⟩ := x
  have h2 : tokens_aux n s = l1 ++ (t, r) :: (l2 ++ post) := by
    rw [h, hsplit, hl]
    simp
  have := tokens_aux_rest n s l1 (l2 ++ post) t r h2 (by simp [hpost])
  cases r with
  | nil => exact absurd rfl this
  | cons a b => rfl

theorem create_loop_through_file (self : List Nat → FS → Int × FS) (d : Bool) (s : FS)
    (post : List (List Nat × List Nat)) (hpost : post ≠ []) (f : Nat)
    (hfile : (s.INODE_TABLE f).i_is_directory = 0) (pre : List (List Nat × List Nat)) :
    ∀ cur, (∀ x ∈ pre, x.2.isEmpty = false) → resolve s pre cur = some f →
      fs_create_loop self d (pre ++ post) cur s = (-1, s) := by
  induction pre with
  | nil =>
    intro cur _ h
    have hc : cur = f := by
      unfold resolve at h
      injection h
    subst hc
    cases post with
    | nil => exact absurd rfl hpost
    | cons p more =>
      obtain ⟨t, r⟩ := p
      show fs_create_loop self d ((t, r) :: more) cur s = _
      unfold fs_create_loop
      simp only [if_pos hfile]
  | cons p pre1 ih =>
    intro cur hall h
    obtain ⟨t, r⟩ := p
    have hr : r.isEmpty = false := hall (t, r) (by simp)
    unfold resolve at h
    show fs_create_loop self d ((t, r) :: (pre1 ++ post)) cur s = _
    unfold fs_create_loop
    by_cases hd : (s.INODE_TABLE cur).i_is_directory = 0
    · simp only [if_pos hd]
    · rw [if_neg hd] at h
      simp only [if_neg hd]
      generalize dir_lookup s.disk (s.INODE_TABLE cur) (name_of t) 0
        INODE_DIRECT_POINTERS = q at h ⊢
      rcases q with _ | _ | found
      · exact absurd h (by simp)
      · exact absurd h (by simp)
      · simp only [hr, Bool.false_eq_true, if_false] at h ⊢
        exact ih found (fun x hx => hall x (by simp [hx])) h

theorem write_resolve_through_file (s : FS) (post : List (List Nat × List Nat))
    (hpost : post ≠ []) (f : Nat) (hfile : (s.INODE_TABLE f).i_is_directory = 0)
    (pre : List (List Nat × List Nat)) :
    ∀ (cur : Nat) (cp : List Nat) (file : Option Nat), (∀ x ∈ pre, x.2.isEmpty = false) →
      resolve s pre cur = some f → write_resolve (pre ++ post) cur cp file s = (none, s) := by
  induction pre with
  | nil =>
    intro cur cp file _ h
    have hc : cur = f := by
      unfold resolve at h
      injection h
    subst hc
    cases post with
    | nil => exact absurd rfl hpost
    | cons p more =>
      obtain ⟨t, r⟩ := p
      show write_resolve ((t, r) :: more) cur cp file s = _
      unfold write_resolve
      simp only [if_pos hfile]
  | cons p pre1 ih =>
    intro cur cp file hall h
    obtain ⟨t, r⟩ := p
    have hr : r.isEmpty = false := hall (t, r) (by simp)
    unfold resolve at h
    show write_resolve ((t, r) :: (pre1 ++ post)) cur cp file s = _
    unfold write_resolve
    by_cases hd : (s.INODE_TABLE cur).i_is_directory = 0
    · simp only [if_pos hd]
    · rw [if_neg hd] at h
      simp only [if_neg hd]
      generalize dir_lookup s.disk (s.INODE_TABLE cur) (name_of t) 0
        INODE_DIRECT_POINTERS = q at h ⊢
      rcases q with _ | _ | found
      · exact absurd h (by simp)
      · exact absurd h (by simp)
      · simp only [hr, Bool.false_eq_true, if_false] at h ⊢
        exact ih found _ file (fun x hx => hall x (by simp [hx])) h

theorem remove_resolve_through_file (s : FS) (post : List (List Nat × List Nat))
    (hpost : post ≠ []) (f : Nat) (hfile : (s.INODE_TABLE f).i_is_directory = 0)
    (pre : List (List Nat × List Nat)) :
    ∀ (cur target : Nat), (∀ x ∈ pre, x.2.isEmpty = false) →
      resolve s pre cur = some f → remove_resolve s (pre ++ post) cur target = none := by
  induction pre with
  | nil =>
    intro cur target _ h
    have hc : cur = f := by
      unfold resolve at h
      injection h
    subst hc
    cases post with
    | nil => exact absurd rfl hpost
    | cons p more =>
      obtain ⟨t, r⟩ := p
      show remove_resolve s ((t, r) :: more) cur target = _
      unfold remove_resolve
      simp only [if_pos hfile]
  | cons p pre1 ih =>
    intro cur target hall h
    obtain ⟨t, r⟩ := p
    have hr : r.isEmpty = false := hall (t, r) (by simp)
    unfold resolve at h
    show remove_resolve s ((t, r) :: (pre1 ++ post)) cur target = _
    unfold remove_resolve
    by_cases hd : (s.INODE_TABLE cur).i_is_directory = 0
    · simp only [if_pos hd]
    · rw [if_neg hd] at h
      simp only [if_neg hd]
      generalize dir_lookup s.disk (s.INODE_TABLE cur) (name_of t) 0
        INODE_DIRECT_POINTERS = q at h ⊢
      rcases q with _ | _ | found
      · exact absurd h (by simp)
      · exact absurd h (by simp)
      · simp only [hr, Bool.false_eq_true, if_false] at h ⊢
        exact ih found found (fun x hx => hall x (by simp [hx])) h

theorem resolve_through_file (s : FS) (post : List (List Nat × List Nat))
    (hpost : post ≠ []) (f : Nat) (hfile : (s.INODE_TABLE f).i_is_directory = 0)
    (pre : List (List Nat × List Nat)) :
    ∀ (cur : Nat), resolve s pre cur = some f → resolve s (pre ++ post) cur = none := by
  induction pre with
  | nil =>
    intro cur h
    have hc : cur = f := by
      unfold resolve at h
      injection h
    subst hc
    cases post with
    | nil => exact absurd rfl hpost
    | cons p more =>
      obtain ⟨t, r⟩ := p
      show resolve s ((t, r) :: more) cur = _
      unfold resolve
      simp only [if_pos hfile]
  | cons p pre1 ih =>
    intro cur h
    obtain ⟨t, r⟩ := p
    unfold resolve at h
    show resolve s ((t, r) :: (pre1 ++ post)) cur = _
    unfold resolve
    by_cases hd : (s.INODE_TABLE cur).i_is_directory = 0
    · simp only [if_pos hd]
    · rw [if_neg hd] at h
      simp only [if_neg hd]
      generalize dir_lookup s.disk (s.INODE_TABLE cur) (name_of t) 0
        INODE_DIRECT_POINTERS = q at h ⊢
      rcases q with _ | _ | found
      · exact absurd h (by simp)
      · exact absurd h (by simp)
      · simp only [] at h ⊢
        exact ih found h

/-- C23 (non-directory intermediate component).  Let the components of `path` split
into `pre` and a non-empty `post` such that the walk over `pre` leads from the root to the
inode `f` of a regular file.  Then `fs_create`, `fs_write`, `fs_read`, `fs_list` and
`fs_remove` all return -1 on `path`, with any further arguments, and the state after the
call is the state before it: inode table, both bitmaps and every device block. -/
theorem file_in_path_rejected (s : FS) (path : List Nat) (pre post : List (List Nat × List Nat))
    (f : Nat) (ht : path_tokens (path_copy path) = pre ++ post) (hpost : post ≠ [])
    (hres : resolve s pre ROOT_DIR_INODE = some f)
    (hfile : (s.INODE_TABLE f).i_is_directory = 0) :
    (∀ is_directory, fs_create path is_directory s = (-1, s)) ∧
    (∀ buf count append, fs_write path buf count append s = (-1, s)) ∧
    (∀ out count offset, fs_read path out count offset s = (-1, out)) ∧
    (∀ fuel, fs_list fuel path s = some (-1, [], s)) ∧
    (∀ fuel, fs_remove_fuel (fuel + 1) path s = some (-1, s)) := by
  have hall : ∀ x ∈ pre, x.2.isEmpty = false :=
    tokens_prefix_rest _ pre post _ _ rfl ht hpost
  refine ⟨?_, ?_, ?_, ?_, ?_⟩
  · intro d
    unfold fs_create fs_create_fuel fs_create_body
    by_cases hm : (!s.MOUNT_FLAG) = true
    · rw [if_pos hm]
    · rw [if_neg hm]
      by_cases hh : path.head? ≠ some SLASH
      · rw [if_pos hh]
      · rw [if_neg hh, ht]
        exact create_loop_through_file _ d s post hpost f hfile pre _ hall hres
  · intro buf count append
    unfold fs_write
    by_cases hm : (!s.MOUNT_FLAG) = true
    · rw [if_pos hm]
    · rw [if_neg hm]
      by_cases hh : path.head? ≠ some SLASH
      · rw [if_pos hh]
      · rw [if_neg hh]
        by_cases hc : count = 0
        · rw [if_pos hc]
        · rw [if_neg hc, ht,
            write_resolve_through_file s post hpost f hfile pre _ _ _ hall hres]
  · intro out count offset
    unfold fs_read
    by_cases hm : (!s.MOUNT_FLAG) = true
    · rw [if_pos hm]
    · rw [if_neg hm]
      by_cases hh : path.head? ≠ some SLASH
      · rw [if_pos hh]
      · rw [if_neg hh]
        by_cases hc : count = 0
        · rw [if_pos hc]
        · rw [if_neg hc]
          have hnone := resolve_through_file s post hpost f hfile pre _ hres
          rw [← ht] at hnone
          cases hl : path_tokens (path_copy path) with
          | nil => rfl
          | cons tok toks =>
            simp only []
            rw [← hl, hnone]
  · intro fuel
    unfold fs_list
    by_cases hm : (!s.MOUNT_FLAG) = true
    · rw [if_pos hm]
    · rw [if_neg hm]
      by_cases hh : path.head? ≠ some SLASH
      · rw [if_pos hh]
      · rw [if_neg hh, ht, resolve_through_file s post hpost f hfile pre _ hres]
  · intro fuel
    unfold fs_remove_fuel fs_remove_body
    by_cases hm : (!s.MOUNT_FLAG) = true
    · rw [if_pos hm]
    · rw [if_neg hm]
      by_cases hh : path.head? ≠ some SLASH
      · rw [if_pos hh]
      · rw [if_neg hh, ht,
          remove_resolve_through_file s post hpost f hfile pre _ _ hall hres]

/-- C23, witness: after `fs_create("/f", 0)` on a fresh device of 1024 blocks, the path
`/f/g` runs through the regular file `/f` (inode 1). -/
theorem file_in_path_rejected_witness :
    fs_create (ascii "/f/g") true (fs_create (ascii "/f") false (fresh_fs (zero_device 1024))).2 =
      (-1, (fs_create (ascii "/f") false (fresh_fs (zero_device 1024))).2) ∧
    fs_write (ascii "/f/g") (fun _ => 7) 5 false
        (fs_create (ascii "/f") false (fresh_fs (zero_device 1024))).2 =
      (-1, (fs_create (ascii "/f") false (fresh_fs (zero_device 1024))).2) ∧
    fs_remove_fuel 1 (ascii "/f/g") (fs_create (ascii "/f") false (fresh_fs (zero_device 1024))).2 =
      some (-1, (fs_create (ascii "/f") false (fresh_fs (zero_device 1024))).2) :=
  have h := file_in_path_rejected (fs_create (ascii "/f") false (fresh_fs (zero_device 1024))).2
    (ascii "/f/g") [(ascii "f", ascii "g")] [(ascii "g", [])] 1 (by decide) (by decide)
    (by decide!) (by decide!)
  ⟨h.1 true, h.2.1 (fun _ => 7) 5 false, h.2.2.2.2 0⟩

/-- When the walk over the components leads to a directory, the path walk of `fs_write`
ends without a file inode and without having changed the state. -/
theorem write_resolve_to_directory (s : FS) (d : Nat)
    (hdir : (s.INODE_TABLE d).i_is_directory ≠ 0) (toks : List (List Nat × List Nat)) :
    ∀ (cur : Nat) (cp : List Nat) (file : Option Nat), resolve s toks cur = some d →
      write_resolve toks cur cp file s = (none, s) ∨
      write_resolve toks cur cp file s = (some file, s) := by
  induction toks with
  | nil => intro cur cp file _; right; rfl
  | cons p more ih =>
    intro cur cp file h
    obtain ⟨t, r⟩ := p
    unfold resolve at h
    unfold write_resolve
    by_cases hd : (s.INODE_TABLE cur).i_is_directory = 0
    · left; simp only [if_pos hd]
    · rw [if_neg hd] at h
      simp only [if_neg hd]
      generalize dir_lookup s.disk (s.INODE_TABLE cur) (name_of t) 0
        INODE_DIRECT_POINTERS = q at h ⊢
      rcases q with _ | _ | found
      · exact absurd h (by simp)
      · exact absurd h (by simp)
      · simp only [] at h ⊢
        by_cases hl : r.isEmpty = true
        · rw [if_pos hl]
          by_cases hfd : (s.INODE_TABLE found).i_is_directory ≠ 0
          · left; rw [if_pos hfd]
          · exfalso
            have hf0 : (s.INODE_TABLE found).i_is_directory = 0 := by
              by_contra hc; exact hfd hc
            cases more with
            | nil =>
              unfold resolve at h
              injection h with h
              subst h
              exact hdir hf0
            | cons p2 more2 =>
              obtain ⟨t2, r2⟩ := p2
              unfold resolve at h
              rw [if_pos hf0] at h
              exact absurd h (by simp)
        · rw [if_neg hl]
          exact ih found _ file h

/-- C24 (directories as targets of file I/O).  When the walk over the components of
`path` leads from the root to a directory (for `/`, with no component, to the root
itself), `fs_write(path, buf, n, append)` and `fs_read(path, out, n, offset)` return -1
for all further arguments; the state after `fs_write` is the state before it, and
`fs_read` leaves the buffer alone. -/
theorem directory_target_rejected (s : FS) (path : List Nat) (d : Nat)
    (hres : resolve s (path_tokens (path_copy path)) ROOT_DIR_INODE = some d)
    (hdir : (s.INODE_TABLE d).i_is_directory ≠ 0) :
    (∀ buf count append, fs_write path buf count append s = (-1, s)) ∧
    (∀ out count offset, fs_read path out count offset s = (-1, out)) := by
  constructor
  · intro buf count append
    unfold fs_write
    by_cases hm : (!s.MOUNT_FLAG) = true
    · rw [if_pos hm]
    · rw [if_neg hm]
      by_cases hh : path.head? ≠ some SLASH
      · rw [if_pos hh]
      · rw [if_neg hh]
        by_cases hc : count = 0
        · rw [if_pos hc]
        · rw [if_neg hc]
          rcases write_resolve_to_directory s d hdir _ ROOT_DIR_INODE [SLASH] none hres with h | h
          · rw [h]
          · rw [h]
  · intro out count offset
    unfold fs_read
    by_cases hm : (!s.MOUNT_FLAG) = true
    · rw [if_pos hm]
    · rw [if_neg hm]
      by_cases hh : path.head? ≠ some SLASH
      · rw [if_pos hh]
      · rw [if_neg hh]
        by_cases hc : count = 0
        · rw [if_pos hc]
        · rw [if_neg hc]
          cases hl : path_tokens (path_copy path) with
          | nil => rfl
          | cons tok toks =>
            simp only []
            rw [← hl, hres]
            simp only [if_pos hdir]

/-- C24, witness: the root directory `/` and the directory `/d` on a fresh device of
1024 blocks. -/
theorem directory_target_rejected_witness :
    fs_write (ascii "/") (fun _ => 7) 5 false (fresh_fs (zero_device 1024)) =
      (-1, fresh_fs (zero_device 1024)) ∧
    fs_write (ascii "/d") (fun _ => 7) 5 true
        (fs_create (ascii "/d") true (fresh_fs (zero_device 1024))).2 =
      (-1, (fs_create (ascii "/d") true (fresh_fs (zero_device 1024))).2) ∧
    fs_read (ascii "/d") (fun _ => 0) 5 0
        (fs_create (ascii "/d") true (fresh_fs (zero_device 1024))).2 = (-1, fun _ => 0) :=
  have h0 := directory_target_rejected (fresh_fs (zero_device 1024)) (ascii "/") 0
    (by decide!) (by decide!)
  have h1 := directory_target_rejected (fs_create (ascii "/d") true
    (fresh_fs (zero_device 1024))).2 (ascii "/d") 1 (by decide!) (by decide!)
  ⟨h0.1 (fun _ => 7) 5 false, h1.1 (fun _ => 7) 5 true, h1.2 (fun _ => 0) 5 0⟩

/-! ## Listing a directory without entries -/

theorem calc_children_empty (self : Nat → FS → Option (Nat × FS)) (blk : Block)
    (h : ∀ j, entry_inode blk j = 0) (n : Nat) :
    ∀ (i total : Nat) (s : FS), calc_children self blk i n total s = some (total, s) := by
  induction n with
  | zero => intro i total s; rfl
  | succ n ih =>
    intro i total s
    unfold calc_children
    have h0 : ¬ (entry_inode blk i ≠ 0) := fun hc => hc (h i)
    rw [if_neg h0]
    exact ih _ _ _

theorem list_block_empty (s : FS) (blk : Block) (h : ∀ j, entry_inode blk j = 0) (n : Nat) :
    ∀ (i : Nat), list_block s blk i n = [] := by
  induction n with
  | zero => intro i; rfl
  | succ n ih =>
    intro i
    unfold list_block
    have h0 : ¬ (entry_inode blk i ≠ 0 ∧
        ¬ (entry_name blk i = DOT ∨ entry_name blk i = DOTDOT)) := fun hc => hc.1 (h i)
    rw [if_neg h0]
    exact ih _

theorem calc_blocks_zero (self : Nat → FS → Option (Nat × FS)) (I : Nat) (s : FS) (n : Nat) :
    ∀ (dp total : Nat), (∀ k, dp ≤ k → k < dp + n → (s.INODE_TABLE I).i_direct_pointers k = 0) →
      calc_blocks self I dp n total s = some (Sum.inr total, s) := by
  induction n with
  | zero => intro dp total _; rfl
  | succ n ih =>
    intro dp total h
    unfold calc_blocks
    rw [if_pos (h dp (le_refl _) (by omega))]
    exact ih _ _ (fun k h1 h2 => h k (by omega) (by omega))

theorem list_blocks_zero (s : FS) (I : Nat) (n : Nat) :
    ∀ (dp : Nat), (∀ k, dp ≤ k → k < dp + n → (s.INODE_TABLE I).i_direct_pointers k = 0) →
      list_blocks s I dp n = (0, []) := by
  induction n with
  | zero => intro dp _; rfl
  | succ n ih =>
    intro dp h
    unfold list_blocks
    rw [if_pos (h dp (le_refl _) (by omega))]
    exact ih _ (fun k h1 h2 => h k (by omega) (by omega))

/-- The listing of the root directory in the state right after `fs_format` and
`fs_mount`: code 0 and no line. -/
theorem fresh_list_root (s : FS) (N : Nat) (hf : Fresh s N) (fuel : Nat) :
    (fs_list (fuel + 1) [SLASH] s).map (fun r => (r.1, r.2.1)) = some (0, []) := by
  have hT : 3 + (N + 63) / 64 < s.disk.size := by
    have := hf.n8
    have := hf.n32
    rw [hf.dsize]
    omega
  have hz : ∀ j, entry_inode (s.disk.blocks (3 + (N + 63) / 64)) j = 0 := by
    intro j; rw [hf.rootblk]; exact entry_inode_root_dir_block j
  have hp0 : (s.INODE_TABLE 0).i_direct_pointers 0 ≠ 0 := by rw [hf.root_d0]; omega
  have hrest : ∀ k, 0 + 1 ≤ k → k < 0 + 1 + 12 → (s.INODE_TABLE 0).i_direct_pointers k = 0 :=
    fun k h1 h2 => hf.root_dn k (by omega) (by omega)
  have hdir : ¬ ((s.INODE_TABLE 0).i_is_directory = 0) := by rw [hf.root_dir]; decide
  have hcalc : calculate_directory_size (fuel + 1) 0 s =
      some ((0 + BLOCK_SIZE) % U32,
        s.set_inode 0 { (s.INODE_TABLE 0) with i_size := (0 + BLOCK_SIZE) % U32 }) := by
    unfold calculate_directory_size calc_body
    rw [if_neg hdir]
    have hb : calc_blocks (calculate_directory_size fuel) 0 0 INODE_DIRECT_POINTERS 0 s =
        some (Sum.inr 0, s) := by
      show calc_blocks (calculate_directory_size fuel) 0 0 (12 + 1) 0 s = _
      unfold calc_blocks
      rw [if_neg hp0, hf.root_d0, disk_read_ok _ _ hT]
      simp only []
      rw [calc_children_empty _ _ hz]
      simp only []
      exact calc_blocks_zero _ 0 s 12 (0 + 1) 0 hrest
    rw [hb]
  unfold fs_list
  have hm : ¬ ((!s.MOUNT_FLAG) = true) := by rw [hf.mounted]; decide
  have hh : ¬ (([SLASH] : List Nat).head? ≠ some SLASH) := by decide
  rw [if_neg hm, if_neg hh]
  have ht : path_tokens (path_copy [SLASH]) = [] := by decide
  rw [ht]
  show (match (some ROOT_DIR_INODE : Option Nat) with
    | none => some (-1, [], s)
    | some dir => _).map _ = _
  simp only [ROOT_DIR_INODE]
  rw [if_neg hdir, hcalc]
  simp only [Option.map]
  obtain ⟨s1, hs1⟩ : ∃ s1, s1 =
      s.set_inode 0 { (s.INODE_TABLE 0) with i_size := (0 + BLOCK_SIZE) % U32 } := ⟨_, rfl⟩
  rw [← hs1]
  have hptr : ∀ k, (s1.INODE_TABLE 0).i_direct_pointers k = (s.INODE_TABLE 0).i_direct_pointers k := by
    intro k; rw [hs1]; simp [FS.set_inode]
  have hdisk : s1.disk = s.disk := by rw [hs1]; rfl
  have hl : list_blocks s1 0 0 INODE_DIRECT_POINTERS = (0, []) := by
    show list_blocks s1 0 0 (12 + 1) = _
    unfold list_blocks
    rw [hptr 0, if_neg hp0, hdisk, hf.root_d0, disk_read_ok _ _ hT]
    simp only []
    rw [list_block_empty _ _ hz, list_blocks_zero s1 0 12 (0 + 1)
      (fun k h1 h2 => by rw [hptr k]; exact hrest k h1 h2)]
    rfl
  rw [hl]

/-- C27 (a fresh filesystem lists empty).  On an unmounted device of `N` blocks,
`8 ≤ N ≤ 32768`: `fs_format` returns 0, `fs_mount` right after it returns 0, and
`fs_list("/")` then returns 0 and prints no line (with any fuel of at least 1 for the
size computation). -/
theorem fresh_list_empty (init : FS) (hm : init.MOUNT_FLAG = false) (h8 : 8 ≤ init.disk.size)
    (h32 : init.disk.size ≤ 32768) (fuel : Nat) :
    (fs_format init).1 = 0 ∧ (fs_mount (fs_format init).2).1 = 0 ∧
    (fs_list (fuel + 1) [SLASH] (fs_mount (fs_format init).2).2).map (fun r => (r.1, r.2.1)) =
      some (0, []) := by
  obtain ⟨h1, h2, hfresh⟩ := fresh_ok init hm h8 h32
  exact ⟨h1, h2, fresh_list_root _ _ hfresh fuel⟩

/-- C27, witness: a device of 8 zeroed blocks. -/
theorem fresh_list_empty_witness :
    (fs_format (zero_device 8)).1 = 0 ∧ (fs_mount (fs_format (zero_device 8)).2).1 = 0 ∧
    (fs_list 1 [SLASH] (fs_mount (fs_format (zero_device 8)).2).2).map (fun r => (r.1, r.2.1)) =
      some (0, []) :=
  fresh_list_empty (zero_device 8) rfl (by decide) (by decide) 0

/-- C26 (code_bug), at the failing input: on a fresh device of 1024 blocks
`fs_create("/a/", 0)` returns 0 and makes the regular file `a` (inode 1), while
`fs_create("/a//", 0)`, the same path with the last `/` repeated, returns -1 and leaves a
directory `a` (inode 1) behind: after the token `a` the rest of the string is `/`, not
empty, so the component is not taken for the last one. -/
theorem create_trailing_slash_differs :
    (fs_create (ascii "/a/") false (fresh_fs (zero_device 1024))).1 = 0 ∧
    resolve (fs_create (ascii "/a/") false (fresh_fs (zero_device 1024))).2
      (path_tokens (path_copy (ascii "/a"))) ROOT_DIR_INODE = some 1 ∧
    ((fs_create (ascii "/a/") false (fresh_fs (zero_device 1024))).2.INODE_TABLE 1).i_is_directory
      = 0 ∧
    (fs_create (ascii "/a//") false (fresh_fs (zero_device 1024))).1 = -1 ∧
    resolve (fs_create (ascii "/a//") false (fresh_fs (zero_device 1024))).2
      (path_tokens (path_copy (ascii "/a"))) ROOT_DIR_INODE = some 1 ∧
    ((fs_create (ascii "/a//") false (fresh_fs (zero_device 1024))).2.INODE_TABLE 1).i_is_directory
      = 1 := by
  decide!

/-- C30 (code_bug), at the failing input: on a fresh device of 1024 blocks, after
`fs_write("/a", "x", 1, 0)`, `fs_unmount()` and `fs_mount()`, a read of `/a` returns the
byte `x` (120); then `fs_write("/b", "y", 1, 0)` returns 0 and takes inode 1 and data
block 20, the inode and the block of `/a`, for the new file: afterwards both `/a` and `/b`
resolve to inode 1 and the read of `/a` returns the byte `y` (121). -/
theorem remount_write_clobbers_other_file :
    (fs_read (ascii "/a") (fun _ => 0) 1 0
      (fs_mount (fs_unmount (fs_write (ascii "/a") (fun _ => 120) 1 false
        (fresh_fs (zero_device 1024))).2)).2).1 = 1 ∧
    (fs_read (ascii "/a") (fun _ => 0) 1 0
      (fs_mount (fs_unmount (fs_write (ascii "/a") (fun _ => 120) 1 false
        (fresh_fs (zero_device 1024))).2)).2).2 0 = 120 ∧
    (fs_write (ascii "/b") (fun _ => 121) 1 false
      (fs_mount (fs_unmount (fs_write (ascii "/a") (fun _ => 120) 1 false
        (fresh_fs (zero_device 1024))).2)).2).1 = 0 ∧
    resolve (fs_write (ascii "/b") (fun _ => 121) 1 false
      (fs_mount (fs_unmount (fs_write (ascii "/a") (fun _ => 120) 1 false
        (fresh_fs (zero_device 1024))).2)).2).2
      (path_tokens (path_copy (ascii "/a"))) ROOT_DIR_INODE = some 1 ∧
    resolve (fs_write (ascii "/b") (fun _ => 121) 1 false
      (fs_mount (fs_unmount (fs_write (ascii "/a") (fun _ => 120) 1 false
        (fresh_fs (zero_device 1024))).2)).2).2
      (path_tokens (path_copy (ascii "/b"))) ROOT_DIR_INODE = some 1 ∧
    (fs_read (ascii "/a") (fun _ => 0) 1 0
      (fs_write (ascii "/b") (fun _ => 121) 1 false
        (fs_mount (fs_unmount (fs_write (ascii "/a") (fun _ => 120) 1 false
          (fresh_fs (zero_device 1024))).2)).2).2).1 = 1 ∧
    (fs_read (ascii "/a") (fun _ => 0) 1 0
      (fs_write (ascii "/b") (fun _ => 121) 1 false
        (fs_mount (fs_unmount (fs_write (ascii "/a") (fun _ => 120) 1 false
          (fresh_fs (zero_device 1024))).2)).2).2).2 0 = 121 := by
  decide!

/-- C21 (code_bug), at the failing input: on a fresh device of 1024 blocks (the data
region starts at block 19), session 1 creates the empty files `/x` and `/y` and writes
`13*4096 + 1` bytes to `/f` (inode 3, indirect block 33).  After `fs_unmount()` and
`fs_mount()` the block bitmap is the one of `fs_format`, so a write of `13*4096` bytes to
`/x` takes the blocks 20..32 and a write of the four bytes `1 0 0 0` to `/y` takes block
33, the indirect block of `/f`, as a data block: slot 0 of the indirect block of `/f` now
reads 1, and `write_block_num` gives block 1 for the logical block 13 of `/f`.  The append
of one byte `0` to `/f` (at offset `13*4096 + 1`) returns 0 and stores the byte at offset 1
of device block 1, the block bitmap block, which held 255 there: an `fs_write` has written
a block below `s_data_blocks_start`.  All calls return 0. -/
theorem write_reaches_header_block :
    header_session1.1 = 0 ∧ header_remount.1 = 0 ∧ header_write_x.1 = 0 ∧
    header_write_y.1 = 0 ∧
    header_write_y.2.s_data_blocks_start = 19 ∧
    (header_write_y.2.INODE_TABLE 3).i_size = 13 * 4096 + 1 ∧
    (header_write_y.2.INODE_TABLE 3).i_indirect_pointer = 33 ∧
    (header_write_y.2.INODE_TABLE 2).i_direct_pointers 0 = 33 ∧
    get_pointer (header_write_y.2.disk.blocks 33) 0 = 1 ∧
    (write_block_num 3 13 header_write_y.2).1 = some 1 ∧
    byte_at (header_write_y.2.disk.blocks 1) 1 = 255 ∧
    header_append_f.1 = 0 ∧
    byte_at (header_append_f.2.disk.blocks 1) 1 = 0 := by
  decide!

/-! ## The pointers that a write does not touch -/

/-- One block of the `while` loop of `fs_write`: the pointers of the other logical
blocks of the file are as before. -/
theorem write_block_num_other (s : FS) (f i : Nat) (hok : FileOK s f) (hi : i < 1037)
    (hfree : (if file_ptr s f i = 0 then 1 else 0) +
      (if 13 ≤ i ∧ (s.INODE_TABLE f).i_indirect_pointer = 0 then 1 else 0) ≤ free_blocks s) :
    ∃ b t, write_block_num f i s = (some b, t) ∧
      ∀ j, j < 1037 → j ≠ i → file_ptr t f j = file_ptr s f j := by
  by_cases h13 : i < 13
  · have hi2 : i < INODE_DIRECT_POINTERS := h13
    have hn : ¬ (13 ≤ i ∧ (s.INODE_TABLE f).i_indirect_pointer = 0) := by omega
    rw [if_neg hn] at hfree
    unfold write_block_num
    rw [if_pos hi2]
    by_cases h0 : (s.INODE_TABLE f).i_direct_pointers i = 0
    · have h0p : file_ptr s f i = 0 := by rw [file_ptr_direct s f i h13]; exact h0
      rw [if_pos h0]
      rw [if_pos h0p] at hfree
      obtain ⟨nb, e, r1, r2, r3, r4, r5⟩ := allocate_data_block_ok s (by omega)
      rw [e]
      simp only [if_neg r4]
      refine ⟨nb, _, rfl, ?_⟩
      intro j _ hji
      unfold file_ptr
      simp only [FS.set_inode, Inode.set_direct, if_true]
      by_cases hj13 : j < 13
      · simp only [if_pos hj13, if_neg hji]
      · simp only [if_neg hj13]
    · rw [if_neg h0]
      exact ⟨_, s, rfl, fun _ _ _ => rfl⟩
  · have hi3 : ¬ i < INODE_DIRECT_POINTERS := h13
    have hc : (13 ≤ i ∧ (s.INODE_TABLE f).i_indirect_pointer = 0) ↔
        (s.INODE_TABLE f).i_indirect_pointer = 0 := by
      constructor
      · exact fun h => h.2
      · exact fun h => ⟨by omega, h⟩
    simp only [hc] at hfree
    unfold write_block_num
    rw [if_neg hi3]
    obtain ⟨t, e1, tok, tg, tind, tptr, tdisk, tfree⟩ := ensure_indirect_ok s f hok (by omega)
    rw [e1]
    simp only []
    have hir := tok.ind tind
    have hrd : disk_read t.disk (t.INODE_TABLE f).i_indirect_pointer =
        some (t.disk.blocks (t.INODE_TABLE f).i_indirect_pointer) := by
      unfold disk_read
      rw [if_pos (lt_of_lt_of_le hir.2.1 tok.bc_le)]
    rw [hrd]
    simp only []
    have hi4 : ¬ (i - INODE_DIRECT_POINTERS ≥ MAX_POINTERS) := by
      unfold INODE_DIRECT_POINTERS MAX_POINTERS; omega
    rw [if_neg hi4]
    have hpt : file_ptr t f i =
        get_pointer (t.disk.blocks (t.INODE_TABLE f).i_indirect_pointer)
          (i - INODE_DIRECT_POINTERS) :=
      file_ptr_indirect t f i (by omega) tind
    rw [← hpt]
    have hps : file_ptr t f i = file_ptr s f i := tptr i hi
    by_cases h0 : file_ptr t f i = 0
    · rw [if_pos h0]
      have h0s : file_ptr s f i = 0 := by rw [← hps]; exact h0
      rw [if_pos h0s] at hfree
      obtain ⟨nb, e, r1, r2, r3, r4, r5⟩ := allocate_data_block_ok t (by omega)
      rw [e]
      simp only [if_neg r4]
      have hw : disk_write t.disk (t.INODE_TABLE f).i_indirect_pointer
          (set_pointer (t.disk.blocks (t.INODE_TABLE f).i_indirect_pointer)
            (i - INODE_DIRECT_POINTERS) nb) =
          some (t.disk.put (t.INODE_TABLE f).i_indirect_pointer
            (set_pointer (t.disk.blocks (t.INODE_TABLE f).i_indirect_pointer)
            (i - INODE_DIRECT_POINTERS) nb)) := by
        unfold disk_write
        rw [if_pos (lt_of_lt_of_le hir.2.1 tok.bc_le)]
      rw [hw]
      simp only []
      refine ⟨nb, _, rfl, ?_⟩
      intro j hj hji
      rw [← tptr j hj]
      unfold file_ptr
      by_cases hj13 : j < 13
      · simp only [if_pos hj13]
      · simp only [if_neg hj13, if_neg tind, Disk.put, if_true, get_pointer_set_pointer,
          INODE_DIRECT_POINTERS]
        have : j - 13 ≠ i - 13 := by omega
        rw [if_neg this]
    · rw [if_neg h0]
      exact ⟨_, t, rfl, fun j hj _ => tptr j hj⟩

/-- The `while` loop of `fs_write` on a file with sound block pointers, when it ends with
code 0: the pointers of the logical blocks outside the range of the write are as before,
and the indirect pointer is as before when the range ends within the direct blocks. -/
theorem write_loop_frame (f : Nat) (buf : Nat → Nat) (fuel : Nat) :
    ∀ (offset pos remaining : Nat) (s u : FS) (off1 : Nat), FileOK s f → remaining ≤ fuel →
      offset + remaining ≤ MAX_FILE_SIZE →
      write_loop f buf fuel offset pos remaining s = (0, off1, u) →
      (∀ j, j < 1037 → ¬ (offset / 4096 ≤ j ∧ j ≤ (offset + remaining - 1) / 4096) →
        file_ptr u f j = file_ptr s f j) ∧
      ((offset + remaining - 1) / 4096 < 13 →
        (u.INODE_TABLE f).i_indirect_pointer = (s.INODE_TABLE f).i_indirect_pointer) := by
  induction fuel with
  | zero =>
    intro offset pos remaining s u off1 hok hfuel _ h
    unfold write_loop at h
    injection h with h1 h2
    injection h2 with h2 h3
    subst h3
    exact ⟨fun _ _ _ => rfl, fun _ => rfl⟩
  | succ fuel ih =>
    intro offset pos remaining s u off1 hok hfuel hmax h
    unfold write_loop at h
    by_cases hr : remaining = 0
    · subst hr
      rw [if_pos rfl] at h
      injection h with h1 h2
      injection h2 with h2 h3
      subst h3
      exact ⟨fun _ _ _ => rfl, fun _ => rfl⟩
    · rw [if_neg hr] at h
      have hM : MAX_FILE_SIZE = 1037 * 4096 := by norm_num [MAX_FILE_SIZE]
      have hi : offset / 4096 < 1037 := by omega
      have hbs : offset / BLOCK_SIZE = offset / 4096 := rfl
      have hms : offset % BLOCK_SIZE = offset % 4096 := rfl
      have hB : BLOCK_SIZE = 4096 := rfl
      rw [hbs] at h
      have hneed : (if file_ptr s f (offset / 4096) = 0 then 1 else 0) +
          (if 13 ≤ offset / 4096 ∧ (s.INODE_TABLE f).i_indirect_pointer = 0 then 1 else 0) ≤
          free_blocks s := by
        by_contra hc
        have hfail := write_block_num_fail s f (offset / 4096) hok hi (by omega)
        generalize write_block_num f (offset / 4096) s = r at h hfail
        obtain ⟨o, t1⟩ := r
        simp only [] at hfail
        subst hfail
        simp at h
      obtain ⟨b, t1, e1, ok1, g1, hb, hb0, hdisk1, _, _, hind1⟩ :=
        write_block_num_ok s f (offset / 4096) hok hi hneed
      obtain ⟨b2, t2, e2, hother⟩ := write_block_num_other s f (offset / 4096) hok hi hneed
      rw [e1] at e2
      injection e2 with e2a e2b
      subst e2b
      rw [e1] at h
      simp only [] at h
      have hbr := ok1.ptr (offset / 4096) hi (by rw [hb]; exact hb0)
      rw [hb] at hbr
      have hblt : b < t1.disk.size := lt_of_lt_of_le hbr.2.1 ok1.bc_le
      have hrd : disk_read t1.disk b = some (t1.disk.blocks b) := by
        unfold disk_read; rw [if_pos hblt]
      rw [hrd] at h
      simp only [] at h
      rw [hms, hB] at h
      generalize hn : min remaining (4096 - offset % 4096) = n at h
      have hn1 : n ≤ remaining := by rw [← hn]; exact Nat.min_le_left _ _
      have hn2 : n ≤ 4096 - offset % 4096 := by rw [← hn]; exact Nat.min_le_right _ _
      have hn3 : 0 < n := by rw [← hn]; omega
      have hn4 : n = remaining ∨ n = 4096 - offset % 4096 := by
        rw [← hn]; rcases Nat.le_total remaining (4096 - offset % 4096) with h | h
        · left; exact Nat.min_eq_left h
        · right; exact Nat.min_eq_right h
      have hwr : ∀ blk, disk_write t1.disk b blk = some (t1.disk.put b blk) := by
        intro blk; unfold disk_write; rw [if_pos hblt]
      rw [hwr] at h
      simp only [] at h
      obtain ⟨w, hw⟩ : ∃ w, w = write_bytes (t1.disk.blocks b) (offset % 4096)
        (fun j => buf (pos + j)) n := ⟨_, rfl⟩
      rw [← hw] at h
      obtain ⟨hp2, ok2, g2⟩ := data_write_ok t1 f (offset / 4096) b w ok1 hi hb hb0
      obtain ⟨i1, i2⟩ := ih (offset + n) (pos + n) (remaining - n) _ u off1 ok2
        (by omega) (by omega) h
      have hsum : offset + n + (remaining - n) = offset + remaining := by omega
      rw [hsum] at i1 i2
      constructor
      · intro j hj hout
        by_cases hrem : remaining - n = 0
        · -- this was the last iteration
          have hu : u = ({ t1 with disk := t1.disk.put b w } : FS) := by
            cases fuel with
            | zero =>
              unfold write_loop at h
              injection h with _ h2
              injection h2 with _ h3
              exact h3.symm
            | succ m =>
              unfold write_loop at h
              rw [if_pos hrem] at h
              injection h with _ h2
              injection h2 with _ h3
              exact h3.symm
          rw [hu, hp2]
          exact hother j hj (by omega)
        · have hlo : (offset + n) / 4096 = offset / 4096 + 1 := by omega
          rw [i1 j hj (by omega), hp2]
          exact hother j hj (by omega)
      · intro hlast
        have h13 : offset / 4096 < 13 := by omega
        have hi1 : (t1.INODE_TABLE f).i_indirect_pointer =
            (s.INODE_TABLE f).i_indirect_pointer := hind1 h13
        have hi3 : (({ t1 with disk := t1.disk.put b w } : FS).INODE_TABLE f).i_indirect_pointer =
            (t1.INODE_TABLE f).i_indirect_pointer := rfl
        rw [i2 hlast, hi3, hi1]

/-- What a successful `fs_write` leaves alone, once its path walk has found the regular
file `f` without changing the state: the pointers of the logical blocks outside the range
of the write, and the indirect pointer when the range ends within the direct blocks. -/
theorem fs_write_frame (s : FS) (path : List Nat) (buf : Nat → Nat) (n : Nat)
    (append : Bool) (f : Nat) (hm : s.MOUNT_FLAG = true) (hh : path.head? = some SLASH)
    (hn : 1 ≤ n)
    (hres : write_resolve (path_tokens (path_copy path)) ROOT_DIR_INODE [SLASH] none s =
      (some (some f), s))
    (hok : FileOK s f)
    (hmax : (if append then (s.INODE_TABLE f).i_size else 0) + n ≤ MAX_FILE_SIZE)
    (hsucc : (fs_write path buf n append s).1 = 0) :
    (∀ j, j < 1037 →
      ¬ ((if append then (s.INODE_TABLE f).i_size else 0) / 4096 ≤ j ∧
        j ≤ ((if append then (s.INODE_TABLE f).i_size else 0) + n - 1) / 4096) →
      file_ptr (fs_write path buf n append s).2 f j = file_ptr s f j) ∧
    (((if append then (s.INODE_TABLE f).i_size else 0) + n - 1) / 4096 < 13 →
      ((fs_write path buf n append s).2.INODE_TABLE f).i_indirect_pointer =
        (s.INODE_TABLE f).i_indirect_pointer) := by
  generalize hoff : (if append then (s.INODE_TABLE f).i_size else 0) = off at *
  have hc : n ≠ 0 := by omega
  obtain ⟨r, off1, u, hwl⟩ : ∃ r off1 u, write_loop f buf n off 0 n s = (r, off1, u) :=
    ⟨_, _, _, rfl⟩
  have e : fs_write path buf n append s =
      if r ≠ 0 then (-1, u)
      else if off1 > (u.INODE_TABLE f).i_size then (0, set_size u f (off1 % U32))
      else (0, u) := by
    unfold fs_write
    simp only [hm, Bool.not_true, Bool.false_eq_true, if_false, hh, ne_eq, not_true_eq_false,
      if_neg hc, hres, hoff, hwl]
    rfl
  rw [e] at hsucc ⊢
  by_cases hr : r = 0
  swap
  · rw [if_pos hr] at hsucc
    exact absurd hsucc (by show ¬ ((-1 : Int) = 0); decide)
  subst hr
  have hnn : ¬ ((0 : Int) ≠ 0) := by simp
  rw [if_neg hnn]
  obtain ⟨i1, i2⟩ := write_loop_frame f buf n off 0 n s u off1 hok (le_refl _) hmax hwl
  by_cases hgt : off1 > (u.INODE_TABLE f).i_size
  · rw [if_pos hgt]
    constructor
    · intro j hj hout
      show file_ptr (set_size u f (off1 % U32)) f j = _
      rw [file_ptr_set_size]
      exact i1 j hj hout
    · intro hlast
      show ((set_size u f (off1 % U32)).INODE_TABLE f).i_indirect_pointer = _
      rw [set_size_indirect]
      exact i2 hlast
  · rw [if_neg hgt]
    exact ⟨i1, i2⟩

/-- C29 (block pointers after a write).  On a device of 8 to 32768 blocks, after
`fs_format`, `fs_mount` and `fs_create(path, 0)` of a single-component path in the root
directory (the file is inode 1), let `n` bytes be written at offset 0, `1 ≤ n ≤ 13*4096 +
1024*4096`, with one free data block for each block of the file and one more for the
indirect block, and let `b = ceil(n / 4096)`.  Then `fs_write` returns 0 and afterwards:
the size is `n`; `direct[i]` is non-zero exactly for `i < min(b, 13)`; the indirect pointer
is non-zero exactly when `b > 13`; when it is, slot `j` of the indirect block is non-zero
exactly for `j < b - 13`; and the block pointers are sound: every referenced block lies in
`[s_data_blocks_start, s_blocks_count)`, has its bit set, and no block is referenced
twice (the indirect block included). -/
theorem block_pointer_structure (init : FS) (path tok : List Nat) (buf : Nat → Nat) (n : Nat)
    (hm : init.MOUNT_FLAG = false) (h8 : 8 ≤ init.disk.size) (h32 : init.disk.size ≤ 32768)
    (hh : path.head? = some SLASH) (ht : path_tokens (path_copy path) = [(tok, [])])
    (hv : ∀ c ∈ tok, c ≠ 0 ∧ c < 256)
    (hn0 : 0 < n) (hn : n ≤ 13 * 4096 + 1024 * 4096)
    (hfree : (n + 4095) / 4096 + (if 13 * 4096 < n then 1 else 0) ≤
      init.disk.size - (3 + (init.disk.size + 63) / 64) - 1) :
    (fs_write path buf n false (fs_create path false (fresh_fs init)).2).1 = 0 ∧
    ((fs_write path buf n false (fs_create path false (fresh_fs init)).2).2.INODE_TABLE 1).i_size
      = n ∧
    (∀ i, i < 13 →
      (((fs_write path buf n false (fs_create path false
        (fresh_fs init)).2).2.INODE_TABLE 1).i_direct_pointers i ≠ 0 ↔ i < (n + 4095) / 4096)) ∧
    (((fs_write path buf n false (fs_create path false
        (fresh_fs init)).2).2.INODE_TABLE 1).i_indirect_pointer ≠ 0 ↔ 13 < (n + 4095) / 4096) ∧
    (13 < (n + 4095) / 4096 → ∀ j, j < 1024 →
      (get_pointer ((fs_write path buf n false (fs_create path false
          (fresh_fs init)).2).2.disk.blocks
        ((fs_write path buf n false (fs_create path false
          (fresh_fs init)).2).2.INODE_TABLE 1).i_indirect_pointer) j ≠ 0 ↔
        j < (n + 4095) / 4096 - 13)) ∧
    FileOK (fs_write path buf n false (fs_create path false (fresh_fs init)).2).2 1 := by
  obtain ⟨_, _, hfresh⟩ := fresh_ok init hm h8 h32
  obtain ⟨_, c2⟩ := create_in_fresh_root _ _ path tok hfresh hh ht
  have hM : MAX_FILE_SIZE = 13 * 4096 + 1024 * 4096 := rfl
  obtain ⟨u, w1, w2, w3, _⟩ := fresh_file_write _ _ path tok buf n c2 hv hh ht hn0
    (by rw [hM]; exact hn) hfree
  have hroot := c2.rootFile (valid_name_of tok hv)
  have hsucc : (fs_write path buf n false (fs_create path false (fresh_fs init)).2).1 = 0 := by
    rw [w1]
  obtain ⟨f1, f2⟩ := fs_write_frame _ path buf n false 1 c2.mounted hh hn0
    (hroot.write_resolve path ht) c2.fileOK
    (by simp only [Bool.false_eq_true, if_false]; rw [hM]; omega) hsucc
  simp only [Bool.false_eq_true, if_false, Nat.zero_div, Nat.zero_le, true_and, Nat.zero_add,
    c2.file_ptr_zero, c2.f_ind] at f1 f2
  rw [w1] at f1 f2 ⊢
  have hsz := set_size_size u 1 n
  have hpos : ∀ i, i < (n + 4095) / 4096 → file_ptr (set_size u 1 n) 1 i ≠ 0 := by
    intro i hi
    have := (w3 (4096 * i) (by omega)).1
    rw [Nat.mul_div_cancel_left i (by norm_num : 0 < 4096)] at this
    exact this
  have hzero : ∀ i, i < 1037 → (n + 4095) / 4096 ≤ i → file_ptr (set_size u 1 n) 1 i = 0 := by
    intro i hi hge
    exact f1 i hi (by omega)
  have hb : (n + 4095) / 4096 ≤ 1037 := by omega
  have hind : ((set_size u 1 n).INODE_TABLE 1).i_indirect_pointer ≠ 0 ↔
      13 < (n + 4095) / 4096 := by
    constructor
    · intro hne
      by_contra hc
      exact hne (f2 (by omega))
    · intro h13 hz
      have := hpos 13 h13
      unfold file_ptr at this
      rw [if_neg (by omega), if_pos hz] at this
      exact this rfl
  refine ⟨rfl, hsz, ?_, hind, ?_, w2.ok⟩
  · intro i hi
    rw [← file_ptr_direct (set_size u 1 n) 1 i hi]
    constructor
    · intro hne
      by_contra hc
      exact hne (hzero i (by omega) (by omega))
    · exact hpos i
  · intro h13 j hj
    have hne := hind.2 h13
    have e := file_ptr_indirect (set_size u 1 n) 1 (13 + j) (by omega) hne
    have e2 : 13 + j - 13 = j := by omega
    rw [e2] at e
    rw [← e]
    constructor
    · intro hp
      by_contra hc
      exact hp (hzero (13 + j) (by omega) (by omega))
    · intro hlt
      exact hpos (13 + j) (by omega)

/-- C29, witness: `13*4096 + 10 = 53258` bytes written to `/f` on a device of 1024 zeroed
blocks: the size is 53258, the indirect pointer is non-zero and slot 0 of the indirect
block is allocated. -/
theorem block_pointer_structure_witness :
    (fs_write (ascii "/f") (fun _ => 7) 53258 false
      (fs_create (ascii "/f") false (fresh_fs (zero_device 1024))).2).1 = 0 ∧
    ((fs_write (ascii "/f") (fun _ => 7) 53258 false
      (fs_create (ascii "/f") false (fresh_fs (zero_device 1024))).2).2.INODE_TABLE 1).i_size
      = 53258 ∧
    ((fs_write (ascii "/f") (fun _ => 7) 53258 false
      (fs_create (ascii "/f") false
        (fresh_fs (zero_device 1024))).2).2.INODE_TABLE 1).i_indirect_pointer ≠ 0 ∧
    get_pointer ((fs_write (ascii "/f") (fun _ => 7) 53258 false
        (fs_create (ascii "/f") false (fresh_fs (zero_device 1024))).2).2.disk.blocks
      ((fs_write (ascii "/f") (fun _ => 7) 53258 false
        (fs_create (ascii "/f") false
          (fresh_fs (zero_device 1024))).2).2.INODE_TABLE 1).i_indirect_pointer) 0 ≠ 0 :=
  have h := block_pointer_structure (zero_device 1024) (ascii "/f") (ascii "f") (fun _ => 7)
    53258 rfl (by decide) (by decide) (by decide) (by decide) (by decide) (by decide)
    (by decide) (by decide)
  ⟨h.1, h.2.1, h.2.2.2.1.2 (by decide), (h.2.2.2.2.1 (by decide) 0 (by decide)).2 (by decide)⟩

/-! ## The capacity of the root directory -/

theorem blocks_for_eq (k : Nat) :
    (k = 0 ∧ blocks_for k = 1) ∨ (0 < k ∧ blocks_for k = (k + 15) / 16) := by
  unfold blocks_for
  split_ifs with h
  · exact Or.inl ⟨h, rfl⟩
  · exact Or.inr ⟨by omega, rfl⟩

theorem blocks_for_succ (k : Nat) : blocks_for (k + 1) = (k + 16) / 16 := by
  unfold blocks_for
  rw [if_neg (by omega)]

theorem nth_name_inj (j k : Nat) (h : nth_name j = nth_name k) : j = k := by
  unfold nth_name at h
  simp only [List.cons.injEq, and_true] at h
  omega

theorem nth_name_valid (k : Nat) (hk : k < 4000) : valid_name (nth_name k) := by
  unfold valid_name nth_name
  refine ⟨by simp, ?_⟩
  intro c hc
  simp only [List.mem_cons, List.mem_singleton, List.not_mem_nil, or_false] at hc
  omega

theorem name_of_nth_name (k : Nat) : name_of (nth_name k) = nth_name k := rfl

/-- The path `/ab` has the one token `ab`. -/
theorem path_tokens_nth_name (k : Nat) :
    path_tokens (path_copy (SLASH :: nth_name k)) = [(nth_name k, [])] := by
  have h1 : (97 + k / 26 == SLASH) = false := by
    unfold SLASH; simp only [beq_eq_false_iff_ne, ne_eq]; omega
  have h2 : (97 + k % 26 == SLASH) = false := by
    unfold SLASH; simp only [beq_eq_false_iff_ne, ne_eq]; omega
  have h3 : (SLASH == SLASH) = true := by simp
  simp [path_tokens, path_copy, nth_name, tokens_aux, strtok_r, List.dropWhile, List.takeWhile,
    h1, h2, h3, bne]

theorem dir_lookup_none (d : Disk) (ino : Inode) (name : List Nat) (n dp : Nat)
    (h : ∀ x, dp ≤ x → x < dp + n → ino.i_direct_pointers x = 0 ∨
      (ino.i_direct_pointers x < d.size ∧
        find_entry (d.blocks (ino.i_direct_pointers x)) name 0 DIRENTS_PER_BLOCK = none)) :
    dir_lookup d ino name dp n = Lookup.not_found := by
  induction n generalizing dp with
  | zero => rfl
  | succ n ih =>
    unfold dir_lookup
    have ih1 := ih (dp + 1) (fun x h1 h2 => h x (by omega) (by omega))
    rcases h dp (le_refl _) (by omega) with h0 | ⟨hlt, hfe⟩
    · rw [if_pos h0]; exact ih1
    · by_cases h0 : ino.i_direct_pointers dp = 0
      · rw [if_pos h0]; exact ih1
      · rw [if_neg h0, disk_read_ok d _ hlt]
        simp only []
        rw [hfe]
        exact ih1

theorem find_slot_none (blk : Block) (n i : Nat)
    (h : ∀ x, i ≤ x → x < i + n → entry_inode blk x ≠ 0) : find_slot blk i n = none := by
  induction n generalizing i with
  | zero => rfl
  | succ n ih =>
    unfold find_slot
    rw [if_neg (h i (le_refl _) (by omega))]
    exact ih (i + 1) (fun x h1 h2 => h x (by omega) (by omega))

/-- The loop of `add_entry` passes over directory blocks without a free slot. -/
theorem add_entry_skip (parent ni : Nat) (name : List Nat) (s : FS) (m : Nat) :
    ∀ dp n,
      (∀ x, dp ≤ x → x < dp + m →
        (s.INODE_TABLE parent).i_direct_pointers x ≠ 0 ∧
        (s.INODE_TABLE parent).i_direct_pointers x < s.disk.size ∧
        find_slot (s.disk.blocks ((s.INODE_TABLE parent).i_direct_pointers x)) 0
          DIRENTS_PER_BLOCK = none) →
      add_entry parent ni name dp (m + n) s = add_entry parent ni name (dp + m) n s := by
  induction m with
  | zero => intro dp n _; simp
  | succ m ih =>
    intro dp n h
    obtain ⟨h0, hlt, hfs⟩ := h dp (le_refl _) (by omega)
    have e : m + 1 + n = (m + n) + 1 := by omega
    rw [e]
    conv_lhs => unfold add_entry
    rw [if_neg h0, disk_read_ok _ _ hlt]
    simp only []
    rw [hfs]
    simp only []
    rw [ih (dp + 1) n (fun x h1 h2 => h x (by omega) (by omega))]
    have e2 : dp + 1 + m = dp + (m + 1) := by omega
    rw [e2]

/-- The loop of `add_entry` at a directory block with a free slot. -/
theorem add_entry_here (parent ni : Nat) (name : List Nat) (s : FS) (dp n i p : Nat)
    (hp : (s.INODE_TABLE parent).i_direct_pointers dp = p) (h0 : p ≠ 0) (hlt : p < s.disk.size)
    (hslot : find_slot (s.disk.blocks p) 0 DIRENTS_PER_BLOCK = some i) :
    add_entry parent ni name dp (n + 1) s =
      (true, { s with disk := s.disk.put p (set_entry (s.disk.blocks p) i ni name) }) := by
  unfold add_entry
  rw [hp, if_neg h0, disk_read_ok _ _ hlt]
  simp only []
  rw [hslot]
  simp only []
  rw [disk_write_ok _ _ _ hlt]

/-- The loop of `add_entry` at an unused direct pointer: a new directory block. -/
theorem add_entry_new (parent ni : Nat) (name : List Nat) (s : FS) (dp n nb : Nat)
    (hp : (s.INODE_TABLE parent).i_direct_pointers dp = 0)
    (hfc : first_clear s.BLOCK_BITMAP s.s_data_blocks_start s.s_blocks_count = some nb)
    (hlt : nb < s.disk.size) :
    add_entry parent ni name dp (n + 1) s =
      (true,
        { s with
          BLOCK_BITMAP := BITMAP_SET s.BLOCK_BITMAP nb
          INODE_TABLE := fun k => if k = parent then
            { ((s.INODE_TABLE parent).set_direct dp nb) with
              i_size := ((s.INODE_TABLE parent).i_size + BLOCK_SIZE) % U32 }
            else s.INODE_TABLE k
          disk := s.disk.put nb (set_entry zero_block 0 ni name) }) := by
  unfold add_entry
  rw [if_pos hp, hfc]
  simp only [FS.set_inode]
  rw [disk_write_ok _ _ _ hlt]

theorem RootDir.congr {s t : FS} {N k : Nat} (h : RootDir s N k) (hd : t.disk = s.disk)
    (hsb : t.SUPERBLOCK = s.SUPERBLOCK) (hbb : t.BLOCK_BITMAP = s.BLOCK_BITMAP)
    (hroot : t.INODE_TABLE 0 = s.INODE_TABLE 0) : RootDir t N k := by
  refine ⟨?_, ?_, ?_, ?_, ?_, ?_, ?_⟩
  · rw [hd]; exact h.dsize
  · rw [FS.bc_congr hsb]; exact h.bc
  · rw [FS.ds_congr hsb]; exact h.ds
  · rw [hbb]; exact h.bbits
  · rw [hroot]; exact h.ptrs
  · rw [hd]; exact h.inodes
  · rw [hd]; exact h.names

/-- The fresh filesystem is the root directory with no file created yet. -/
theorem Fresh.rootChildren {s : FS} {N : Nat} (h : Fresh s N) : RootChildren s N 0 := by
  have hb : blocks_for 0 = 1 := rfl
  refine ⟨h.mounted, h.ic, ?_, h.root_dir, ⟨h.dsize, h.bc, h.ds, ?_, ?_, ?_, ?_⟩⟩
  · intro j
    rw [h.ibits]
    simp
  · intro j
    rw [h.bbits, hb]
    simp only [decide_eq_decide]
    omega
  · intro dp hdp
    rw [hb]
    by_cases h0 : dp = 0
    · subst h0
      rw [h.root_d0]
      simp
    · rw [h.root_dn dp (by omega) hdp, if_neg (by omega)]
  · intro b i hbl _
    rw [hb] at hbl
    have : b = 0 := by omega
    subst this
    rw [Nat.add_zero, h.rootblk, entry_inode_root_dir_block, if_neg (by omega)]
  · intro b i _ _ hlt
    omega

/-- A name that differs from the names of the files in the root directory is not found
there. -/
theorem RootDir.lookup_new {s : FS} {N k : Nat} (h : RootDir s N k) (hk : k ≤ 208)
    (hN : 209 ≤ N) (hN32 : N ≤ 32768) (name : List Nat)
    (hname : ∀ j, j < k → nth_name j ≠ name) :
    dir_lookup s.disk (s.INODE_TABLE 0) name 0 INODE_DIRECT_POINTERS = Lookup.not_found := by
  have hbk : blocks_for k ≤ 13 := by
    rcases blocks_for_eq k with ⟨_, hb⟩ | ⟨_, hb⟩ <;> omega
  apply dir_lookup_none
  intro x _ hx
  have hx13 : x < 13 := by unfold INODE_DIRECT_POINTERS at hx; omega
  rw [h.ptrs x hx13]
  by_cases hxb : x < blocks_for k
  · right
    rw [if_pos hxb, h.dsize]
    refine ⟨by omega, ?_⟩
    apply find_entry_none
    intro i _ hi hc
    have hi16 : i < 16 := by unfold DIRENTS_PER_BLOCK at hi; omega
    rw [h.inodes x i hxb hi16] at hc
    by_cases hlt : 16 * x + i < k
    · exact hname _ hlt ((h.names x i hxb hi16 hlt).symm.trans hc.2)
    · rw [if_neg hlt] at hc
      exact hc.1 rfl
  · left
    rw [if_neg hxb]

/-- Inserting the entry of the next file into the root directory, while it holds fewer
than 208 entries: the entry goes to the first free slot, in a new block when the blocks
so far are full. -/
theorem RootDir.insert {t : FS} {N k : Nat} (h : RootDir t N k) (hk : k < 208)
    (hN : 209 ≤ N) (hN32 : N ≤ 32768) :
    ∃ u, add_entry 0 (k + 1) (nth_name k) 0 INODE_DIRECT_POINTERS t = (true, u) ∧
      u.MOUNT_FLAG = t.MOUNT_FLAG ∧ u.SUPERBLOCK = t.SUPERBLOCK ∧
      u.INODE_BITMAP = t.INODE_BITMAP ∧
      (u.INODE_TABLE 0).i_is_directory = (t.INODE_TABLE 0).i_is_directory ∧
      RootDir u N (k + 1) := by
  have hsucc := blocks_for_succ k
  by_cases hroom : k < 16 * blocks_for k
  · -- a free slot in the last block
    have hb1 : blocks_for (k + 1) = blocks_for k := by
      rcases blocks_for_eq k with ⟨_, hb⟩ | ⟨_, hb⟩ <;> omega
    have hb0 : k / 16 < blocks_for k := by omega
    have hb13 : blocks_for k ≤ 13 := by
      rcases blocks_for_eq k with ⟨_, hb⟩ | ⟨_, hb⟩ <;> omega
    have e13 : INODE_DIRECT_POINTERS = k / 16 + ((12 - k / 16) + 1) := by
      unfold INODE_DIRECT_POINTERS; omega
    have hskip := add_entry_skip 0 (k + 1) (nth_name k) t (k / 16) 0 ((12 - k / 16) + 1)
      (fun x _ hx => by
        have hxb : x < blocks_for k := by omega
        rw [h.ptrs x (by omega), if_pos hxb, h.dsize]
        refine ⟨by omega, by omega, ?_⟩
        apply find_slot_none
        intro i _ hi
        have hi16 : i < 16 := by unfold DIRENTS_PER_BLOCK at hi; omega
        rw [h.inodes x i hxb hi16, if_pos (by omega)]
        omega)
    rw [Nat.zero_add] at hskip
    have hslot : find_slot (t.disk.blocks (3 + (N + 63) / 64 + k / 16)) 0 DIRENTS_PER_BLOCK =
        some (k % 16) := by
      apply find_slot_first
      · omega
      · unfold DIRENTS_PER_BLOCK; omega
      · rw [h.inodes _ _ hb0 (by omega), if_neg (by omega)]
      · intro x _ hx
        rw [h.inodes _ _ hb0 (by omega), if_pos (by omega)]
        omega
    have hhere := add_entry_here 0 (k + 1) (nth_name k) t (k / 16) (12 - k / 16) (k % 16)
      (3 + (N + 63) / 64 + k / 16)
      (by rw [h.ptrs _ (by omega), if_pos hb0]) (by omega) (by rw [h.dsize]; omega) hslot
    have hadd := (congrArg (fun n => add_entry 0 (k + 1) (nth_name k) 0 n t) e13).trans
      (hskip.trans hhere)
    refine ⟨_, hadd, rfl, rfl, rfl, rfl, ?_⟩
    refine ⟨h.dsize, h.bc, h.ds, ?_, ?_, ?_, ?_⟩
    · rw [hb1]; exact h.bbits
    · rw [hb1]; exact h.ptrs
    · intro b i hb hi
      rw [hb1] at hb
      show entry_inode (if 3 + (N + 63) / 64 + b = 3 + (N + 63) / 64 + k / 16 then _
        else t.disk.blocks _) i = _
      by_cases hbb : b = k / 16
      · subst hbb
        rw [if_pos rfl, entry_inode_set_entry]
        by_cases hii : i = k % 16
        · rw [if_pos hii, if_pos (by omega)]
          rw [Nat.mod_eq_of_lt (by omega)]
          omega
        · rw [if_neg hii, h.inodes _ _ hb hi]
          by_cases hlt : 16 * (k / 16) + i < k
          · rw [if_pos hlt, if_pos (by omega)]
          · rw [if_neg hlt, if_neg (by omega)]
      · rw [if_neg (by omega), h.inodes _ _ hb hi]
        by_cases hlt : 16 * b + i < k
        · rw [if_pos hlt, if_pos (by omega)]
        · rw [if_neg hlt, if_neg (by omega)]
    · intro b i hb hi hlt
      rw [hb1] at hb
      show entry_name (if 3 + (N + 63) / 64 + b = 3 + (N + 63) / 64 + k / 16 then _
        else t.disk.blocks _) i = _
      by_cases hbb : b = k / 16
      · subst hbb
        rw [if_pos rfl]
        by_cases hii : i = k % 16
        · subst hii
          rw [entry_name_set_entry_same _ _ _ _ (nth_name_valid k (by omega))]
          congr 1
          omega
        · rw [entry_name_set_entry_other _ _ _ _ _ hii]
          exact h.names _ _ hb hi (by omega)
      · rw [if_neg (by omega)]
        exact h.names _ _ hb hi (by omega)
  · -- the blocks so far are full: a new block
    have hb1 : blocks_for (k + 1) = blocks_for k + 1 := by
      rcases blocks_for_eq k with ⟨_, hb⟩ | ⟨_, hb⟩ <;> omega
    have hk16 : k = 16 * blocks_for k := by
      rcases blocks_for_eq k with ⟨_, hb⟩ | ⟨_, hb⟩ <;> omega
    have hb12 : blocks_for k ≤ 12 := by omega
    have e13 : INODE_DIRECT_POINTERS = blocks_for k + ((12 - blocks_for k) + 1) := by
      unfold INODE_DIRECT_POINTERS; omega
    have hskip := add_entry_skip 0 (k + 1) (nth_name k) t (blocks_for k) 0
      ((12 - blocks_for k) + 1)
      (fun x _ hx => by
        have hxb : x < blocks_for k := by omega
        rw [h.ptrs x (by omega), if_pos hxb, h.dsize]
        refine ⟨by omega, by omega, ?_⟩
        apply find_slot_none
        intro i _ hi
        have hi16 : i < 16 := by unfold DIRENTS_PER_BLOCK at hi; omega
        rw [h.inodes x i hxb hi16, if_pos (by omega)]
        omega)
    rw [Nat.zero_add] at hskip
    have hfc : first_clear t.BLOCK_BITMAP t.s_data_blocks_start t.s_blocks_count =
        some (3 + (N + 63) / 64 + blocks_for k) := by
      rw [h.ds, h.bc]
      apply first_clear_first
      · omega
      · omega
      · rw [h.bbits]; simp
      · intro j _ hj
        rw [h.bbits]; simp only [decide_eq_true_eq]; exact hj
    have hnew := add_entry_new 0 (k + 1) (nth_name k) t (blocks_for k) (12 - blocks_for k)
      (3 + (N + 63) / 64 + blocks_for k)
      (by rw [h.ptrs _ (by omega), if_neg (by omega)]) hfc (by rw [h.dsize]; omega)
    have hadd := (congrArg (fun n => add_entry 0 (k + 1) (nth_name k) 0 n t) e13).trans
      (hskip.trans hnew)
    refine ⟨_, hadd, rfl, rfl, rfl, ?_, ?_⟩
    · dsimp only []
      rw [if_pos rfl]
      rfl
    refine ⟨h.dsize, h.bc, h.ds, ?_, ?_, ?_, ?_⟩
    · intro j
      show BITMAP_TEST (BITMAP_SET t.BLOCK_BITMAP _) j = _
      rw [BITMAP_TEST_SET, h.bbits, hb1]
      by_cases hj : j = 3 + (N + 63) / 64 + blocks_for k
      · subst hj; simp
      · simp only [hj, decide_False, Bool.false_or, decide_eq_decide]
        omega
    · intro dp hdp
      dsimp only []
      rw [if_pos rfl, hb1]
      show (if dp = blocks_for k then _ else (t.INODE_TABLE 0).i_direct_pointers dp) = _
      by_cases hd : dp = blocks_for k
      · rw [if_pos hd, if_pos (by omega), hd]
      · rw [if_neg hd, h.ptrs dp hdp]
        by_cases hlt : dp < blocks_for k
        · rw [if_pos hlt, if_pos (by omega)]
        · rw [if_neg hlt, if_neg (by omega)]
    · intro b i hb hi
      rw [hb1] at hb
      show entry_inode (if 3 + (N + 63) / 64 + b = 3 + (N + 63) / 64 + blocks_for k then _
        else t.disk.blocks _) i = _
      by_cases hbb : b = blocks_for k
      · subst hbb
        rw [if_pos rfl, entry_inode_set_entry]
        by_cases hii : i = 0
        · rw [if_pos hii, if_pos (by omega), Nat.mod_eq_of_lt (by omega)]
          omega
        · rw [if_neg hii, if_neg (by omega)]
          exact entry_inode_zero i
      · rw [if_neg (by omega), h.inodes _ _ (by omega) hi, if_pos (by omega), if_pos (by omega)]
    · intro b i hb hi hlt
      rw [hb1] at hb
      show entry_name (if 3 + (N + 63) / 64 + b = 3 + (N + 63) / 64 + blocks_for k then _
        else t.disk.blocks _) i = _
      by_cases hbb : b = blocks_for k
      · subst hbb
        have hi0 : i = 0 := by omega
        subst hi0
        rw [if_pos rfl, entry_name_set_entry_same _ _ _ _ (nth_name_valid k (by omega))]
        congr 1
      · rw [if_neg (by omega)]
        exact h.names _ _ (by omega) hi (by omega)

/-- The branch of `fs_create` that makes a new regular file, once the inode scan has
found `ni`: the result is decided by the loop that inserts the directory entry, which
starts in a state `s3` that differs from `s` in the bit and the table entry of `ni`. -/
theorem create_node_file (s : FS) (parent ni : Nat) (name : List Nat)
    (hino : first_clear s.INODE_BITMAP 0 s.s_inodes_count = some ni) :
    ∃ s3, (∀ b s4, add_entry parent ni name 0 INODE_DIRECT_POINTERS s3 = (b, s4) →
        create_node s parent name false = (if b then some ni else none, s4)) ∧
      s3.MOUNT_FLAG = s.MOUNT_FLAG ∧ s3.SUPERBLOCK = s.SUPERBLOCK ∧
      s3.BLOCK_BITMAP = s.BLOCK_BITMAP ∧ s3.INODE_BITMAP = BITMAP_SET s.INODE_BITMAP ni ∧
      s3.disk = s.disk ∧ ∀ j, j ≠ ni → s3.INODE_TABLE j = s.INODE_TABLE j := by
  have e : create_node s parent name false =
      (match add_entry parent ni name 0 INODE_DIRECT_POINTERS
          ((({ s with INODE_BITMAP := BITMAP_SET s.INODE_BITMAP ni } : FS).set_inode ni
              { zero_inode with i_is_directory := 0 }).set_inode ni
            { ((({ s with INODE_BITMAP := BITMAP_SET s.INODE_BITMAP ni } : FS).set_inode ni
              { zero_inode with i_is_directory := 0 }).INODE_TABLE ni) with i_size := 0 }) with
        | (true, s4) => (some ni, s4)
        | (false, s4) => (none, s4)) := by
    unfold create_node
    rw [hino]
    rfl
  have key : ∀ s3 : FS,
      create_node s parent name false =
        (match add_entry parent ni name 0 INODE_DIRECT_POINTERS s3 with
          | (true, s4) => (some ni, s4)
          | (false, s4) => (none, s4)) →
      ∀ b s4, add_entry parent ni name 0 INODE_DIRECT_POINTERS s3 = (b, s4) →
        create_node s parent name false = (if b then some ni else none, s4) := by
    intro s3 e3 b s4 hb
    rw [e3, hb]
    cases b <;> rfl
  refine ⟨_, key _ e, rfl, rfl, rfl, rfl, rfl, fun j hj => ?_⟩
  simp only [FS.set_inode, if_neg hj]

/-- Creating the next file in the root directory that holds fewer than 208 files. -/
theorem RootChildren.create_next {s : FS} {N k : Nat} (h : RootChildren s N k) (hk : k < 208)
    (hN : 209 ≤ N) (hN32 : N ≤ 32768) :
    (fs_create (SLASH :: nth_name k) false s).1 = 0 ∧
      RootChildren (fs_create (SLASH :: nth_name k) false s).2 N (k + 1) := by
  have hlook := h.dir.lookup_new (by omega) hN hN32 (nth_name k)
    (fun j hj hc => by have := nth_name_inj _ _ hc; omega)
  have hino : first_clear s.INODE_BITMAP 0 s.s_inodes_count = some (k + 1) := by
    rw [h.ic]
    apply first_clear_first
    · omega
    · omega
    · rw [h.ibits]; simp
    · intro j _ hj
      rw [h.ibits]; simp only [decide_eq_true_eq]; omega
  have hdir : (s.INODE_TABLE 0).i_is_directory ≠ 0 := by rw [h.root_dir]; omega
  have e : fs_create (SLASH :: nth_name k) false s =
      fs_create_loop (fun p s => fs_create_fuel 1 p true s) false [(nth_name k, [])] 0 s := by
    show fs_create_body _ _ false s = _
    unfold fs_create_body
    simp only [h.mounted, Bool.not_true, Bool.false_eq_true, if_false, List.head?_cons, ne_eq,
      not_true_eq_false, path_tokens_nth_name, ROOT_DIR_INODE]
  obtain ⟨s3, hcn, hm3, hsb3, hbb3, hib3, hd3, ht3⟩ :=
    create_node_file s 0 (k + 1) (nth_name k) hino
  have hroot3 : s3.INODE_TABLE 0 = s.INODE_TABLE 0 := ht3 0 (by omega)
  obtain ⟨u, hadd, hmu, hsbu, hibu, hdiru, hru⟩ :=
    (h.dir.congr hd3 hsb3 hbb3 hroot3).insert hk hN hN32
  have hc := hcn true u hadd
  simp only [if_true] at hc
  rw [e, fs_create_loop_last _ _ _ _ _ hdir (by rw [name_of_nth_name]; exact hlook),
    name_of_nth_name, hc]
  refine ⟨rfl, ⟨?_, ?_, ?_, ?_, hru⟩⟩
  · show u.MOUNT_FLAG = true
    rw [hmu, hm3]; exact h.mounted
  · show u.s_inodes_count = N
    unfold FS.s_inodes_count
    rw [hsbu, hsb3]; exact h.ic
  · intro j
    show BITMAP_TEST u.INODE_BITMAP j = _
    rw [hibu, hib3, BITMAP_TEST_SET, h.ibits]
    by_cases hj : j = k + 1
    · subst hj; simp
    · simp only [hj, decide_False, Bool.false_or, decide_eq_decide]
      omega
  · show (u.INODE_TABLE 0).i_is_directory = 1
    rw [hdiru, hroot3]; exact h.root_dir

/-- Creating one more file in the root directory that holds 208 files fails: no block of
the directory has a free slot and all 13 direct pointers are in use. -/
theorem RootChildren.create_full {s : FS} {N : Nat} (h : RootChildren s N 208)
    (hN : 210 ≤ N) (hN32 : N ≤ 32768) :
    (fs_create (SLASH :: nth_name 208) false s).1 = -1 := by
  have hlook := h.dir.lookup_new (le_refl _) (by omega) hN32 (nth_name 208)
    (fun j hj hc => by have := nth_name_inj _ _ hc; omega)
  have hino : first_clear s.INODE_BITMAP 0 s.s_inodes_count = some 209 := by
    rw [h.ic]
    apply first_clear_first
    · omega
    · omega
    · rw [h.ibits]; simp
    · intro j _ hj
      rw [h.ibits]; simp only [decide_eq_true_eq]; omega
  have hdir : (s.INODE_TABLE 0).i_is_directory ≠ 0 := by rw [h.root_dir]; omega
  have e : fs_create (SLASH :: nth_name 208) false s =
      fs_create_loop (fun p s => fs_create_fuel 1 p true s) false [(nth_name 208, [])] 0 s := by
    show fs_create_body _ _ false s = _
    unfold fs_create_body
    simp only [h.mounted, Bool.not_true, Bool.false_eq_true, if_false, List.head?_cons, ne_eq,
      not_true_eq_false, path_tokens_nth_name, ROOT_DIR_INODE]
  obtain ⟨s3, hcn, hm3, hsb3, hbb3, hib3, hd3, ht3⟩ :=
    create_node_file s 0 209 (nth_name 208) hino
  have hroot3 : s3.INODE_TABLE 0 = s.INODE_TABLE 0 := ht3 0 (by omega)
  have h3 := h.dir.congr hd3 hsb3 hbb3 hroot3
  have hb : blocks_for 208 = 13 := rfl
  have hskip := add_entry_skip 0 209 (nth_name 208) s3 13 0 0
    (fun x _ hx => by
      have hxb : x < blocks_for 208 := by omega
      rw [h3.ptrs x (by omega), if_pos hxb, h3.dsize]
      refine ⟨by omega, by omega, ?_⟩
      apply find_slot_none
      intro i _ hi
      have hi16 : i < 16 := by unfold DIRENTS_PER_BLOCK at hi; omega
      rw [h3.inodes x i hxb hi16, if_pos (by omega)]
      omega)
  have hadd : add_entry 0 209 (nth_name 208) 0 INODE_DIRECT_POINTERS s3 = (false, s3) :=
    hskip.trans rfl
  have hc := hcn false s3 hadd
  simp only [Bool.false_eq_true, if_false] at hc
  rw [e, fs_create_loop_last _ _ _ _ _ hdir (by rw [name_of_nth_name]; exact hlook),
    name_of_nth_name, hc]

theorem create_many_succ (dir : List Nat) (n : Nat) (s : FS) :
    create_many dir (n + 1) s =
      ((create_many dir n s).1 &&
          decide ((fs_create (dir ++ nth_name n) false (create_many dir n s).2).1 = 0),
        (fs_create (dir ++ nth_name n) false (create_many dir n s).2).2) := rfl

/-- The first `n ≤ 208` creates in the root directory of the fresh filesystem all
return 0. -/
theorem create_many_root (s : FS) (N : Nat) (h : RootChildren s N 0) (hN : 209 ≤ N)
    (hN32 : N ≤ 32768) (n : Nat) (hn : n ≤ 208) :
    (create_many [SLASH] n s).1 = true ∧ RootChildren (create_many [SLASH] n s).2 N n := by
  induction n with
  | zero => exact ⟨rfl, h⟩
  | succ n ih =>
    obtain ⟨i1, i2⟩ := ih (by omega)
    obtain ⟨c1, c2⟩ := i2.create_next (by omega) hN hN32
    rw [create_many_succ]
    refine ⟨?_, c2⟩
    show ((create_many [SLASH] n s).1 &&
      decide ((fs_create (SLASH :: nth_name n) false (create_many [SLASH] n s).2).1 = 0)) = true
    rw [i1, c1]
    rfl

/-- C22 (directory capacity).  On a device of 210 to 32768 blocks, after `fs_format` and
`fs_mount`, the calls `fs_create("/aa", 0)`, `fs_create("/ab", 0)`, ... of 208 distinct
names all return 0, the 207th and the 208th among them, and the 209th call returns -1:
the root directory holds 208 children, not 206. -/
theorem root_holds_208_children (init : FS) (hm : init.MOUNT_FLAG = false)
    (h210 : 210 ≤ init.disk.size) (h32 : init.disk.size ≤ 32768) :
    (create_many [SLASH] 207 (fresh_fs init)).1 = true ∧
    (create_many [SLASH] 208 (fresh_fs init)).1 = true ∧
    (fs_create ([SLASH] ++ nth_name 208) false
      (create_many [SLASH] 208 (fresh_fs init)).2).1 = -1 := by
  obtain ⟨_, _, hfresh⟩ := fresh_ok init hm (by omega) h32
  have h0 := hfresh.rootChildren
  obtain ⟨a1, _⟩ := create_many_root _ _ h0 (by omega) h32 207 (by omega)
  obtain ⟨b1, b2⟩ := create_many_root _ _ h0 (by omega) h32 208 (le_refl _)
  exact ⟨a1, b1, b2.create_full h210 h32⟩

/-- C22, at a concrete input: a device of 256 zeroed blocks. -/
theorem root_holds_208_children_witness :
    (create_many [SLASH] 207 (fresh_fs (zero_device 256))).1 = true ∧
    (create_many [SLASH] 208 (fresh_fs (zero_device 256))).1 = true ∧
    (fs_create ([SLASH] ++ nth_name 208) false
      (create_many [SLASH] 208 (fresh_fs (zero_device 256))).2).1 = -1 :=
  root_holds_208_children (zero_device 256) rfl (by decide) (by decide)

/-! ## A directory that contains itself -/

/-- The example for the directory cycle, evaluated: the three calls return 0; afterwards
slot 0 of the root block is `a`, inode 1, and the block of inode 1 holds `.`, `..` and `b`,
all three with inode 1. -/
theorem cycle_facts :
    cycle_session1.1 = 0 ∧ cycle_remount.1 = 0 ∧ cycle_create.1 = 0 ∧
    cycle_create.2.MOUNT_FLAG = true ∧ cycle_create.2.disk.size = 1024 ∧
    (cycle_create.2.INODE_TABLE 0).i_is_directory = 1 ∧
    (cycle_create.2.INODE_TABLE 0).i_direct_pointers 0 = 19 ∧
    entry_inode (cycle_create.2.disk.blocks 19) 0 = 1 ∧
    entry_name_raw (cycle_create.2.disk.blocks 19) 0 = ascii "a" ∧
    (cycle_create.2.INODE_TABLE 1).i_is_directory = 1 ∧
    (cycle_create.2.INODE_TABLE 1).i_direct_pointers 0 = 20 ∧
    entry_inode (cycle_create.2.disk.blocks 20) 0 = 1 ∧
    entry_name_raw (cycle_create.2.disk.blocks 20) 0 = DOT ∧
    entry_inode (cycle_create.2.disk.blocks 20) 1 = 1 ∧
    entry_name_raw (cycle_create.2.disk.blocks 20) 1 = DOTDOT ∧
    entry_inode (cycle_create.2.disk.blocks 20) 2 = 1 ∧
    entry_name_raw (cycle_create.2.disk.blocks 20) 2 = ascii "b" ∧
    resolve cycle_create.2 [(ascii "a", [])] ROOT_DIR_INODE = some 1 := by
  decide!

/-- The slot loop of `calculate_directory_size` does not return when the first entry it
does not skip leads to a call that does not return. -/
theorem calc_children_diverges (self : Nat → FS → Option (Nat × FS)) (blk : Block) (k : Nat)
    (s : FS) (hk : entry_inode blk k ≠ 0)
    (hname : ¬ (entry_name_raw blk k = DOT ∨ entry_name_raw blk k = DOTDOT))
    (hself : self (entry_inode blk k) s = none) (n : Nat) :
    ∀ i total, i ≤ k → k < i + n →
      (∀ x, i ≤ x → x < k →
        entry_inode blk x = 0 ∨ entry_name_raw blk x = DOT ∨ entry_name_raw blk x = DOTDOT) →
      calc_children self blk i n total s = none := by
  induction n with
  | zero => intro i total h1 h2; omega
  | succ n ih =>
    intro i total h1 h2 hskip
    unfold calc_children
    by_cases hik : i = k
    · subst hik
      rw [if_pos hk, if_neg hname, hself]
    · have hrec := ih (i + 1) total (by omega) (by omega)
        (fun x hx1 hx2 => hskip x (by omega) hx2)
      rcases hskip i (le_refl _) (by omega) with h0 | hn
      · rw [if_neg (by rw [h0]; exact fun h => h rfl)]
        exact hrec
      · by_cases h0 : entry_inode blk i ≠ 0
        · rw [if_pos h0, if_pos hn]
          exact hrec
        · rw [if_neg h0]
          exact hrec

/-- The body of `calculate_directory_size` does not return when the slot loop over the
first block of the directory does not. -/
theorem calc_body_diverges (self : Nat → FS → Option (Nat × FS)) (d : Nat) (s : FS)
    (hdir : (s.INODE_TABLE d).i_is_directory ≠ 0)
    (hp : (s.INODE_TABLE d).i_direct_pointers 0 ≠ 0)
    (hlt : (s.INODE_TABLE d).i_direct_pointers 0 < s.disk.size)
    (hc : calc_children self (s.disk.blocks ((s.INODE_TABLE d).i_direct_pointers 0)) 0
      DIRENTS_PER_BLOCK 0 s = none) :
    calc_body self d s = none := by
  unfold calc_body
  rw [if_neg hdir]
  have e : calc_blocks self d 0 INODE_DIRECT_POINTERS 0 s = none := by
    show calc_blocks self d 0 (12 + 1) 0 s = none
    unfold calc_blocks
    rw [if_neg hp, disk_read_ok _ _ hlt]
    simp only []
    rw [hc]
  rw [e]

/-- In the example the computation of the size of inode 1 does not return, whatever the
nesting allowed: the entry `b` of inode 1 leads to inode 1 in the same state. -/
theorem cycle_inner_diverges (fuel : Nat) :
    calculate_directory_size fuel 1 cycle_create.2 = none := by
  obtain ⟨_, _, _, _, hsz, _, _, _, _, hd1, hp1, a0, n0, a1, n1, a2, n2, _⟩ := cycle_facts
  generalize cycle_create.2 = S at *
  induction fuel with
  | zero => rfl
  | succ fuel ih =>
    show calc_body (calculate_directory_size fuel) 1 S = none
    apply calc_body_diverges
    · rw [hd1]; decide
    · rw [hp1]; decide
    · rw [hp1, hsz]; decide
    · rw [hp1]
      apply calc_children_diverges _ _ 2
      · rw [a2]; decide
      · rw [n2]; decide
      · rw [a2]; exact ih
      · omega
      · unfold DIRENTS_PER_BLOCK; omega
      · intro x _ hx
        have hx01 : x = 0 ∨ x = 1 := by omega
        rcases hx01 with h | h
        · subst h; exact Or.inr (Or.inl n0)
        · subst h; exact Or.inr (Or.inr n1)

/-- C31 (termination of directory traversal).  On a device of 1024 zeroed blocks:
`fs_format`, `fs_mount`, `fs_create("/a", 1)`, `fs_unmount`, `fs_mount`,
`fs_create("/a/b", 1)`.  All calls return 0; the second create takes inode 1 and the
block of `/a` again, because the bitmaps read at the second mount are those of
`fs_format`, and leaves the directory inode 1 with an entry `b` for inode 1.  Then
neither `calculate_directory_size(0)` nor `fs_list("/")` nor `fs_list("/a")` returns
within any number of nested calls. -/
theorem remount_create_makes_cycle :
    cycle_session1.1 = 0 ∧ cycle_remount.1 = 0 ∧ cycle_create.1 = 0 ∧
    entry_inode (cycle_create.2.disk.blocks
      ((cycle_create.2.INODE_TABLE 1).i_direct_pointers 0)) 2 = 1 ∧
    entry_name_raw (cycle_create.2.disk.blocks
      ((cycle_create.2.INODE_TABLE 1).i_direct_pointers 0)) 2 = ascii "b" ∧
    (∀ fuel, calculate_directory_size fuel 0 cycle_create.2 = none) ∧
    (∀ fuel, fs_list fuel (ascii "/") cycle_create.2 = none) ∧
    (∀ fuel, fs_list fuel (ascii "/a") cycle_create.2 = none) := by
  obtain ⟨r1, r2, r3, hm, hsz, hd0, hp0, b0, bn0, hd1, hp1, a0, n0, a1, n1, a2, n2, hres⟩ :=
    cycle_facts
  have hin := cycle_inner_diverges
  refine ⟨r1, r2, r3, by rw [hp1]; exact a2, by rw [hp1]; exact n2, ?_⟩
  generalize cycle_create.2 = S at *
  have hroot : ∀ fuel, calculate_directory_size fuel 0 S = none := by
    intro fuel
    cases fuel with
    | zero => rfl
    | succ fuel =>
      show calc_body (calculate_directory_size fuel) 0 S = none
      apply calc_body_diverges
      · rw [hd0]; decide
      · rw [hp0]; decide
      · rw [hp0, hsz]; decide
      · rw [hp0]
        apply calc_children_diverges _ _ 0
        · rw [b0]; decide
        · rw [bn0]; decide
        · rw [b0]; exact hin fuel
        · omega
        · unfold DIRENTS_PER_BLOCK; omega
        · intro x _ hx; omega
  refine ⟨hroot, ?_, ?_⟩
  · intro fuel
    unfold fs_list
    have ht : path_tokens (path_copy (ascii "/")) = [] := by decide
    have hh : (ascii "/").head? = some SLASH := by decide
    have hd : (S.INODE_TABLE ROOT_DIR_INODE).i_is_directory ≠ 0 := by
      unfold ROOT_DIR_INODE; rw [hd0]; decide
    rw [hm, ht, hh]
    simp only [Bool.not_true, Bool.false_eq_true, if_false, ne_eq, not_true_eq_false, resolve,
      if_neg hd]
    unfold ROOT_DIR_INODE
    rw [hroot fuel]
  · intro fuel
    unfold fs_list
    have ht : path_tokens (path_copy (ascii "/a")) = [(ascii "a", [])] := by decide
    have hh : (ascii "/a").head? = some SLASH := by decide
    have hd : (S.INODE_TABLE 1).i_is_directory ≠ 0 := by rw [hd1]; decide
    rw [hm, ht, hh, hres]
    simp only [Bool.not_true, Bool.false_eq_true, if_false, ne_eq, not_true_eq_false,
      if_neg hd]
    rw [hin fuel]

/-! ## Sound block pointers in the whole inode table -/

theorem file_ptr_same {s t : FS} {f g : Nat} (hd : t.disk = s.disk)
    (h : SameRefs (t.INODE_TABLE g) (s.INODE_TABLE f)) (i : Nat) :
    file_ptr t g i = file_ptr s f i := by
  unfold file_ptr
  rw [hd, h.2]
  by_cases hi : i < 13
  · rw [if_pos hi, if_pos hi, h.1 i hi]
  · rw [if_neg hi, if_neg hi]

theorem file_ptr_sub {s t : FS} {g : Nat} (hd : t.disk = s.disk)
    (h : SubRefs (t.INODE_TABLE g) (s.INODE_TABLE g)) (i : Nat) (hne : file_ptr t g i ≠ 0) :
    file_ptr t g i = file_ptr s g i := by
  unfold file_ptr at hne ⊢
  by_cases hi : i < 13
  · rw [if_pos hi] at hne ⊢
    rw [if_pos hi]
    rcases h.1 i hi with e | e
    · exact e
    · exact absurd e hne
  · rw [if_neg hi] at hne ⊢
    rw [if_neg hi]
    by_cases h0 : (t.INODE_TABLE g).i_indirect_pointer = 0
    · rw [if_pos h0] at hne; exact absurd rfl hne
    · rcases h.2 with e | e
      · rw [hd, e]
      · exact absurd e h0

theorem owns_sub {s t : FS} {g : Nat} (hd : t.disk = s.disk)
    (h : SubRefs (t.INODE_TABLE g) (s.INODE_TABLE g)) (b : Nat) (hb : owns t g b) :
    owns s g b := by
  obtain ⟨hb0, hb1 | hb1⟩ := hb
  · obtain ⟨i, hi, hp⟩ := hb1
    exact ⟨hb0, Or.inl ⟨i, hi, by rw [← file_ptr_sub hd h i (by rw [hp]; exact hb0), hp]⟩⟩
  · rcases h.2 with e | e
    · exact ⟨hb0, Or.inr (by rw [← e]; exact hb1)⟩
    · rw [e] at hb1; exact absurd hb1.symm hb0

/-- A block of an inode with sound pointers is a marked data block. -/
theorem FileOK.owns_marked {s : FS} {g : Nat} (h : FileOK s g) (b : Nat) (hb : owns s g b) :
    s.s_data_blocks_start ≤ b ∧ b < s.s_blocks_count ∧ BITMAP_TEST s.BLOCK_BITMAP b = true := by
  obtain ⟨hb0, hb1 | hb1⟩ := hb
  · obtain ⟨i, hi, hp⟩ := hb1
    obtain ⟨a1, a2, a3, _⟩ := h.ptr i hi (by rw [hp]; exact hb0)
    rw [hp] at a1 a2 a3
    exact ⟨a1, a2, a3⟩
  · have := h.ind (by rw [hb1]; exact hb0)
    rw [hb1] at this
    exact this

/-- Soundness is kept when references are dropped and bits are cleared only for blocks
that no inode refers to any more; the device is the same. -/
theorem Sound.shrink {s t : FS} (h : Sound s) (hsb : t.SUPERBLOCK = s.SUPERBLOCK)
    (hd : t.disk = s.disk) (hsub : ∀ g, SubRefs (t.INODE_TABLE g) (s.INODE_TABLE g))
    (hbits : ∀ b, BITMAP_TEST s.BLOCK_BITMAP b = true →
      BITMAP_TEST t.BLOCK_BITMAP b = true ∨ ∀ g, ¬ owns t g b) : Sound t := by
  have hmark : ∀ g b, owns t g b → BITMAP_TEST t.BLOCK_BITMAP b = true := by
    intro g b hb
    have hs := (h.ok g).owns_marked b (owns_sub hd (hsub g) b hb)
    rcases hbits b hs.2.2 with e | e
    · exact e
    · exact absurd hb (e g)
  refine ⟨fun g => ?_, ?_⟩
  · have hok := h.ok g
    refine ⟨by rw [FS.ds_congr hsb]; exact hok.ds_pos,
      by rw [FS.bc_congr hsb, hd]; exact hok.bc_le, ?_, ?_, ?_⟩
    · intro hne
      have e : (t.INODE_TABLE g).i_indirect_pointer = (s.INODE_TABLE g).i_indirect_pointer := by
        rcases (hsub g).2 with e | e
        · exact e
        · exact absurd e hne
      have := hok.ind (by rw [← e]; exact hne)
      rw [FS.ds_congr hsb, FS.bc_congr hsb]
      refine ⟨by rw [e]; exact this.1, by rw [e]; exact this.2.1, ?_⟩
      exact hmark g _ ⟨hne, Or.inr rfl⟩
    · intro i hi hne
      have e := file_ptr_sub hd (hsub g) i hne
      obtain ⟨a1, a2, _, a4⟩ := hok.ptr i hi (by rw [← e]; exact hne)
      rw [FS.ds_congr hsb, FS.bc_congr hsb]
      refine ⟨by rw [e]; exact a1, by rw [e]; exact a2,
        hmark g _ ⟨hne, Or.inl ⟨i, hi, rfl⟩⟩, ?_⟩
      rcases (hsub g).2 with e2 | e2
      · rw [e, e2]; exact a4
      · rw [e2]; exact hne
    · intro i j hi hj hij hne
      have e := file_ptr_sub hd (hsub g) i hne
      have hs := hok.inj i j hi hj hij (by rw [← e]; exact hne)
      by_cases hj0 : file_ptr t g j = 0
      · rw [hj0]; exact hne
      · rw [e, file_ptr_sub hd (hsub g) j hj0]
        exact hs
  · intro f g b hfg hf hg
    exact h.sep f g b hfg (owns_sub hd (hsub f) b hf) (owns_sub hd (hsub g) b hg)

/-- Holes do not appear when every regular file is either empty or as it was. -/
theorem NoHoles.noholes_shrink {s t : FS} (hn : NoHoles s) (hd : t.disk = s.disk)
    (h : ∀ g, (t.INODE_TABLE g).i_is_directory = 0 →
      (t.INODE_TABLE g).i_size = 0 ∨
      ((s.INODE_TABLE g).i_is_directory = 0 ∧
        (t.INODE_TABLE g).i_size = (s.INODE_TABLE g).i_size ∧
        SameRefs (t.INODE_TABLE g) (s.INODE_TABLE g))) : NoHoles t := by
  intro g hflag
  rcases h g hflag with e | ⟨e1, e2, e3⟩
  · rw [e]
    exact ⟨Nat.zero_le _, fun i hi => by omega⟩
  · rw [e2]
    obtain ⟨a1, a2⟩ := hn g e1
    refine ⟨a1, fun i hi => ?_⟩
    rw [file_ptr_same hd e3 i]
    exact a2 i hi

theorem disk_write_none (d : Disk) (n : Nat) (b : Block) (h : ¬ n < d.size) :
    disk_write d n b = none := by
  unfold disk_write
  rw [if_neg h]

/-- The invariant is kept when references are dropped and sizes of directories or of
emptied inodes change; the device and the block bitmap are the same. -/
theorem Inv.drop {s t : FS} (h : Inv s) (hm : t.MOUNT_FLAG = s.MOUNT_FLAG)
    (hsb : t.SUPERBLOCK = s.SUPERBLOCK) (hbb : t.BLOCK_BITMAP = s.BLOCK_BITMAP)
    (hd : t.disk = s.disk) (hsub : ∀ g, SubRefs (t.INODE_TABLE g) (s.INODE_TABLE g))
    (hsz : ∀ g, (t.INODE_TABLE g).i_is_directory = 0 →
      (t.INODE_TABLE g).i_size = 0 ∨
      ((s.INODE_TABLE g).i_is_directory = 0 ∧
        (t.INODE_TABLE g).i_size = (s.INODE_TABLE g).i_size ∧
        SameRefs (t.INODE_TABLE g) (s.INODE_TABLE g)))
    (hlive : LiveBit t) : Inv t :=
  ⟨hm.trans h.mounted,
    h.sound.shrink hsb hd hsub (fun b hb => Or.inl (by rw [hbb]; exact hb)),
    h.noholes.noholes_shrink hd hsz, hlive⟩

theorem Blank.zero : Blank zero_inode := ⟨rfl, rfl, fun _ _ => rfl⟩

theorem Keep.target {s t : FS} (h : Keep s t) (g : Nat)
    (hg : Blank (s.INODE_TABLE g) ∨ (s.INODE_TABLE g).i_is_directory ≠ 0) :
    Blank (t.INODE_TABLE g) ∨ (t.INODE_TABLE g).i_is_directory ≠ 0 := by
  rcases hg with hb | hf
  · exact Or.inl (h.blank g hb)
  · rcases h.flag g with e | e
    · exact Or.inl e
    · exact Or.inr (by rw [e]; exact hf)

end CFS
